import Mathlib

/-!
Verification of the Olist CSV data-loading pipeline (`src/data_loader.py`).

The pandas dataframes are embedded shallowly: a cell is a `Value` (null / int /
float-as-rational / string / parsed datetime), a row is an association list from
column name to `Value` (reads take the first binding, as a rectangular frame has
each column once), and a `DataFrame` carries its column list together with its
rows.  The pandas operations used by the pipeline are modelled with their
documented NA semantics:

* `merge` (inner/left, single key): output columns are the left columns
  followed by the right non-key columns; NaN join keys match NaN join keys.
  Pandas suffix-renaming of colliding column names is not modelled; the
  theorems below carry schema hypotheses keeping the column sets collision
  free, which is the regime in which this model agrees with pandas.
* `sort_values`: a total order with nulls last (pandas `na_position="last"`);
  the relative order of ties is not relied upon anywhere (pandas' default
  quicksort is not stable).
* `drop_duplicates(subset=[k], keep="last"/"first")`: keeps the last/first
  occurrence per key, preserving row order; null keys are duplicates of each
  other.
* `groupby(k).agg`: null keys are dropped, group keys are the distinct keys;
  `sum` skips nulls (empty sum is 0), `count` counts non-null entries,
  `first` takes the first non-null entry (null if none), `mean` averages the
  non-null numeric entries (null if none).
* `fillna` / `astype(int)` / `astype(str)`: `astype(int)` truncates a float
  toward zero (it is only applied to numeric-or-null columns in the theorems,
  matching the pandas regime where it does not raise); `astype(str)` renders
  a null as the string "nan", which is what pandas does on an object column.
* `pd.to_datetime(errors="coerce")` is modelled by a recognizer for
  ISO-formatted date strings; unparseable values become null.  No claim
  depends on the parsed value itself.

Files are modelled by a `FileSystem` mapping paths to stored tables tagged
with their on-disk format (CSV or parquet); the byte-level encodings are
abstracted away, which is exactly the fidelity the round-trip claim needs.
-/

namespace Olist

/-- A pandas cell: missing (NaN/NaT/None), an integer, a float (modelled as a
rational), a string, or a parsed datetime (carrying its source text). -/
inductive Value where
  | null : Value
  | int : Int → Value
  | num : ℚ → Value
  | str : String → Value
  | date : String → Value
deriving DecidableEq, Repr

def Value.isNull : Value → Bool
  | .null => true
  | _ => false

/-- Numeric view of a cell, if it is numeric. -/
def toRatV : Value → Option ℚ
  | .int n => some (n : ℚ)
  | .num q => some q
  | _ => none

def numericOrNull (v : Value) : Bool :=
  match v with
  | .null => true
  | .int _ => true
  | .num _ => true
  | _ => false

/-- Join-key / duplicate equality: pandas `merge` and `drop_duplicates` treat
NaN keys as equal to each other, and integer and float keys compare
numerically. -/
def valueBeq (a b : Value) : Bool :=
  match a, b with
  | .null, .null => true
  | .str s, .str t => s = t
  | .date s, .date t => s = t
  | .int _, .int _ | .int _, .num _ | .num _, .int _ | .num _, .num _ =>
      match toRatV a, toRatV b with
      | some x, some y => x = y
      | _, _ => false
  | _, _ => false

/-- Code-point lexicographic comparison of character lists: exactly Python's
string `<=`, which is what pandas uses to sort object columns. -/
def charListLe : List Char → List Char → Bool
  | [], _ => true
  | _ :: _, [] => false
  | a :: as, b :: bs =>
      if a.toNat < b.toNat then true
      else if b.toNat < a.toNat then false
      else charListLe as bs

def strLeB (s t : String) : Bool := charListLe s.toList t.toList

/-- Element-wise comparison as in `series <= 2`: false whenever either side is
null (NaN comparisons are false in pandas) or the sides are not comparable. -/
def cmpLeB (a b : Value) : Bool :=
  match toRatV a, toRatV b with
  | some x, some y => decide (x ≤ y)
  | _, _ =>
    match a, b with
    | .str s, .str t => strLeB s t
    | .date s, .date t => strLeB s t
    | _, _ => false

/-- Rank used by `sort_values`: numerics, then strings, then datetimes, with
nulls last (`na_position="last"`). -/
def vrank : Value → Nat
  | .int _ => 0
  | .num _ => 0
  | .str _ => 1
  | .date _ => 2
  | .null => 3

/-- Total order used to model `sort_values` (nulls last). -/
def sortLe (a b : Value) : Bool :=
  if vrank a < vrank b then true
  else if vrank b < vrank a then false
  else
    match a, b with
    | .null, .null => true
    | .str s, .str t => strLeB s t
    | .date s, .date t => strLeB s t
    | _, _ =>
      match toRatV a, toRatV b with
      | some x, some y => decide (x ≤ y)
      | _, _ => true

/-- Strictly-below in the sort order (used to state "the latest" uniquely). -/
def sortLtB (a b : Value) : Bool :=
  sortLe a b && !(sortLe b a)

/-- Truncation toward zero, as in `float.__int__` / numpy `astype(int)`. -/
def truncRat (q : ℚ) : Int :=
  if q < 0 then -(⌊-q⌋) else ⌊q⌋

/-- `astype(int)` on a numeric-or-null cell (pandas raises on anything else;
the theorems stay inside the numeric-or-null regime via hypotheses). -/
def astypeIntV : Value → Value
  | .int n => .int n
  | .num q => .int (truncRat q)
  | _ => .null

/-- `astype(str)` on an object cell: a string stays itself and a null becomes
the literal string "nan" (as pandas renders NaN). -/
def astypeStrV : Value → Value
  | .str s => .str s
  | .null => .str "nan"
  | .int n => .str (toString n)
  | .num q => .str (toString q.num ++ "/" ++ toString q.den)
  | .date s => .str s

/-- `Series.fillna(v)` at cell level. -/
def fillnaVal (x v : Value) : Value :=
  if x = .null then v else x

/-- Recognizer for an ISO-like date prefix "YYYY-MM-DD". -/
def isDateLike (s : String) : Bool :=
  match s.toList with
  | a :: b :: c :: d :: e :: f :: g :: h :: i :: j :: _ =>
      a.isDigit && b.isDigit && c.isDigit && d.isDigit && (e == '-') &&
      f.isDigit && g.isDigit && (h == '-') && i.isDigit && j.isDigit
  | _ => false

/-- `pd.to_datetime(x, errors="coerce")` at cell level: parse or null.
Numeric epochs are represented nominally; no claim inspects them. -/
def toDatetimeV : Value → Value
  | .str s => if isDateLike s then .date s else .null
  | .date s => .date s
  | .null => .null
  | .int n => .date (toString n)
  | .num q => .date (toString q.num)

/-- A dataframe row: column name to cell.  Reads take the first binding. -/
abbrev Row := List (String × Value)

def rlookup (c : String) : Row → Option Value
  | [] => none
  | p :: ps => if p.1 = c then some p.2 else rlookup c ps

/-- Read column `c` of row `r` (null when the binding is absent). -/
def getV (r : Row) (c : String) : Value :=
  (rlookup c r).getD .null

def eraseKey (r : Row) (c : String) : Row :=
  match r with
  | [] => []
  | p :: ps => if p.1 = c then eraseKey ps c else p :: eraseKey ps c

/-- Assign column `c` of row `r` (pandas `df[c] = ...` at row level). -/
def setV (r : Row) (c : String) (v : Value) : Row :=
  (c, v) :: eraseKey r c

/-- Projection `df[cols]` at row level, via `getV`. -/
def selectRow (cs : List String) (r : Row) : Row :=
  cs.map (fun c => (c, getV r c))

/-- `df.rename(columns={a: b})` at row level. -/
def renameRow (a b : String) (r : Row) : Row :=
  r.map (fun p => if p.1 == a then (b, p.2) else p)

/-- A dataframe: ordered column names plus rows. -/
structure DataFrame where
  cols : List String
  rows : List Row
deriving DecidableEq, Repr

/-- Every binding key of every row is a declared column (rectangular frames
satisfy this; the frames built by the pipeline preserve it). -/
def rowsWFB (df : DataFrame) : Bool :=
  df.rows.all (fun r => r.all (fun p => df.cols.contains p.1))

/-- `df[cols]`. -/
def select (df : DataFrame) (cs : List String) : DataFrame :=
  { cols := cs, rows := df.rows.map (selectRow cs) }

/-- `df.rename(columns={a: b})`. -/
def rename (df : DataFrame) (a b : String) : DataFrame :=
  { cols := df.cols.map (fun c => if c == a then b else c),
    rows := df.rows.map (renameRow a b) }

/-- Insertion into a list sorted by `le`. -/
def insBy {α : Type} (le : α → α → Bool) (x : α) : List α → List α
  | [] => [x]
  | y :: ys => if le x y then x :: y :: ys else y :: insBy le x ys

/-- Insertion sort by `le`. -/
def insSort {α : Type} (le : α → α → Bool) : List α → List α
  | [] => []
  | x :: xs => insBy le x (insSort le xs)

/-- `df.sort_values(c)` (ascending, nulls last; tie order is not relied on). -/
def sort_values (df : DataFrame) (c : String) : DataFrame :=
  { cols := df.cols,
    rows := insSort (fun r1 r2 => sortLe (getV r1 c) (getV r2 c)) df.rows }

/-- `df.drop_duplicates(subset=[k], keep="last")`: a row survives iff no later
row has a key equal to its key. -/
def dedupLast (k : String) : List Row → List Row
  | [] => []
  | r :: rest =>
      if rest.any (fun r2 => valueBeq (getV r2 k) (getV r k)) then dedupLast k rest
      else r :: dedupLast k rest

def dedupLastCol (df : DataFrame) (k : String) : DataFrame :=
  { cols := df.cols, rows := dedupLast k df.rows }

/-- `drop_duplicates(subset=[k], keep="first")`, with an accumulator of the
keys already kept. -/
def dedupFirstAux (k : String) (seen : List Value) : List Row → List Row
  | [] => []
  | r :: rest =>
      if seen.any (fun v => valueBeq v (getV r k)) then dedupFirstAux k seen rest
      else r :: dedupFirstAux k (getV r k :: seen) rest

def dedupFirstCol (df : DataFrame) (k : String) : DataFrame :=
  { cols := df.cols, rows := dedupFirstAux k [] df.rows }

/-- Keep-first deduplication of a value list (used for group keys). -/
def dedupValuesAux (seen : List Value) : List Value → List Value
  | [] => []
  | v :: rest =>
      if seen.any (fun w => valueBeq w v) then dedupValuesAux seen rest
      else v :: dedupValuesAux (v :: seen) rest

/-- Keep-first deduplication of duplicate column names (`df.loc[:, ~dup]`).
Rows are untouched: reads already take the first binding. -/
def dedupColsAux (seen : List String) : List String → List String
  | [] => []
  | c :: rest =>
      if seen.contains c then dedupColsAux seen rest
      else c :: dedupColsAux (c :: seen) rest

def dropDupCols (df : DataFrame) : DataFrame :=
  { cols := dedupColsAux [] df.cols, rows := df.rows }

/-- Concatenation of per-row blocks (the shape of a pandas join's row set). -/
def rowsBind (l : List Row) (f : Row → List Row) : List Row :=
  match l with
  | [] => []
  | r :: rest => f r ++ rowsBind rest f

/-- The right-side rows whose key matches the key of the left row `lr`. -/
def leftMatches (R : DataFrame) (k : String) (lr : Row) : List Row :=
  R.rows.filter (fun rr => valueBeq (getV lr k) (getV rr k))

/-- The all-null right side of an unmatched left row. -/
def nullRow (cols : List String) (k : String) : Row :=
  (cols.filter (fun c => !(c == k))).map (fun c => (c, Value.null))

/-- `L.merge(R, on=k, how="left")`. -/
def merge_left (L R : DataFrame) (k : String) : DataFrame :=
  { cols := L.cols ++ R.cols.filter (fun c => !(c == k)),
    rows := rowsBind L.rows (fun lr =>
      if (leftMatches R k lr).isEmpty then [lr ++ nullRow R.cols k]
      else (leftMatches R k lr).map (fun rr => lr ++ eraseKey rr k)) }

/-- `L.merge(R, on=k, how="inner")`. -/
def merge_inner (L R : DataFrame) (k : String) : DataFrame :=
  { cols := L.cols ++ R.cols.filter (fun c => !(c == k)),
    rows := rowsBind L.rows (fun lr =>
      (leftMatches R k lr).map (fun rr => lr ++ eraseKey rr k)) }

/-- `df[c] = f(row)` for every row. -/
def setCol (df : DataFrame) (c : String) (f : Row → Value) : DataFrame :=
  { cols := if df.cols.contains c then df.cols else df.cols ++ [c],
    rows := df.rows.map (fun r => setV r c (f r)) }

/-- `df[c] = df[c].fillna(v)`. -/
def fillnaCol (df : DataFrame) (c : String) (v : Value) : DataFrame :=
  setCol df c (fun r => fillnaVal (getV r c) v)

/-- `df[c] = df[c].astype(int)`. -/
def astypeIntCol (df : DataFrame) (c : String) : DataFrame :=
  setCol df c (fun r => astypeIntV (getV r c))

/-- `_parse_dates`: coerce each listed column to datetime when present. -/
def parse_dates (df : DataFrame) (cs : List String) : DataFrame :=
  cs.foldl (fun d c =>
    if d.cols.contains c then setCol d c (fun r => toDatetimeV (getV r c)) else d) df

/-- `groupby(k).agg(... "sum")`: sum of the non-null numeric entries. -/
def aggSum (g : List Row) (c : String) : ℚ :=
  g.foldr (fun r acc => acc + ((toRatV (getV r c)).getD 0)) 0

/-- `groupby(k).agg(... "count")`: number of non-null entries. -/
def aggCount (g : List Row) (c : String) : Nat :=
  (g.filter (fun r => !(getV r c).isNull)).length

/-- `groupby(k).agg(... "first")`: first non-null entry, null if none. -/
def aggFirst (g : List Row) (c : String) : Value :=
  ((g.map (fun r => getV r c)).filter (fun v => !v.isNull)).headD .null

/-- `groupby(k).agg(... "mean")`: mean of the non-null numeric entries. -/
def aggMean (g : List Row) (c : String) : Value :=
  let vs := g.filterMap (fun r => toRatV (getV r c))
  match vs with
  | [] => .null
  | _ => .num ((vs.foldr (· + ·) 0) / (vs.length : ℚ))

/-- The group keys of `groupby(k)`: distinct non-null keys, sorted. -/
def groupKeys (df : DataFrame) (k : String) : List Value :=
  insSort sortLe (dedupValuesAux [] ((df.rows.map (fun r => getV r k)).filter (fun v => !v.isNull)))

/-- The rows of the group of key `kv`. -/
def groupRows (df : DataFrame) (k : String) (kv : Value) : List Row :=
  df.rows.filter (fun r => valueBeq (getV r k) kv)

/-- The `tables` dict produced by `load_raw_tables`.  `category_translation`
is optional because `build_modeling_dataframe` reads it with `tables.get`,
which tolerates an absent key (the loader itself always supplies it). -/
structure Tables where
  orders : DataFrame
  customers : DataFrame
  order_items : DataFrame
  order_payments : DataFrame
  reviews : DataFrame
  products : DataFrame
  sellers : DataFrame
  geolocation : DataFrame
  category_translation : Option DataFrame
deriving DecidableEq, Repr

/-- Review deduplication in `build_orders_with_target` (lines 58-63): one
review per order, sorting by creation date and keeping the last, but only
when the creation-date column is present — otherwise no deduplication at
all happens. -/
def dedup_reviews (reviews : DataFrame) : DataFrame :=
  if reviews.cols.contains "review_creation_date" then
    dedupLastCol (sort_values reviews "review_creation_date") "order_id"
  else reviews

/-- `build_orders_with_target` (lines 49-68): inner-join orders to the
deduplicated review scores and derive `target = 1 if review_score <= 2 else 0`
(a NaN score compares false, hence target 0). -/
def build_orders_with_target (orders reviews : DataFrame) : DataFrame :=
  let reviews2 := select (dedup_reviews reviews) ["order_id", "review_score"]
  let merged := merge_inner orders reviews2 "order_id"
  setCol merged "target"
    (fun r => .int (if cmpLeB (getV r "review_score") (.int 2) then 1 else 0))

/-- The five order timestamp columns parsed at lines 102-111. -/
def order_date_cols : List String :=
  ["order_purchase_timestamp", "order_approved_at", "order_delivered_carrier_date",
   "order_delivered_customer_date", "order_estimated_delivery_date"]

/-- The `order_items` aggregation of lines 116-123. -/
def order_agg (items : DataFrame) : DataFrame :=
  { cols := ["order_id", "order_value", "freight_value", "num_items", "product_id", "seller_id"],
    rows := (groupKeys items "order_id").map (fun k =>
      let g := groupRows items "order_id" k
      [("order_id", k),
       ("order_value", .num (aggSum g "price")),
       ("freight_value", .num (aggSum g "freight_value")),
       ("num_items", .int (aggCount g "order_item_id")),
       ("product_id", aggFirst g "product_id"),
       ("seller_id", aggFirst g "seller_id")]) }

/-- Lines 113-131: join the order-item aggregates and fill the gaps. -/
def stage_items (t : Tables) (df : DataFrame) : DataFrame :=
  let items := parse_dates t.order_items ["shipping_limit_date"]
  let o := merge_left df (order_agg items) "order_id"
  let o := fillnaCol o "order_value" (.int 0)
  let o := fillnaCol o "freight_value" (.int 0)
  let o := astypeIntCol (fillnaCol o "num_items" (.int 0)) "num_items"
  let o := fillnaCol o "product_id" (.str "")
  fillnaCol o "seller_id" (.str "")

def pay_cols_all : List String :=
  ["order_id", "payment_type", "payment_installments", "payment_value"]

/-- Lines 133-142: primary payment per order, joined and filled. -/
def stage_payments (t : Tables) (df : DataFrame) : DataFrame :=
  let payments := dedupFirstCol (sort_values t.order_payments "payment_sequential") "order_id"
  let pc := pay_cols_all.filter (fun c => payments.cols.contains c)
  let o := merge_left df (select payments pc) "order_id"
  let o := fillnaCol o "payment_type" (.str "unknown")
  astypeIntCol (fillnaCol o "payment_installments" (.int 0)) "payment_installments"

def cust_cols_all : List String :=
  ["customer_id", "customer_zip_code_prefix", "customer_city", "customer_state"]

/-- Lines 144-148. -/
def stage_customers (t : Tables) (df : DataFrame) : DataFrame :=
  merge_left df (select t.customers (cust_cols_all.filter (fun c => t.customers.cols.contains c))) "customer_id"

def seller_cols_all : List String :=
  ["seller_id", "seller_zip_code_prefix", "seller_city", "seller_state"]

/-- Lines 150-154. -/
def stage_sellers (t : Tables) (df : DataFrame) : DataFrame :=
  merge_left df (select t.sellers (seller_cols_all.filter (fun c => t.sellers.cols.contains c))) "seller_id"

def prod_cols_all : List String :=
  ["product_id", "product_category_name", "product_weight_g", "product_length_cm",
   "product_height_cm", "product_width_cm"]

/-- Lines 156-167. -/
def stage_products (t : Tables) (df : DataFrame) : DataFrame :=
  merge_left df (select t.products (prod_cols_all.filter (fun c => t.products.cols.contains c))) "product_id"

/-- Lines 169-179: optional category-translation join with fallback to the
original category name (`astype(str)` renders a NaN category as "nan" in the
joined branch and `fillna("")` yields "" in the fallback branch). -/
def stage_translation (t : Tables) (df : DataFrame) : DataFrame :=
  match t.category_translation with
  | some tr =>
      if tr.cols.contains "product_category_name" then
        let en_col := if tr.cols.contains "product_category_name_english" then
            "product_category_name_english" else tr.cols.getD 1 ""
        let tsel := rename (select tr ["product_category_name", en_col]) en_col "product_category_english"
        let o := merge_left df tsel "product_category_name"
        setCol o "product_category_english"
          (fun r => fillnaVal (getV r "product_category_english")
            (astypeStrV (getV r "product_category_name")))
      else
        setCol df "product_category_english"
          (fun r => astypeStrV (fillnaVal (getV r "product_category_name") (.str "")))
  | none =>
      setCol df "product_category_english"
        (fun r => astypeStrV (fillnaVal (getV r "product_category_name") (.str "")))

/-- The geolocation aggregate of lines 184-188. -/
def geo_agg_df (geo : DataFrame) : DataFrame :=
  rename
    { cols := ["geolocation_zip_code_prefix", "lat", "lng"],
      rows := (groupKeys geo "geolocation_zip_code_prefix").map (fun k =>
        let g := groupRows geo "geolocation_zip_code_prefix" k
        [("geolocation_zip_code_prefix", k),
         ("lat", aggMean g "geolocation_lat"),
         ("lng", aggMean g "geolocation_lng")]) }
    "geolocation_zip_code_prefix" "zip_prefix"

/-- Lines 181-194: zip prefixes coerced (missing = 0, then `astype(int)`) and
the per-prefix mean latitude/longitude joined for customer and seller. -/
def stage_geo (t : Tables) (df : DataFrame) : DataFrame :=
  if t.geolocation.cols.contains "geolocation_zip_code_prefix" then
    let ga := geo_agg_df t.geolocation
    let o := astypeIntCol (fillnaCol df "customer_zip_code_prefix" (.int 0)) "customer_zip_code_prefix"
    let o := astypeIntCol (fillnaCol o "seller_zip_code_prefix" (.int 0)) "seller_zip_code_prefix"
    let cust_geo := rename (rename (rename ga "zip_prefix" "customer_zip_code_prefix") "lat" "customer_lat") "lng" "customer_lng"
    let o := merge_left o cust_geo "customer_zip_code_prefix"
    let sell_geo := rename (rename (rename ga "zip_prefix" "seller_zip_code_prefix") "lat" "seller_lat") "lng" "seller_lng"
    merge_left o sell_geo "seller_zip_code_prefix"
  else df

/-- The pipeline after `build_orders_with_target`, split at each stage so the
theorems can reason at the cut points. -/
def tail_geo (t : Tables) (df : DataFrame) : DataFrame :=
  dropDupCols (stage_geo t df)

def tail_translation (t : Tables) (df : DataFrame) : DataFrame :=
  tail_geo t (stage_translation t df)

def tail_products (t : Tables) (df : DataFrame) : DataFrame :=
  tail_translation t (stage_products t df)

def tail_sellers (t : Tables) (df : DataFrame) : DataFrame :=
  tail_products t (stage_sellers t df)

def tail_customers (t : Tables) (df : DataFrame) : DataFrame :=
  tail_sellers t (stage_customers t df)

def tail_payments (t : Tables) (df : DataFrame) : DataFrame :=
  tail_customers t (stage_payments t df)

def tail_items (t : Tables) (df : DataFrame) : DataFrame :=
  tail_payments t (stage_items t df)

/-- `build_modeling_dataframe` minus I/O (lines 88-213): load is factored out,
console validation prints carry no data, and saving is handled by the
file-system wrapper below. -/
def build_modeling_dataframe_pure (t : Tables) : DataFrame :=
  tail_items t (parse_dates (build_orders_with_target t.orders t.reviews) order_date_cols)

/-! ### File-system model for `load_raw_tables`, saving, and `load_modeling_data` -/

/-- Stored file content, tagged with its on-disk format.  The byte encoding is
abstracted: a stored table is recovered verbatim by the matching reader. -/
inductive FileData where
  | csv : DataFrame → FileData
  | parquet : DataFrame → FileData
deriving DecidableEq, Repr

structure FileSystem where
  dirs : List String
  files : List (String × FileData)
deriving DecidableEq, Repr

def flookup (p : String) : List (String × FileData) → Option FileData
  | [] => none
  | q :: qs => if q.1 = p then some q.2 else flookup p qs

def pathJoin (d f : String) : String := d ++ "/" ++ f

/-- `DEFAULT_FILES` (lines 14-24), in dict insertion order. -/
def DEFAULT_FILES : List (String × String) :=
  [("orders", "olist_orders_dataset.csv"),
   ("customers", "olist_customers_dataset.csv"),
   ("order_items", "olist_order_items_dataset.csv"),
   ("order_payments", "olist_order_payments_dataset.csv"),
   ("reviews", "olist_order_reviews_dataset.csv"),
   ("products", "olist_products_dataset.csv"),
   ("sellers", "olist_sellers_dataset.csv"),
   ("geolocation", "olist_geolocation_dataset.csv"),
   ("category_translation", "product_category_name_translation.csv")]

/-- `pd.read_csv` on a stored file: the stored table, verbatim. -/
def read_csv_file : FileData → DataFrame
  | .csv df => df
  | .parquet df => df

/-- The loading loop of lines 33-39: first missing file aborts with its path. -/
def load_files (fs : FileSystem) (dp : String) : List (String × String) → Except String (List (String × DataFrame))
  | [] => .ok []
  | (key, fname) :: rest =>
      let fp := pathJoin dp fname
      match flookup fp fs.files with
      | none => .error ("Expected CSV not found: " ++ fp)
      | some fd => (load_files fs dp rest).map (fun ts => (key, read_csv_file fd) :: ts)

/-- `load_raw_tables` (lines 27-39). -/
def load_raw_tables (fs : FileSystem) (dataDir : String) : Except String (List (String × DataFrame)) :=
  if fs.dirs.contains dataDir then load_files fs dataDir DEFAULT_FILES
  else .error ("Data directory not found: " ++ dataDir)

def tlookup (n : String) : List (String × DataFrame) → Option DataFrame
  | [] => none
  | q :: qs => if q.1 = n then some q.2 else tlookup n qs

def emptyDF : DataFrame := { cols := [], rows := [] }

/-- View the loaded table list as the `tables` dict consumed by the pipeline
(`load_raw_tables` always supplies every key). -/
def tablesOf (tl : List (String × DataFrame)) : Tables :=
  { orders := (tlookup "orders" tl).getD emptyDF,
    customers := (tlookup "customers" tl).getD emptyDF,
    order_items := (tlookup "order_items" tl).getD emptyDF,
    order_payments := (tlookup "order_payments" tl).getD emptyDF,
    reviews := (tlookup "reviews" tl).getD emptyDF,
    products := (tlookup "products" tl).getD emptyDF,
    sellers := (tlookup "sellers" tl).getD emptyDF,
    geolocation := (tlookup "geolocation" tl).getD emptyDF,
    category_translation := tlookup "category_translation" tl }

/-- `pathlib.Path(p).suffix`: the extension of the final component, including
the dot; empty when the final component has no internal dot. -/
def suffixChars (cs : List Char) : List Char :=
  let base := (cs.reverse.takeWhile (fun c => !(c == '/'))).reverse
  let ext := base.reverse.takeWhile (fun c => !(c == '.'))
  if base.contains '.' && ext.length != 0 && ext.length + 1 < base.length then
    '.' :: ext.reverse
  else []

def pathSuffix (p : String) : String := String.mk (suffixChars p.toList)

/-- Lines 204-211: save to parquet when the extension is ".parquet", else CSV
(`mkdir(parents=True)` only affects directories, which the reader ignores). -/
def save_dataframe (fs : FileSystem) (p : String) (df : DataFrame) : FileSystem :=
  { fs with files :=
      (p, if pathSuffix p = ".parquet" then FileData.parquet df else FileData.csv df) :: fs.files }

/-- `load_modeling_data` (lines 216-223): missing path aborts with the path;
otherwise decode by the same extension rule the writer used (reading a file
whose stored format contradicts its extension fails, as the mismatched pandas
reader does). -/
def load_modeling_data (fs : FileSystem) (p : String) : Except String DataFrame :=
  match flookup p fs.files with
  | none => .error ("Modeling data not found: " ++ p)
  | some fd =>
      if pathSuffix p = ".parquet" then
        match fd with
        | .parquet df => .ok df
        | .csv _ => .error ("not a parquet file: " ++ p)
      else
        match fd with
        | .csv df => .ok df
        | .parquet _ => .error ("not a csv file: " ++ p)

/-- `build_modeling_dataframe` with its I/O: load (errors propagate before any
join), assemble, optionally save.  Returns the dataframe and the resulting
file system. -/
def build_modeling_dataframe (fs : FileSystem) (dataDir : String) (savePath : Option String) :
    Except String (DataFrame × FileSystem) :=
  match load_raw_tables fs dataDir with
  | .error e => .error e
  | .ok tl =>
      let df := build_modeling_dataframe_pure (tablesOf tl)
      match savePath with
      | some p => .ok (df, save_dataframe fs p df)
      | none => .ok (df, fs)

/-! ### Derived notions used in theorem statements -/

/-- The distinct order ids appearing in both the orders and the reviews table
(the count the spec predicts for the output row count). -/
def sharedOrderIds (orders reviews : DataFrame) : List Value :=
  dedupValuesAux []
    ((orders.rows.map (fun r => getV r "order_id")).filter
      (fun v => reviews.rows.any (fun rr => valueBeq (getV rr "order_id") v)))

/-- The geolocation aggregate a zip prefix receives: the mean of column `c`
over the geolocation rows of that prefix, or null when the prefix has no
geolocation row at all. -/
def geoLookup (geo : DataFrame) (c : String) (v : Value) : Value :=
  if (groupRows geo "geolocation_zip_code_prefix" v).isEmpty then .null
  else aggMean (groupRows geo "geolocation_zip_code_prefix" v) c

/-- The English name the translation table offers for a category value:
the English cell of the matching row, or null when no row matches. -/
def transLookup (tr : DataFrame) (v : Value) : Value :=
  ((tr.rows.filter (fun rw => valueBeq v (getV rw "product_category_name"))).map
    (fun rw => getV rw "product_category_name_english")).headD .null

/-! ### Basic algebra of `valueBeq` and the sort order -/

theorem valueBeq_refl (a : Value) : valueBeq a a = true := by
  cases a <;> simp [valueBeq, toRatV]

theorem valueBeq_symm (a b : Value) : valueBeq a b = valueBeq b a := by
  cases a <;> cases b <;> simp [valueBeq, toRatV, eq_comm]

theorem valueBeq_trans {a b c : Value} (h1 : valueBeq a b = true) (h2 : valueBeq b c = true) :
    valueBeq a c = true := by
  cases a <;> cases b <;> cases c <;>
    simp_all [valueBeq, toRatV]

theorem valueBeq_congr_right {k1 k2 : Value} (h : valueBeq k1 k2 = true) (a : Value) :
    valueBeq a k1 = valueBeq a k2 := by
  by_cases h1 : valueBeq a k1 = true
  · rw [h1]; exact (valueBeq_trans h1 h).symm
  · by_cases h2 : valueBeq a k2 = true
    · exact absurd (valueBeq_trans h2 (valueBeq_symm k1 k2 ▸ h)) h1
    · simp [Bool.not_eq_true] at h1 h2; rw [h1, h2]

theorem charListLe_total : ∀ as bs : List Char,
    charListLe as bs = true ∨ charListLe bs as = true := by
  intro as
  induction as with
  | nil => intro bs; left; rfl
  | cons a as1 ih =>
      intro bs
      cases bs with
      | nil => right; rfl
      | cons b bs1 =>
          by_cases h1 : a.toNat < b.toNat
          · left; simp [charListLe, h1]
          · by_cases h2 : b.toNat < a.toNat
            · right; simp [charListLe, h2]
            · rcases ih bs1 with h | h
              · left; simp [charListLe, h1, h2, h]
              · right; simp [charListLe, h1, h2, h]

theorem charListLe_trans : ∀ as bs cs : List Char,
    charListLe as bs = true → charListLe bs cs = true → charListLe as cs = true := by
  intro as
  induction as with
  | nil => intro bs cs _ _; rfl
  | cons a as1 ih =>
      intro bs cs h1 h2
      cases bs with
      | nil => simp [charListLe] at h1
      | cons b bs1 =>
          cases cs with
          | nil => simp [charListLe] at h2
          | cons c cs1 =>
              by_cases hab : a.toNat < b.toNat
              · by_cases hbc : b.toNat < c.toNat
                · have hac : a.toNat < c.toNat := Nat.lt_trans hab hbc
                  simp [charListLe, hac]
                · by_cases hcb : c.toNat < b.toNat
                  · simp [charListLe, hbc, hcb] at h2
                  · have hac : a.toNat < c.toNat := by omega
                    simp [charListLe, hac]
              · by_cases hba : b.toNat < a.toNat
                · simp [charListLe, hab, hba] at h1
                · have h1r : charListLe as1 bs1 = true := by
                    simpa [charListLe, hab, hba] using h1
                  by_cases hbc : b.toNat < c.toNat
                  · have hac : a.toNat < c.toNat := by omega
                    simp [charListLe, hac]
                  · by_cases hcb : c.toNat < b.toNat
                    · simp [charListLe, hbc, hcb] at h2
                    · have h2r : charListLe bs1 cs1 = true := by
                        simpa [charListLe, hbc, hcb] using h2
                      have hac : ¬ a.toNat < c.toNat := by omega
                      have hca : ¬ c.toNat < a.toNat := by omega
                      simp [charListLe, hac, hca, ih bs1 cs1 h1r h2r]

theorem strLeB_total (s t : String) : strLeB s t = true ∨ strLeB t s = true :=
  charListLe_total s.toList t.toList

theorem strLeB_trans {s t u : String} (h1 : strLeB s t = true) (h2 : strLeB t u = true) :
    strLeB s u = true :=
  charListLe_trans s.toList t.toList u.toList h1 h2

theorem sortLe_total (a b : Value) : sortLe a b = true ∨ sortLe b a = true := by
  rcases Nat.lt_trichotomy (vrank a) (vrank b) with h | h | h
  · left; simp [sortLe, h]
  · cases a <;> cases b <;> simp_all [sortLe, vrank, toRatV] <;>
      first
        | exact le_total _ _
        | exact strLeB_total _ _
  · right; simp [sortLe, h]

theorem sortLe_trans {a b c : Value} (h1 : sortLe a b = true) (h2 : sortLe b c = true) :
    sortLe a c = true := by
  cases a <;> cases b <;> cases c <;>
    simp_all [sortLe, vrank, toRatV] <;>
    first
      | exact le_trans h1 h2
      | exact strLeB_trans h1 h2
      | (qify at h1 h2 ⊢; exact le_trans h1 h2)

/-! ### Row lookup lemmas -/

theorem rlookup_append (c : String) (l1 l2 : Row) :
    rlookup c (l1 ++ l2) = ((rlookup c l1).orElse (fun _ => rlookup c l2)) := by
  induction l1 with
  | nil => simp [rlookup]
  | cons p ps ih =>
      by_cases h : p.1 = c <;> simp [rlookup, h, ih]

theorem getV_append_of_right_none {c : String} {l2 : Row} (h : rlookup c l2 = none)
    (l1 : Row) : getV (l1 ++ l2) c = getV l1 c := by
  unfold getV
  rw [rlookup_append]
  cases h1 : rlookup c l1 <;> simp [Option.orElse, h, h1]

theorem getV_append_of_left_none {c : String} {l1 : Row} (h : rlookup c l1 = none)
    (l2 : Row) : getV (l1 ++ l2) c = getV l2 c := by
  unfold getV
  rw [rlookup_append]
  simp [Option.orElse, h]

theorem rlookup_none_of_keys {c : String} {r : Row} (h : ∀ p ∈ r, p.1 ≠ c) :
    rlookup c r = none := by
  induction r with
  | nil => rfl
  | cons p ps ih =>
      have hp := h p (by simp)
      simp [rlookup, hp, ih (fun q hq => h q (by simp [hq]))]

theorem rlookup_eraseKey_self (r : Row) (c : String) : rlookup c (eraseKey r c) = none := by
  induction r with
  | nil => rfl
  | cons p ps ih =>
      by_cases hc : p.1 = c <;> simp [eraseKey, rlookup, hc, ih]

theorem rlookup_eraseKey_ne {d c : String} (h : d ≠ c) (r : Row) :
    rlookup d (eraseKey r c) = rlookup d r := by
  have hcd : ¬ c = d := fun hh => h hh.symm
  induction r with
  | nil => rfl
  | cons p ps ih =>
      by_cases hc : p.1 = c
      · simp [eraseKey, rlookup, hc, hcd, ih]
      · by_cases hd : p.1 = d <;> simp [eraseKey, rlookup, hc, hd, hcd, h, ih]

theorem keys_eraseKey {r : Row} {c : String} {p : String × Value}
    (hp : p ∈ eraseKey r c) : p ∈ r := by
  induction r with
  | nil => cases hp
  | cons q qs ih =>
      by_cases hc : q.1 = c
      · simp [eraseKey, hc] at hp
        exact List.mem_cons_of_mem q (ih hp)
      · simp [eraseKey, hc] at hp
        rcases hp with hp | hp
        · simp [hp]
        · exact List.mem_cons_of_mem q (ih hp)

theorem getV_setV_self (r : Row) (c : String) (v : Value) : getV (setV r c v) c = v := by
  simp [setV, getV, rlookup]

theorem getV_setV_ne {d c : String} (h : d ≠ c) (r : Row) (v : Value) :
    getV (setV r c v) d = getV r d := by
  have hcd : ¬ c = d := fun hh => h hh.symm
  simp [setV, getV, rlookup, hcd, rlookup_eraseKey_ne h]

theorem rlookup_selectRow_mem {c : String} {cs : List String} (h : c ∈ cs) (r : Row) :
    rlookup c (selectRow cs r) = some (getV r c) := by
  induction cs with
  | nil => cases h
  | cons d ds ih =>
      by_cases hd : d = c
      · subst hd; simp [selectRow, rlookup]
      · rcases List.mem_cons.mp h with h1 | h1
        · exact absurd h1.symm hd
        · simp [selectRow, rlookup, hd] at ih ⊢
          exact ih h1

theorem rlookup_selectRow_not_mem {c : String} {cs : List String} (h : c ∉ cs) (r : Row) :
    rlookup c (selectRow cs r) = none := by
  apply rlookup_none_of_keys
  intro p hp
  simp [selectRow] at hp
  rcases hp with ⟨d, hd, he⟩
  rw [← he]
  exact fun hh => h (hh ▸ hd)

theorem getV_selectRow_mem {c : String} {cs : List String} (h : c ∈ cs) (r : Row) :
    getV (selectRow cs r) c = getV r c := by
  simp [getV, rlookup_selectRow_mem h]

theorem keys_selectRow {cs : List String} {r : Row} {p : String × Value}
    (hp : p ∈ selectRow cs r) : p.1 ∈ cs := by
  simp [selectRow] at hp
  rcases hp with ⟨d, hd, he⟩
  rw [← he]
  exact hd

/-! ### rowsBind lemmas -/

theorem mem_rowsBind {x : Row} {l : List Row} {f : Row → List Row} :
    x ∈ rowsBind l f ↔ ∃ r ∈ l, x ∈ f r := by
  induction l with
  | nil => simp [rowsBind]
  | cons r rest ih => simp [rowsBind, ih]

theorem map_rowsBind_singleton {l : List Row} {f : Row → List Row} {g : Row → Value}
    (h : ∀ r ∈ l, (f r).map g = [g r]) :
    (rowsBind l f).map g = l.map g := by
  induction l with
  | nil => rfl
  | cons r rest ih =>
      simp only [rowsBind, List.map_append, List.map_cons]
      rw [h r (by simp), ih (fun q hq => h q (by simp [hq]))]
      rfl

theorem map_rowsBind_filter {l : List Row} {f : Row → List Row} {g : Row → Value}
    {p : Row → Bool}
    (h : ∀ r ∈ l, (f r).map g = if p r then [g r] else []) :
    (rowsBind l f).map g = (l.filter p).map g := by
  induction l with
  | nil => rfl
  | cons r rest ih =>
      simp only [rowsBind, List.map_append]
      rw [h r (by simp), ih (fun q hq => h q (by simp [hq]))]
      by_cases hp : p r <;> simp [hp]

/-! ### Insertion sort: permutation and sortedness -/

theorem insBy_perm {α : Type} (le : α → α → Bool) (x : α) (l : List α) :
    List.Perm (insBy le x l) (x :: l) := by
  induction l with
  | nil => exact List.Perm.refl _
  | cons y ys ih =>
      by_cases h : le x y
      · simp [insBy, h]
      · simp only [insBy, h, Bool.false_eq_true, if_neg, not_false_eq_true]
        exact (ih.cons y).trans (List.Perm.swap x y ys)

theorem insSort_perm {α : Type} (le : α → α → Bool) (l : List α) :
    List.Perm (insSort le l) l := by
  induction l with
  | nil => exact List.Perm.refl _
  | cons x xs ih => exact (insBy_perm le x _).trans (ih.cons x)

theorem insBy_pairwise {α : Type} {le : α → α → Bool}
    (htot : ∀ a b, le a b = true ∨ le b a = true)
    (htrans : ∀ a b c, le a b = true → le b c = true → le a c = true)
    {x : α} {l : List α}
    (hl : l.Pairwise (fun a b => le a b = true)) :
    (insBy le x l).Pairwise (fun a b => le a b = true) := by
  induction l with
  | nil => simp [insBy]
  | cons y ys ih =>
      rw [List.pairwise_cons] at hl
      obtain ⟨hy, hys⟩ := hl
      by_cases h : le x y
      · simp only [insBy, h, if_pos]
        refine List.Pairwise.cons ?_ (List.Pairwise.cons hy hys)
        intro b hb
        rcases List.mem_cons.mp hb with hb1 | hb1
        · rw [hb1]; exact h
        · exact htrans x y b h (hy _ hb1)
      · simp only [insBy, h, Bool.false_eq_true, if_neg, not_false_eq_true]
        refine List.Pairwise.cons ?_ (ih hys)
        intro b hb
        have hmem : b ∈ x :: ys := (insBy_perm le x ys).mem_iff.mp hb
        rcases List.mem_cons.mp hmem with hbm | hbm
        · rw [hbm]
          rcases htot x y with h2 | h2
          · exact absurd h2 (by simp [h])
          · exact h2
        · exact hy _ hbm

theorem insSort_pairwise {α : Type} {le : α → α → Bool}
    (htot : ∀ a b, le a b = true ∨ le b a = true)
    (htrans : ∀ a b c, le a b = true → le b c = true → le a c = true)
    (l : List α) :
    (insSort le l).Pairwise (fun a b => le a b = true) := by
  induction l with
  | nil => simp [insSort]
  | cons x xs ih => exact insBy_pairwise htot htrans ih

/-! ### sort_values lemmas -/

theorem sort_values_perm (df : DataFrame) (c : String) :
    List.Perm (sort_values df c).rows df.rows :=
  insSort_perm _ _

theorem sort_values_mem {df : DataFrame} {c : String} {r : Row} :
    r ∈ (sort_values df c).rows ↔ r ∈ df.rows :=
  (sort_values_perm df c).mem_iff

theorem sort_values_pairwise (df : DataFrame) (c : String) :
    (sort_values df c).rows.Pairwise (fun r1 r2 => sortLe (getV r1 c) (getV r2 c) = true) :=
  insSort_pairwise (fun a b => sortLe_total (getV a c) (getV b c))
    (fun a b d h1 h2 => sortLe_trans h1 h2) df.rows

theorem sort_values_cols (df : DataFrame) (c : String) :
    (sort_values df c).cols = df.cols := rfl

/-! ### Small Bool / list helpers -/

theorem beq_false_of_not {b : Bool} (h : ¬ b = true) : b = false := by
  cases b
  · rfl
  · exact absurd rfl h

theorem allFalse_of_any_false {α : Type} {p : α → Bool} {l : List α}
    (h : ¬ l.any p = true) : ∀ x ∈ l, p x = false := by
  intro x hx
  cases hpx : p x
  · rfl
  · exact absurd (List.any_eq_true.mpr ⟨x, hx, hpx⟩) h

theorem getLast?_cons_ne {α : Type} {l : List α} (h : l ≠ []) (a : α) :
    (a :: l).getLast? = l.getLast? := by
  cases l with
  | nil => exact absurd rfl h
  | cons b bs => exact List.getLast?_cons_cons

/-! ### dedupLast lemmas -/

theorem dedupLast_subset {k : String} {l : List Row} {r : Row}
    (h : r ∈ dedupLast k l) : r ∈ l := by
  induction l with
  | nil => cases h
  | cons q rest ih =>
      by_cases hq : rest.any (fun r2 => valueBeq (getV r2 k) (getV q k))
      · simp only [dedupLast, hq, if_pos] at h
        exact List.mem_cons_of_mem q (ih h)
      · simp only [dedupLast, hq, Bool.false_eq_true, if_neg, not_false_eq_true] at h
        rcases List.mem_cons.mp h with h1 | h1
        · rw [h1]; simp
        · exact List.mem_cons_of_mem q (ih h1)

theorem dedupLast_any (k : String) (l : List Row) (v : Value) :
    (dedupLast k l).any (fun r => valueBeq (getV r k) v) =
      l.any (fun r => valueBeq (getV r k) v) := by
  induction l with
  | nil => rfl
  | cons q rest ih =>
      by_cases hq : rest.any (fun r2 => valueBeq (getV r2 k) (getV q k))
      · simp only [dedupLast, hq, if_pos]
        rw [ih, List.any_cons]
        by_cases hv : valueBeq (getV q k) v
        · rcases List.any_eq_true.mp hq with ⟨r2, hr2, hbeq⟩
          have hr2v : valueBeq (getV r2 k) v = true := valueBeq_trans hbeq hv
          have hrest : rest.any (fun r => valueBeq (getV r k) v) = true :=
            List.any_eq_true.mpr ⟨r2, hr2, hr2v⟩
          simp [hrest, hv]
        · simp [beq_false_of_not hv]
      · simp only [dedupLast, hq, Bool.false_eq_true, if_neg, not_false_eq_true]
        simp [List.any_cons, ih]

theorem dedupLast_pairwise (k : String) (l : List Row) :
    ((dedupLast k l).map (fun r => getV r k)).Pairwise (fun a b => valueBeq a b = false) := by
  induction l with
  | nil => simp [dedupLast]
  | cons q rest ih =>
      by_cases hq : rest.any (fun r2 => valueBeq (getV r2 k) (getV q k))
      · simpa only [dedupLast, hq, if_pos] using ih
      · simp only [dedupLast, hq, Bool.false_eq_true, if_neg, not_false_eq_true,
          List.map_cons, List.pairwise_cons]
        refine ⟨?_, ih⟩
        intro w hw
        simp only [List.mem_map] at hw
        obtain ⟨r2, hr2, hww⟩ := hw
        have hr2m : r2 ∈ rest := dedupLast_subset hr2
        have hf : valueBeq (getV r2 k) (getV q k) = false :=
          allFalse_of_any_false hq r2 hr2m
        rw [← hww, valueBeq_symm]
        exact hf

/-- `keep="last"` characterization: a kept row whose key matches `v` is the
last row of the original list whose key matches `v`. -/
theorem dedupLast_kept {k : String} {l : List Row} {rx : Row} {v : Value}
    (hmem : rx ∈ dedupLast k l) (hkey : valueBeq (getV rx k) v = true) :
    (l.filter (fun r => valueBeq (getV r k) v)).getLast? = some rx := by
  induction l with
  | nil => cases hmem
  | cons q rest ih =>
      rw [List.filter_cons]
      by_cases hq : rest.any (fun r2 => valueBeq (getV r2 k) (getV q k))
      · simp only [dedupLast, hq, if_pos] at hmem
        have hlast := ih hmem
        by_cases hqv : valueBeq (getV q k) v
        · have hne : rest.filter (fun r => valueBeq (getV r k) v) ≠ [] := by
            intro hnil
            rw [hnil] at hlast
            cases hlast
          rw [if_pos hqv, getLast?_cons_ne hne]
          exact hlast
        · rw [if_neg (by simpa using hqv)]
          exact hlast
      · simp only [dedupLast, hq, Bool.false_eq_true, if_neg, not_false_eq_true] at hmem
        rcases List.mem_cons.mp hmem with h1 | h1
        · subst h1
          rw [if_pos hkey]
          have hnil : rest.filter (fun r => valueBeq (getV r k) v) = [] := by
            apply List.filter_eq_nil.mpr
            intro r2 hr2
            intro hcon
            have hcon2 : valueBeq (getV r2 k) v = true := hcon
            have hfin : valueBeq (getV r2 k) (getV rx k) = true :=
              valueBeq_trans hcon2 (valueBeq_symm (getV rx k) v ▸ hkey)
            exact absurd hfin (by simp [allFalse_of_any_false hq r2 hr2])
          rw [hnil]
          rfl
        · have hq2 : valueBeq (getV q k) v = false := by
            cases hcon : valueBeq (getV q k) v
            · rfl
            · have hrx : rx ∈ rest := dedupLast_subset h1
              have hfin : valueBeq (getV rx k) (getV q k) = true :=
                valueBeq_trans hkey (valueBeq_symm (getV q k) v ▸ hcon)
              exact absurd hfin (by simp [allFalse_of_any_false hq rx hrx])
          rw [if_neg (by simp [hq2])]
          exact ih h1

/-! ### dedupFirstAux lemmas -/

theorem dedupFirstAux_subset {k : String} {seen : List Value} {l : List Row} {r : Row}
    (h : r ∈ dedupFirstAux k seen l) : r ∈ l := by
  induction l generalizing seen with
  | nil => cases h
  | cons q rest ih =>
      by_cases hq : seen.any (fun v => valueBeq v (getV q k))
      · simp only [dedupFirstAux, hq, if_pos] at h
        exact List.mem_cons_of_mem q (ih h)
      · simp only [dedupFirstAux, hq, Bool.false_eq_true, if_neg, not_false_eq_true] at h
        rcases List.mem_cons.mp h with h1 | h1
        · rw [h1]; simp
        · exact List.mem_cons_of_mem q (ih h1)

theorem dedupFirstAux_seen {k : String} {seen : List Value} {l : List Row} {v : Value}
    (hv : v ∈ seen) {r : Row} (h : r ∈ dedupFirstAux k seen l) :
    valueBeq v (getV r k) = false := by
  induction l generalizing seen with
  | nil => cases h
  | cons q rest ih =>
      by_cases hq : seen.any (fun w => valueBeq w (getV q k))
      · simp only [dedupFirstAux, hq, if_pos] at h
        exact ih hv h
      · simp only [dedupFirstAux, hq, Bool.false_eq_true, if_neg, not_false_eq_true] at h
        rcases List.mem_cons.mp h with h1 | h1
        · subst h1
          by_contra hcon
          have hcon2 : valueBeq v (getV r k) = true := by
            revert hcon; cases valueBeq v (getV r k) <;> simp
          simp [List.any_eq_true] at hq
          exact absurd hcon2 (by simp [hq v hv])
        · exact ih (List.mem_cons_of_mem _ hv) h1

theorem dedupFirstAux_pairwise (k : String) (seen : List Value) (l : List Row) :
    ((dedupFirstAux k seen l).map (fun r => getV r k)).Pairwise
      (fun a b => valueBeq a b = false) := by
  induction l generalizing seen with
  | nil => simp [dedupFirstAux]
  | cons q rest ih =>
      by_cases hq : seen.any (fun w => valueBeq w (getV q k))
      · simpa only [dedupFirstAux, hq, if_pos] using ih seen
      · simp only [dedupFirstAux, hq, Bool.false_eq_true, if_neg, not_false_eq_true,
          List.map_cons, List.pairwise_cons]
        refine ⟨?_, ih _⟩
        intro w hw
        simp only [List.mem_map] at hw
        obtain ⟨r2, hr2, hww⟩ := hw
        rw [← hww]
        exact dedupFirstAux_seen (by simp) hr2

/-! ### dedupValuesAux lemmas -/

theorem dedupValuesAux_subset {seen : List Value} {l : List Value} {v : Value}
    (h : v ∈ dedupValuesAux seen l) : v ∈ l := by
  induction l generalizing seen with
  | nil => cases h
  | cons q rest ih =>
      by_cases hq : seen.any (fun w => valueBeq w q)
      · simp only [dedupValuesAux, hq, if_pos] at h
        exact List.mem_cons_of_mem q (ih h)
      · simp only [dedupValuesAux, hq, Bool.false_eq_true, if_neg, not_false_eq_true] at h
        rcases List.mem_cons.mp h with h1 | h1
        · rw [h1]; simp
        · exact List.mem_cons_of_mem q (ih h1)

theorem dedupValuesAux_seen {seen : List Value} {l : List Value} {w : Value}
    (hw : w ∈ seen) {v : Value} (h : v ∈ dedupValuesAux seen l) :
    valueBeq w v = false := by
  induction l generalizing seen with
  | nil => cases h
  | cons q rest ih =>
      by_cases hq : seen.any (fun u => valueBeq u q)
      · simp only [dedupValuesAux, hq, if_pos] at h
        exact ih hw h
      · simp only [dedupValuesAux, hq, Bool.false_eq_true, if_neg, not_false_eq_true] at h
        rcases List.mem_cons.mp h with h1 | h1
        · subst h1
          by_contra hcon
          have hcon2 : valueBeq w v = true := by
            revert hcon; cases valueBeq w v <;> simp
          simp [List.any_eq_true] at hq
          exact absurd hcon2 (by simp [hq w hw])
        · exact ih (List.mem_cons_of_mem _ hw) h1

theorem dedupValuesAux_pairwise (seen : List Value) (l : List Value) :
    (dedupValuesAux seen l).Pairwise (fun a b => valueBeq a b = false) := by
  induction l generalizing seen with
  | nil => simp [dedupValuesAux]
  | cons q rest ih =>
      by_cases hq : seen.any (fun w => valueBeq w q)
      · simpa only [dedupValuesAux, hq, if_pos] using ih seen
      · simp only [dedupValuesAux, hq, Bool.false_eq_true, if_neg, not_false_eq_true,
          List.pairwise_cons]
        exact ⟨fun w hw => dedupValuesAux_seen (by simp) hw, ih _⟩

theorem dedupValuesAux_any {seen l : List Value} {z : Value}
    (hseen : seen.any (fun w => valueBeq w z) = false) :
    (dedupValuesAux seen l).any (fun w => valueBeq w z) = l.any (fun w => valueBeq w z) := by
  induction l generalizing seen with
  | nil => rfl
  | cons q rest ih =>
      by_cases hq : seen.any (fun w => valueBeq w q)
      · simp only [dedupValuesAux, hq, if_pos]
        rw [ih hseen, List.any_cons]
        by_cases hz : valueBeq q z
        · rcases List.any_eq_true.mp hq with ⟨w, hwmem, hwq⟩
          have hwz : valueBeq w z = true := valueBeq_trans hwq hz
          have hct : seen.any (fun w => valueBeq w z) = true :=
            List.any_eq_true.mpr ⟨w, hwmem, hwz⟩
          rw [hct] at hseen
          cases hseen
        · simp [beq_false_of_not hz]
      · simp only [dedupValuesAux, hq, Bool.false_eq_true, if_neg, not_false_eq_true]
        rw [List.any_cons, List.any_cons]
        by_cases hz : valueBeq q z
        · simp [hz]
        · have hseen2 : (q :: seen).any (fun w => valueBeq w z) = false := by
            simp [List.any_cons, beq_false_of_not hz, hseen]
          simp [beq_false_of_not hz, ih hseen2]

theorem dedupValuesAux_mem_of_any {seen l : List Value} {z : Value}
    (hseen : seen.any (fun w => valueBeq w z) = false)
    (hl : l.any (fun w => valueBeq w z) = true) :
    (dedupValuesAux seen l).any (fun w => valueBeq w z) = true := by
  rw [dedupValuesAux_any hseen]
  exact hl

theorem dedupValuesAux_eq_self {seen l : List Value}
    (hp : l.Pairwise (fun a b => valueBeq a b = false))
    (hs : ∀ w ∈ seen, ∀ v ∈ l, valueBeq w v = false) :
    dedupValuesAux seen l = l := by
  induction l generalizing seen with
  | nil => rfl
  | cons q rest ih =>
      rw [List.pairwise_cons] at hp
      obtain ⟨hq1, hq2⟩ := hp
      have hq : seen.any (fun w => valueBeq w q) = false := by
        rw [List.any_eq_false]
        intro w hw
        simp [hs w hw q (by simp)]
      simp only [dedupValuesAux, hq, Bool.false_eq_true, if_neg, not_false_eq_true]
      congr 1
      apply ih hq2
      intro w hw v hv
      rcases List.mem_cons.mp hw with h1 | h1
      · rw [h1]; exact hq1 v hv
      · exact hs w h1 v (List.mem_cons_of_mem _ hv)

/-! ### Frame well-formedness and merge lemmas -/

/-- Every binding key of every row of `df` is in `B`. -/
def KeysBound (df : DataFrame) (B : List String) : Prop :=
  ∀ r ∈ df.rows, ∀ p ∈ r, p.1 ∈ B

/-- Rectangularity: row keys are declared columns. -/
def KeysSub (df : DataFrame) : Prop := KeysBound df df.cols

/-- The key column of `df` has pairwise distinct (non-matching) values. -/
def UniqKeys (df : DataFrame) (k : String) : Prop :=
  (df.rows.map (fun r => getV r k)).Pairwise (fun a b => valueBeq a b = false)

theorem rlookup_mem {c : String} {r : Row} {v : Value} (h : rlookup c r = some v) :
    (c, v) ∈ r := by
  induction r with
  | nil => cases h
  | cons p ps ih =>
      obtain ⟨a, w⟩ := p
      by_cases hp : a = c
      · subst hp
        simp [rlookup] at h
        subst h
        simp
      · simp [rlookup, hp] at h
        exact List.mem_cons_of_mem _ (ih h)

theorem getV_of_all_null {r : Row} (h : ∀ p ∈ r, p.2 = Value.null) (c : String) :
    getV r c = .null := by
  cases hl : rlookup c r with
  | none => simp [getV, hl]
  | some v =>
      have := h _ (rlookup_mem hl)
      simp only [getV, hl, Option.getD_some]
      exact this

theorem getV_nullRow (cols : List String) (k c : String) :
    getV (nullRow cols k) c = .null := by
  apply getV_of_all_null
  intro p hp
  simp [nullRow] at hp
  obtain ⟨d, _, he⟩ := hp
  rw [← he]

theorem rlookup_nullRow_of_not_col {cols : List String} {k c : String}
    (hc : c = k ∨ c ∉ cols) : rlookup c (nullRow cols k) = none := by
  apply rlookup_none_of_keys
  intro p hp
  simp [nullRow] at hp
  obtain ⟨d, hd, he⟩ := hp
  intro hh
  rw [← he] at hh
  simp at hh
  rcases hc with hc1 | hc1
  · subst hc1
    exact hd.2 hh
  · exact hc1 (hh ▸ hd.1)

theorem rlookup_erase_none {rr : Row} {RC : List String} {k c : String}
    (hkeys : ∀ p ∈ rr, p.1 ∈ RC) (hc : c = k ∨ c ∉ RC) :
    rlookup c (eraseKey rr k) = none := by
  rcases hc with hc | hc
  · subst hc
    exact rlookup_eraseKey_self rr c
  · apply rlookup_none_of_keys
    intro p hp
    have hpr : p ∈ rr := keys_eraseKey hp
    intro hh
    exact hc (hh ▸ hkeys p hpr)

theorem getV_append_erase {lr rr : Row} {RC : List String} {k c : String}
    (hkeys : ∀ p ∈ rr, p.1 ∈ RC) (hc : c = k ∨ c ∉ RC) :
    getV (lr ++ eraseKey rr k) c = getV lr c :=
  getV_append_of_right_none (rlookup_erase_none hkeys hc) lr

theorem getV_append_nullRow {lr : Row} {RC : List String} {k c : String}
    (hc : c = k ∨ c ∉ RC) :
    getV (lr ++ nullRow RC k) c = getV lr c :=
  getV_append_of_right_none (rlookup_nullRow_of_not_col hc) lr

theorem getV_append_erase_right {lr rr : Row} {k c : String}
    (hlr : rlookup c lr = none) (hck : c ≠ k) :
    getV (lr ++ eraseKey rr k) c = getV rr c := by
  rw [getV_append_of_left_none hlr]
  simp [getV, rlookup_eraseKey_ne hck]

theorem getV_append_nullRow_right {lr : Row} {RC : List String} {k c : String}
    (hlr : rlookup c lr = none) :
    getV (lr ++ nullRow RC k) c = .null := by
  rw [getV_append_of_left_none hlr]
  exact getV_nullRow RC k c

theorem map_filter_eq {α β : Type} (f : α → β) (p : β → Bool) (l : List α) :
    (l.filter (fun a => p (f a))).map f = (l.map f).filter p := by
  induction l with
  | nil => rfl
  | cons a rest ih =>
      rw [List.filter_cons, List.map_cons, List.filter_cons]
      by_cases hp : p (f a)
      · rw [if_pos hp, if_pos hp, List.map_cons, ih]
      · rw [if_neg hp, if_neg hp, ih]

/-- With pairwise-distinct keys, a key filter returns nothing or one row. -/
theorem filter_beq_nil_or_singleton (k : String) (v : Value) {l : List Row}
    (hu : (l.map (fun r => getV r k)).Pairwise (fun a b => valueBeq a b = false)) :
    l.filter (fun rr => valueBeq v (getV rr k)) = [] ∨
      ∃ rr ∈ l, l.filter (fun rr => valueBeq v (getV rr k)) = [rr] := by
  induction l with
  | nil => exact Or.inl rfl
  | cons q rest ih =>
      simp only [List.map_cons, List.pairwise_cons] at hu
      obtain ⟨hq, hrest⟩ := hu
      rw [List.filter_cons]
      by_cases hv : valueBeq v (getV q k)
      · rw [if_pos hv]
        right
        refine ⟨q, by simp, ?_⟩
        have hnil : rest.filter (fun rr => valueBeq v (getV rr k)) = [] := by
          apply List.filter_eq_nil_iff.mpr
          intro r2 hr2
          intro hcon
          have h1 : valueBeq (getV q k) v = true := valueBeq_symm v (getV q k) ▸ hv
          have h2 : valueBeq (getV q k) (getV r2 k) = true := valueBeq_trans h1 hcon
          have h3 := hq (getV r2 k) (List.mem_map.mpr ⟨r2, hr2, rfl⟩)
          rw [h3] at h2
          cases h2
        rw [hnil]
      · rw [if_neg (by simpa using hv)]
        rcases ih hrest with h | ⟨rr, hrr, hfil⟩
        · exact Or.inl h
        · exact Or.inr ⟨rr, List.mem_cons_of_mem _ hrr, hfil⟩

/-- Row provenance through a left merge: every output row extends a left row,
either null-extended (no key match) or joined to a matching right row. -/
theorem merge_left_cases {L R : DataFrame} {k : String} {x : Row}
    (hx : x ∈ (merge_left L R k).rows) :
    ∃ lr ∈ L.rows,
      ((∀ rr ∈ R.rows, valueBeq (getV lr k) (getV rr k) = false) ∧
        x = lr ++ nullRow R.cols k) ∨
      (∃ rr ∈ R.rows, valueBeq (getV lr k) (getV rr k) = true ∧
        x = lr ++ eraseKey rr k) := by
  simp only [merge_left] at hx
  obtain ⟨lr, hlr, hblock⟩ := mem_rowsBind.mp hx
  refine ⟨lr, hlr, ?_⟩
  by_cases hms : (leftMatches R k lr).isEmpty
  · simp only [hms, if_pos] at hblock
    rcases List.mem_singleton.mp hblock with h1
    left
    refine ⟨?_, h1⟩
    intro rr hrr
    have hnil : leftMatches R k lr = [] := List.isEmpty_iff.mp hms
    exact allFalse_of_any_false
      (by
        intro hany
        rcases List.any_eq_true.mp hany with ⟨r2, hr2m, hr2⟩
        have : r2 ∈ leftMatches R k lr := List.mem_filter.mpr ⟨hr2m, hr2⟩
        rw [hnil] at this
        cases this) rr hrr
  · simp only [hms, Bool.false_eq_true, if_neg, not_false_eq_true] at hblock
    simp only [List.mem_map] at hblock
    obtain ⟨rr, hrrm, hxe⟩ := hblock
    have hf := List.mem_filter.mp hrrm
    exact Or.inr ⟨rr, hf.1, hf.2, hxe.symm⟩

/-- Row provenance through an inner merge. -/
theorem merge_inner_cases {L R : DataFrame} {k : String} {x : Row}
    (hx : x ∈ (merge_inner L R k).rows) :
    ∃ lr ∈ L.rows, ∃ rr ∈ R.rows,
      valueBeq (getV lr k) (getV rr k) = true ∧ x = lr ++ eraseKey rr k := by
  simp only [merge_inner] at hx
  obtain ⟨lr, hlr, hblock⟩ := mem_rowsBind.mp hx
  simp only [List.mem_map] at hblock
  obtain ⟨rr, hrrm, hxe⟩ := hblock
  have hf := List.mem_filter.mp hrrm
  exact ⟨lr, hlr, rr, hf.1, hf.2, hxe.symm⟩

/-- Inner-merge introduction. -/
theorem merge_inner_intro {L R : DataFrame} {k : String} {lr rr : Row}
    (hlr : lr ∈ L.rows) (hrr : rr ∈ R.rows)
    (hbeq : valueBeq (getV lr k) (getV rr k) = true) :
    lr ++ eraseKey rr k ∈ (merge_inner L R k).rows := by
  simp only [merge_inner]
  apply mem_rowsBind.mpr
  refine ⟨lr, hlr, ?_⟩
  apply List.mem_map.mpr
  exact ⟨rr, List.mem_filter.mpr ⟨hrr, hbeq⟩, rfl⟩

/-- A left merge against a unique-keyed right frame maps each left row to
exactly one output row, preserving every column that is the key or absent
from the right frame. -/
theorem merge_left_map {L R : DataFrame} {k c : String}
    (hKS : KeysSub R) (hu : UniqKeys R k) (hc : c = k ∨ c ∉ R.cols) :
    (merge_left L R k).rows.map (fun r => getV r c) = L.rows.map (fun r => getV r c) := by
  apply map_rowsBind_singleton
  intro lr _
  by_cases hms : (leftMatches R k lr).isEmpty
  · rw [if_pos hms, List.map_cons, List.map_nil, getV_append_nullRow hc]
  · rw [if_neg hms]
    rcases filter_beq_nil_or_singleton k (getV lr k) hu with hnil | ⟨rr, hrrm, hfil⟩
    · exact absurd (by simp [leftMatches, hnil] : (leftMatches R k lr).isEmpty = true) hms
    · have hone : leftMatches R k lr = [rr] := hfil
      rw [hone, List.map_cons, List.map_cons, List.map_nil,
        getV_append_erase (fun p hp => hKS rr hrrm p hp) hc]
      rfl

/-- An inner merge against a unique-keyed right frame keeps exactly the left
rows with a key match, one output row each; the key column lists witness it. -/
theorem merge_inner_map_key {L R : DataFrame} {k : String}
    (hu : UniqKeys R k) :
    (merge_inner L R k).rows.map (fun r => getV r k) =
      ((L.rows.map (fun r => getV r k)).filter
        (fun v => R.rows.any (fun rr => valueBeq v (getV rr k)))) := by
  have hstep : (merge_inner L R k).rows.map (fun r => getV r k) =
      (L.rows.filter (fun lr => R.rows.any (fun rr => valueBeq (getV lr k) (getV rr k)))).map
        (fun r => getV r k) := by
    apply map_rowsBind_filter
    intro lr _
    by_cases hany : R.rows.any (fun rr => valueBeq (getV lr k) (getV rr k))
    · rw [if_pos hany]
      rcases filter_beq_nil_or_singleton k (getV lr k) hu with hnil | ⟨rr, _, hfil⟩
      · rcases List.any_eq_true.mp hany with ⟨r2, hr2m, hr2⟩
        have hmem2 : r2 ∈ R.rows.filter (fun rr => valueBeq (getV lr k) (getV rr k)) :=
          List.mem_filter.mpr ⟨hr2m, hr2⟩
        rw [hnil] at hmem2
        cases hmem2
      · have hone : leftMatches R k lr = [rr] := hfil
        rw [hone, List.map_cons, List.map_cons, List.map_nil,
          getV_append_of_right_none (rlookup_eraseKey_self rr k) lr]
        rfl
    · rw [if_neg hany]
      have hnil : leftMatches R k lr = [] := by
        apply List.filter_eq_nil_iff.mpr
        intro r2 hr2
        simp [allFalse_of_any_false hany r2 hr2]
      rw [hnil]
      rfl
  rw [hstep]
  exact map_filter_eq (fun r => getV r k)
    (fun v => R.rows.any (fun rr => valueBeq v (getV rr k))) L.rows

/-! ### setCol / select / rename / parse_dates lemmas -/

theorem setCol_origin {df : DataFrame} {c : String} {f : Row → Value} {x : Row}
    (hx : x ∈ (setCol df c f).rows) : ∃ r ∈ df.rows, x = setV r c (f r) := by
  simp only [setCol, List.mem_map] at hx
  obtain ⟨r, hr, he⟩ := hx
  exact ⟨r, hr, he.symm⟩

theorem setCol_mem_intro {df : DataFrame} {c : String} {f : Row → Value} {r : Row}
    (hr : r ∈ df.rows) : setV r c (f r) ∈ (setCol df c f).rows := by
  simp only [setCol, List.mem_map]
  exact ⟨r, hr, rfl⟩

theorem setCol_map_ne {df : DataFrame} {c d : String} {f : Row → Value} (h : d ≠ c) :
    (setCol df c f).rows.map (fun r => getV r d) = df.rows.map (fun r => getV r d) := by
  simp only [setCol, List.map_map]
  apply List.map_congr_left
  intro r _
  exact getV_setV_ne h r (f r)

theorem select_origin {df : DataFrame} {cs : List String} {x : Row}
    (hx : x ∈ (select df cs).rows) : ∃ r ∈ df.rows, x = selectRow cs r := by
  simp only [select, List.mem_map] at hx
  obtain ⟨r, hr, he⟩ := hx
  exact ⟨r, hr, he.symm⟩

theorem select_map_mem {df : DataFrame} {cs : List String} {k : String} (h : k ∈ cs) :
    (select df cs).rows.map (fun r => getV r k) = df.rows.map (fun r => getV r k) := by
  simp only [select, List.map_map]
  apply List.map_congr_left
  intro r _
  exact getV_selectRow_mem h r

theorem select_keysSub (df : DataFrame) (cs : List String) : KeysSub (select df cs) := by
  intro x hx p hp
  obtain ⟨r, _, he⟩ := select_origin hx
  rw [he] at hp
  exact keys_selectRow hp

theorem getV_renameRow_other {a b c : String} (hca : c ≠ a) (hcb : c ≠ b) (r : Row) :
    getV (renameRow a b r) c = getV r c := by
  induction r with
  | nil => rfl
  | cons q qs ih =>
      by_cases hq : q.1 = a
      · have h1 : ¬ b = c := fun hh => hcb hh.symm
        have h2 : ¬ q.1 = c := by rw [hq]; exact fun hh => hca hh.symm
        have hac : ¬ a = c := fun hh => hca hh.symm
        simp only [renameRow, List.map_cons] at ih ⊢
        simp [getV, rlookup, hq, h1, h2, hac] at ih ⊢
        exact ih
      · simp only [renameRow, List.map_cons] at ih ⊢
        simp [getV, rlookup, hq] at ih ⊢
        by_cases h2 : q.1 = c <;> simp [h2, ih]

theorem rename_map_other {df : DataFrame} {a b c : String} (hca : c ≠ a) (hcb : c ≠ b) :
    (rename df a b).rows.map (fun r => getV r c) = df.rows.map (fun r => getV r c) := by
  simp only [rename, List.map_map]
  apply List.map_congr_left
  intro r _
  exact getV_renameRow_other hca hcb r

theorem keys_renameRow {a b : String} {r : Row} {p : String × Value}
    (hp : p ∈ renameRow a b r) : p.1 = b ∨ ∃ q ∈ r, p.1 = q.1 := by
  simp only [renameRow, List.mem_map] at hp
  obtain ⟨q, hq, he⟩ := hp
  by_cases hqa : q.1 == a
  · rw [if_pos hqa] at he
    left
    rw [← he]
  · rw [if_neg hqa] at he
    right
    exact ⟨q, hq, by rw [← he]⟩

theorem rename_keysSub {df : DataFrame} (h : KeysSub df) (a b : String) :
    KeysSub (rename df a b) := by
  intro x hx p hp
  simp only [rename, List.mem_map] at hx
  obtain ⟨r, hr, he⟩ := hx
  rw [← he] at hp
  simp only [renameRow, List.mem_map] at hp
  obtain ⟨q, hq, he2⟩ := hp
  show p.1 ∈ (rename df a b).cols
  simp only [rename]
  apply List.mem_map.mpr
  refine ⟨q.1, h r hr q hq, ?_⟩
  by_cases hqa : q.1 == a
  · rw [if_pos hqa, ← he2, if_pos hqa]
  · rw [if_neg hqa, ← he2, if_neg hqa]

/-! ### KeysBound preservation -/

theorem keys_setV {r : Row} {c : String} {v : Value} {p : String × Value}
    (hp : p ∈ setV r c v) : p.1 = c ∨ p ∈ r := by
  rcases List.mem_cons.mp hp with h1 | h1
  · left; rw [h1]
  · exact Or.inr (keys_eraseKey h1)

theorem keys_nullRow {cols : List String} {k : String} {p : String × Value}
    (hp : p ∈ nullRow cols k) : p.1 ∈ cols := by
  simp [nullRow] at hp
  obtain ⟨d, hd, he⟩ := hp
  rw [← he]
  exact hd.1

theorem keysBound_mono {df : DataFrame} {B1 B2 : List String}
    (hsub : ∀ c ∈ B1, c ∈ B2) (h : KeysBound df B1) : KeysBound df B2 :=
  fun r hr p hp => hsub _ (h r hr p hp)

theorem setCol_keysBound {df : DataFrame} {B : List String} {c : String} {f : Row → Value}
    (h : KeysBound df B) : KeysBound (setCol df c f) (c :: B) := by
  intro x hx p hp
  obtain ⟨r, hr, he⟩ := setCol_origin hx
  rw [he] at hp
  rcases keys_setV hp with h1 | h1
  · rw [h1]; simp
  · exact List.mem_cons_of_mem _ (h r hr p h1)

theorem merge_left_keysBound {L R : DataFrame} {B : List String} {k : String}
    (hL : KeysBound L B) (hR : KeysSub R) :
    KeysBound (merge_left L R k) (B ++ R.cols) := by
  intro x hx p hp
  obtain ⟨lr, hlr, hcase⟩ := merge_left_cases hx
  rcases hcase with ⟨_, he⟩ | ⟨rr, hrr, _, he⟩
  · rw [he] at hp
    rcases List.mem_append.mp hp with h1 | h1
    · exact List.mem_append.mpr (Or.inl (hL lr hlr p h1))
    · exact List.mem_append.mpr (Or.inr (keys_nullRow h1))
  · rw [he] at hp
    rcases List.mem_append.mp hp with h1 | h1
    · exact List.mem_append.mpr (Or.inl (hL lr hlr p h1))
    · exact List.mem_append.mpr (Or.inr (hR rr hrr p (keys_eraseKey h1)))

theorem merge_inner_keysBound {L R : DataFrame} {B : List String} {k : String}
    (hL : KeysBound L B) (hR : KeysSub R) :
    KeysBound (merge_inner L R k) (B ++ R.cols) := by
  intro x hx p hp
  obtain ⟨lr, hlr, rr, hrr, _, he⟩ := merge_inner_cases hx
  rw [he] at hp
  rcases List.mem_append.mp hp with h1 | h1
  · exact List.mem_append.mpr (Or.inl (hL lr hlr p h1))
  · exact List.mem_append.mpr (Or.inr (hR rr hrr p (keys_eraseKey h1)))

/-! ### parse_dates lemmas -/

theorem parse_dates_cons (df : DataFrame) (c0 : String) (rest : List String) :
    parse_dates df (c0 :: rest) =
      parse_dates
        (if df.cols.contains c0 then setCol df c0 (fun r => toDatetimeV (getV r c0)) else df)
        rest := rfl

theorem parse_dates_nil (df : DataFrame) : parse_dates df [] = df := rfl

theorem parse_dates_origin {cs : List String} :
    ∀ {df : DataFrame}, ∀ x ∈ (parse_dates df cs).rows,
      ∃ r ∈ df.rows, ∀ c, c ∉ cs → getV x c = getV r c := by
  induction cs with
  | nil => exact fun x hx => ⟨x, hx, fun c _ => rfl⟩
  | cons c0 rest ih =>
      intro df x hx
      rw [parse_dates_cons] at hx
      obtain ⟨r1, hr1, hpres⟩ := ih x hx
      by_cases hcont : df.cols.contains c0
      · rw [if_pos hcont] at hr1
        obtain ⟨r, hr, he⟩ := setCol_origin hr1
        refine ⟨r, hr, ?_⟩
        intro c hc
        have hc0 : c ≠ c0 := fun hh => hc (by rw [hh]; simp)
        have hcr : c ∉ rest := fun hh => hc (by simp [hh])
        rw [hpres c hcr, he, getV_setV_ne hc0]
      · rw [if_neg hcont] at hr1
        exact ⟨r1, hr1, fun c hc => hpres c (fun hh => hc (by simp [hh]))⟩

theorem parse_dates_map_ne {c : String} {cs : List String} (h : c ∉ cs) :
    ∀ df : DataFrame,
      (parse_dates df cs).rows.map (fun r => getV r c) = df.rows.map (fun r => getV r c) := by
  induction cs with
  | nil => exact fun df => rfl
  | cons c0 rest ih =>
      intro df
      have hc0 : c ≠ c0 := fun hh => h (by rw [hh]; simp)
      have hcr : c ∉ rest := fun hh => h (by simp [hh])
      rw [parse_dates_cons]
      rw [ih hcr]
      by_cases hcont : df.cols.contains c0
      · rw [if_pos hcont]
        exact setCol_map_ne hc0
      · rw [if_neg hcont]

theorem parse_dates_keysBound {cs : List String} :
    ∀ {df : DataFrame} {B : List String}, KeysBound df B →
      KeysBound (parse_dates df cs) (B ++ cs) := by
  induction cs with
  | nil => exact fun h => keysBound_mono (fun c hc => by simpa using hc) h
  | cons c0 rest ih =>
      intro df B h
      rw [parse_dates_cons]
      by_cases hcont : df.cols.contains c0
      · rw [if_pos hcont]
        have h2 := @ih (setCol df c0 (fun r => toDatetimeV (getV r c0))) (c0 :: B)
          (@setCol_keysBound df B c0 (fun r => toDatetimeV (getV r c0)) h)
        exact keysBound_mono (fun c hc => by
          simp only [List.mem_append, List.mem_cons] at hc ⊢
          tauto) h2
      · rw [if_neg hcont]
        have h2 := ih h
        exact keysBound_mono (fun c hc => by
          simp only [List.mem_append, List.mem_cons] at hc ⊢
          tauto) h2

/-! ### groupKeys and aggregation lemmas -/

theorem perm_any {α : Type} {l1 l2 : List α} (h : List.Perm l1 l2) (p : α → Bool) :
    l1.any p = l2.any p := by
  cases h2 : l2.any p
  · cases h1 : l1.any p
    · rfl
    · rcases List.any_eq_true.mp h1 with ⟨x, hx, hpx⟩
      have : x ∈ l2 := h.mem_iff.mp hx
      rw [List.any_eq_true.mpr ⟨x, this, hpx⟩] at h2
      cases h2
  · rcases List.any_eq_true.mp h2 with ⟨x, hx, hpx⟩
    exact List.any_eq_true.mpr ⟨x, h.mem_iff.mpr hx, hpx⟩

theorem any_filter_eq {α : Type} (q p : α → Bool) (l : List α) :
    (l.filter q).any p = l.any (fun x => q x && p x) := by
  induction l with
  | nil => rfl
  | cons a rest ih =>
      rw [List.filter_cons, List.any_cons]
      by_cases hq : q a
      · rw [if_pos hq, List.any_cons, ih, hq, Bool.true_and]
      · rw [if_neg hq, ih, beq_false_of_not hq, Bool.false_and, Bool.false_or]

theorem any_map_eq {α β : Type} (f : α → β) (p : β → Bool) (l : List α) :
    (l.map f).any p = l.any (fun a => p (f a)) := by
  induction l with
  | nil => rfl
  | cons a rest ih => rw [List.map_cons, List.any_cons, List.any_cons, ih]

theorem any_congr_fun {α : Type} {p q : α → Bool} {l : List α}
    (h : ∀ x ∈ l, p x = q x) : l.any p = l.any q := by
  induction l with
  | nil => rfl
  | cons a rest ih =>
      rw [List.any_cons, List.any_cons, h a (by simp),
        ih (fun x hx => h x (List.mem_cons_of_mem _ hx))]

theorem valueBeq_null_not {v z : Value} (hv : v.isNull = true) (hz : z.isNull = false) :
    valueBeq v z = false := by
  cases v <;> cases z <;> simp_all [Value.isNull, valueBeq]

theorem groupKeys_pairwise (df : DataFrame) (k : String) :
    (groupKeys df k).Pairwise (fun a b => valueBeq a b = false) := by
  have hsym : Symmetric (fun a b : Value => valueBeq a b = false) := by
    intro a b h
    rw [valueBeq_symm]
    exact h
  exact (List.Perm.pairwise_iff (fun hab => hsym hab) (insSort_perm sortLe _)).mpr
    (dedupValuesAux_pairwise [] _)

theorem groupKeys_mem_nonNull {df : DataFrame} {k : String} {v : Value}
    (h : v ∈ groupKeys df k) : v.isNull = false := by
  have h1 : v ∈ dedupValuesAux [] ((df.rows.map (fun r => getV r k)).filter (fun w => !w.isNull)) :=
    (insSort_perm sortLe _).mem_iff.mp h
  have h2 := dedupValuesAux_subset h1
  have := (List.mem_filter.mp h2).2
  simpa using this

theorem groupKeys_any {df : DataFrame} {k : String} {z : Value} (hz : z.isNull = false) :
    (groupKeys df k).any (fun w => valueBeq w z) =
      df.rows.any (fun r => valueBeq (getV r k) z) := by
  unfold groupKeys
  rw [perm_any (insSort_perm sortLe _), dedupValuesAux_any (by rfl), any_filter_eq]
  have h1 : ((df.rows.map (fun r => getV r k)).any fun x => (!x.isNull) && valueBeq x z) =
      (df.rows.map (fun r => getV r k)).any (fun x => valueBeq x z) := by
    apply any_congr_fun
    intro x _
    cases hx : x.isNull
    · simp
    · simp [valueBeq_null_not hx hz]
  rw [h1, any_map_eq]

theorem foldr_add_congr {l : List Row} {g1 g2 : Row → ℚ}
    (h : ∀ r ∈ l, g1 r = g2 r) :
    l.foldr (fun r acc => acc + g1 r) 0 = l.foldr (fun r acc => acc + g2 r) 0 := by
  induction l with
  | nil => rfl
  | cons a rest ih =>
      simp only [List.foldr_cons]
      rw [h a (by simp), ih (fun r hr => h r (List.mem_cons_of_mem _ hr))]

theorem groupRows_congr {df : DataFrame} {k : String} {v1 v2 : Value}
    (h : valueBeq v1 v2 = true) : groupRows df k v1 = groupRows df k v2 := by
  apply List.filter_congr
  intro r _
  exact valueBeq_congr_right h (getV r k)

theorem valueBeq_isNull {a b : Value} (h : valueBeq a b = true) : a.isNull = b.isNull := by
  cases a <;> cases b <;> simp_all [valueBeq, Value.isNull]

/-! ### Aggregation is unaffected by setting an unrelated column -/

theorem groupRows_setCol {df : DataFrame} {c0 k : String} {f : Row → Value} {v : Value}
    (hk : k ≠ c0) :
    groupRows (setCol df c0 f) k v = (groupRows df k v).map (fun r => setV r c0 (f r)) := by
  show ((df.rows.map (fun r => setV r c0 (f r))).filter _) = _
  rw [← map_filter_eq (fun r => setV r c0 (f r)) (fun r => valueBeq (getV r k) v) df.rows]
  congr 1
  apply List.filter_congr
  intro r _
  rw [getV_setV_ne hk]

theorem aggSum_setCol {df : DataFrame} {c0 k c : String} {f : Row → Value} {v : Value}
    (hk : k ≠ c0) (hc : c ≠ c0) :
    aggSum (groupRows (setCol df c0 f) k v) c = aggSum (groupRows df k v) c := by
  rw [groupRows_setCol hk]
  unfold aggSum
  rw [List.foldr_map]
  apply foldr_add_congr
  intro r _
  rw [getV_setV_ne hc]

theorem aggCount_setCol {df : DataFrame} {c0 k c : String} {f : Row → Value} {v : Value}
    (hk : k ≠ c0) (hc : c ≠ c0) :
    aggCount (groupRows (setCol df c0 f) k v) c = aggCount (groupRows df k v) c := by
  rw [groupRows_setCol hk]
  unfold aggCount
  rw [← map_filter_eq (fun r => setV r c0 (f r)) (fun r => !(getV r c).isNull) (groupRows df k v)]
  rw [List.length_map]
  congr 1
  apply List.filter_congr
  intro r _
  rw [getV_setV_ne hc]

theorem aggFirst_setCol {df : DataFrame} {c0 k c : String} {f : Row → Value} {v : Value}
    (hk : k ≠ c0) (hc : c ≠ c0) :
    aggFirst (groupRows (setCol df c0 f) k v) c = aggFirst (groupRows df k v) c := by
  rw [groupRows_setCol hk]
  unfold aggFirst
  rw [List.map_map]
  congr 2
  apply List.map_congr_left
  intro r _
  show getV (setV r c0 (f r)) c = getV r c
  rw [getV_setV_ne hc]

theorem groupKeys_setCol {df : DataFrame} {c0 k : String} {f : Row → Value} (hk : k ≠ c0) :
    groupKeys (setCol df c0 f) k = groupKeys df k := by
  unfold groupKeys
  rw [setCol_map_ne hk]

/-- The single-column `_parse_dates` call used on `order_items`. -/
theorem parse_single_eq (df : DataFrame) (c0 : String) :
    parse_dates df [c0] =
      (if df.cols.contains c0 then setCol df c0 (fun r => toDatetimeV (getV r c0)) else df) :=
  rfl

theorem parse_single_groupKeys {df : DataFrame} {c0 k : String} (hk : k ≠ c0) :
    groupKeys (parse_dates df [c0]) k = groupKeys df k := by
  rw [parse_single_eq]
  by_cases hcont : df.cols.contains c0
  · rw [if_pos hcont, groupKeys_setCol hk]
  · rw [if_neg hcont]

theorem parse_single_aggSum {df : DataFrame} {c0 k c : String} {v : Value}
    (hk : k ≠ c0) (hc : c ≠ c0) :
    aggSum (groupRows (parse_dates df [c0]) k v) c = aggSum (groupRows df k v) c := by
  rw [parse_single_eq]
  by_cases hcont : df.cols.contains c0
  · rw [if_pos hcont, aggSum_setCol hk hc]
  · rw [if_neg hcont]

theorem parse_single_aggCount {df : DataFrame} {c0 k c : String} {v : Value}
    (hk : k ≠ c0) (hc : c ≠ c0) :
    aggCount (groupRows (parse_dates df [c0]) k v) c = aggCount (groupRows df k v) c := by
  rw [parse_single_eq]
  by_cases hcont : df.cols.contains c0
  · rw [if_pos hcont, aggCount_setCol hk hc]
  · rw [if_neg hcont]

theorem parse_single_aggFirst {df : DataFrame} {c0 k c : String} {v : Value}
    (hk : k ≠ c0) (hc : c ≠ c0) :
    aggFirst (groupRows (parse_dates df [c0]) k v) c = aggFirst (groupRows df k v) c := by
  rw [parse_single_eq]
  by_cases hcont : df.cols.contains c0
  · rw [if_pos hcont, aggFirst_setCol hk hc]
  · rw [if_neg hcont]

theorem parse_single_group_nonempty {df : DataFrame} {c0 k : String} {v : Value}
    (hk : k ≠ c0) :
    (groupRows (parse_dates df [c0]) k v).isEmpty = (groupRows df k v).isEmpty := by
  rw [parse_single_eq]
  by_cases hcont : df.cols.contains c0
  · rw [if_pos hcont, groupRows_setCol hk]
    cases groupRows df k v <;> rfl
  · rw [if_neg hcont]

/-! ### order_agg lemmas -/

def itemsAddCols : List String :=
  ["order_value", "freight_value", "num_items", "product_id", "seller_id"]

theorem order_agg_cols (items : DataFrame) :
    (order_agg items).cols = "order_id" :: itemsAddCols := rfl

theorem order_agg_rows_mem {items : DataFrame} {a : Row}
    (ha : a ∈ (order_agg items).rows) :
    ∃ kv ∈ groupKeys items "order_id",
      a = [("order_id", kv),
           ("order_value", .num (aggSum (groupRows items "order_id" kv) "price")),
           ("freight_value", .num (aggSum (groupRows items "order_id" kv) "freight_value")),
           ("num_items", .int (aggCount (groupRows items "order_id" kv) "order_item_id")),
           ("product_id", aggFirst (groupRows items "order_id" kv) "product_id"),
           ("seller_id", aggFirst (groupRows items "order_id" kv) "seller_id")] := by
  simp only [order_agg, List.mem_map] at ha
  obtain ⟨kv, hkv, he⟩ := ha
  exact ⟨kv, hkv, he.symm⟩

theorem order_agg_rows_intro {items : DataFrame} {kv : Value}
    (hkv : kv ∈ groupKeys items "order_id") :
    [("order_id", kv),
     ("order_value", .num (aggSum (groupRows items "order_id" kv) "price")),
     ("freight_value", .num (aggSum (groupRows items "order_id" kv) "freight_value")),
     ("num_items", .int (aggCount (groupRows items "order_id" kv) "order_item_id")),
     ("product_id", aggFirst (groupRows items "order_id" kv) "product_id"),
     ("seller_id", aggFirst (groupRows items "order_id" kv) "seller_id")] ∈
      (order_agg items).rows := by
  simp only [order_agg, List.mem_map]
  exact ⟨kv, hkv, rfl⟩

theorem order_agg_keysSub (items : DataFrame) : KeysSub (order_agg items) := by
  intro x hx p hp
  obtain ⟨kv, _, he⟩ := order_agg_rows_mem hx
  rw [he] at hp
  rw [order_agg_cols]
  simp at hp
  rcases hp with h | h | h | h | h | h <;> simp [itemsAddCols, h]

theorem order_agg_keys_map (items : DataFrame) :
    (order_agg items).rows.map (fun r => getV r "order_id") = groupKeys items "order_id" := by
  simp only [order_agg, List.map_map]
  conv_rhs => rw [← List.map_id (groupKeys items "order_id")]
  apply List.map_congr_left
  intro kv _
  simp [Function.comp, getV, rlookup]

theorem order_agg_uniq (items : DataFrame) : UniqKeys (order_agg items) "order_id" := by
  unfold UniqKeys
  rw [order_agg_keys_map]
  exact groupKeys_pairwise items "order_id"

theorem order_agg_exists_key {items : DataFrame} {kv : Value}
    (hkv : kv ∈ groupKeys items "order_id") :
    ∃ a ∈ (order_agg items).rows, getV a "order_id" = kv :=
  ⟨_, order_agg_rows_intro hkv, by simp [getV, rlookup]⟩

theorem groupKeys_exists_row {df : DataFrame} {k : String} {kv : Value}
    (h : kv ∈ groupKeys df k) : ∃ r ∈ df.rows, getV r k = kv := by
  have h1 : kv ∈ dedupValuesAux []
      ((df.rows.map (fun r => getV r k)).filter (fun w => !w.isNull)) :=
    (insSort_perm sortLe _).mem_iff.mp h
  have h2 := dedupValuesAux_subset h1
  have h3 := (List.mem_filter.mp h2).1
  simp only [List.mem_map] at h3
  obtain ⟨r, hr, he⟩ := h3
  exact ⟨r, hr, he⟩

/-! ### The order_items stage: per-row aggregate characterization -/

theorem stage_items_spec (t : Tables) {df : DataFrame} {B : List String}
    (hB : KeysBound df B)
    (hno : ∀ c ∈ itemsAddCols, c ∉ B) :
    ∀ x ∈ (stage_items t df).rows, ∃ r ∈ df.rows,
      (∀ c, c ∉ itemsAddCols → getV x c = getV r c) ∧
      ((getV r "order_id").isNull = false →
        getV x "order_value" =
          (if (groupRows t.order_items "order_id" (getV r "order_id")).isEmpty then Value.int 0
           else .num (aggSum (groupRows t.order_items "order_id" (getV r "order_id")) "price")) ∧
        getV x "freight_value" =
          (if (groupRows t.order_items "order_id" (getV r "order_id")).isEmpty then Value.int 0
           else .num (aggSum (groupRows t.order_items "order_id" (getV r "order_id")) "freight_value")) ∧
        getV x "num_items" =
          .int (aggCount (groupRows t.order_items "order_id" (getV r "order_id")) "order_item_id") ∧
        getV x "product_id" =
          fillnaVal (aggFirst (groupRows t.order_items "order_id" (getV r "order_id")) "product_id") (.str "") ∧
        getV x "seller_id" =
          fillnaVal (aggFirst (groupRows t.order_items "order_id" (getV r "order_id")) "seller_id") (.str "")) := by
  intro x hx
  simp only [stage_items, fillnaCol, astypeIntCol] at hx
  obtain ⟨x5, hx5, he⟩ := setCol_origin hx
  obtain ⟨x4, hx4, he5⟩ := setCol_origin hx5
  obtain ⟨x3, hx3, he4⟩ := setCol_origin hx4
  obtain ⟨x2, hx2, he3⟩ := setCol_origin hx3
  obtain ⟨x1, hx1, he2⟩ := setCol_origin hx2
  obtain ⟨x0, hx0, he1⟩ := setCol_origin hx1
  obtain ⟨lr, hlr, hcase⟩ := merge_left_cases hx0
  refine ⟨lr, hlr, ?_, ?_⟩
  · -- columns outside itemsAddCols are preserved
    intro c hc
    have hov : c ≠ "order_value" := fun hh => hc (by simp [itemsAddCols, hh])
    have hfr : c ≠ "freight_value" := fun hh => hc (by simp [itemsAddCols, hh])
    have hni : c ≠ "num_items" := fun hh => hc (by simp [itemsAddCols, hh])
    have hpi : c ≠ "product_id" := fun hh => hc (by simp [itemsAddCols, hh])
    have hsi : c ≠ "seller_id" := fun hh => hc (by simp [itemsAddCols, hh])
    rw [he, getV_setV_ne hsi, he5, getV_setV_ne hpi, he4, getV_setV_ne hni,
      he3, getV_setV_ne hni, he2, getV_setV_ne hfr, he1, getV_setV_ne hov]
    have hcols : c = "order_id" ∨ c ∉ (order_agg (parse_dates t.order_items ["shipping_limit_date"])).cols := by
      by_cases hcoid : c = "order_id"
      · exact Or.inl hcoid
      · right
        rw [order_agg_cols]
        intro hmem
        rcases List.mem_cons.mp hmem with h1 | h1
        · exact hcoid h1
        · exact hc h1
    rcases hcase with ⟨_, he0⟩ | ⟨a, haA, _, he0⟩
    · rw [he0, getV_append_nullRow hcols]
    · rw [he0, getV_append_erase (fun p hp => order_agg_keysSub _ a haA p hp) hcols]
  · -- the aggregate columns
    intro hz
    -- values of the five filled columns in terms of the merged row x0
    have hvo : getV x "order_value" = fillnaVal (getV x0 "order_value") (.int 0) := by
      rw [he, getV_setV_ne (by decide), he5, getV_setV_ne (by decide),
        he4, getV_setV_ne (by decide), he3, getV_setV_ne (by decide),
        he2, getV_setV_ne (by decide), he1, getV_setV_self]
    have hvf : getV x "freight_value" = fillnaVal (getV x0 "freight_value") (.int 0) := by
      rw [he, getV_setV_ne (by decide), he5, getV_setV_ne (by decide),
        he4, getV_setV_ne (by decide), he3, getV_setV_ne (by decide),
        he2, getV_setV_self]
      congr 1
      rw [he1, getV_setV_ne (by decide)]
    have hvn : getV x "num_items" = astypeIntV (fillnaVal (getV x0 "num_items") (.int 0)) := by
      rw [he, getV_setV_ne (by decide), he5, getV_setV_ne (by decide), he4, getV_setV_self]
      congr 1
      rw [he3, getV_setV_self]
      congr 1
      rw [he2, getV_setV_ne (by decide), he1, getV_setV_ne (by decide)]
    have hvp : getV x "product_id" = fillnaVal (getV x0 "product_id") (.str "") := by
      rw [he, getV_setV_ne (by decide), he5, getV_setV_self]
      congr 1
      rw [he4, getV_setV_ne (by decide), he3, getV_setV_ne (by decide),
        he2, getV_setV_ne (by decide), he1, getV_setV_ne (by decide)]
    have hvs : getV x "seller_id" = fillnaVal (getV x0 "seller_id") (.str "") := by
      rw [he, getV_setV_self]
      congr 1
      rw [he5, getV_setV_ne (by decide), he4, getV_setV_ne (by decide),
        he3, getV_setV_ne (by decide), he2, getV_setV_ne (by decide),
        he1, getV_setV_ne (by decide)]
    have hlrnone : ∀ c ∈ itemsAddCols, rlookup c lr = none := by
      intro c hcmem
      apply rlookup_none_of_keys
      intro p hp
      intro hh
      exact (hno c hcmem) (hh ▸ hB lr hlr p hp)
    rcases hcase with ⟨hall, he0⟩ | ⟨a, haA, hbeq, he0⟩
    · -- no matching aggregate row: the group must be empty
      have hempty : (groupRows t.order_items "order_id" (getV lr "order_id")).isEmpty = true := by
        cases hemp : (groupRows t.order_items "order_id" (getV lr "order_id")).isEmpty
        · exfalso
          have hne : groupRows t.order_items "order_id" (getV lr "order_id") ≠ [] := by
            intro hnil
            rw [hnil] at hemp
            cases hemp
          obtain ⟨row0, hrow0⟩ := List.exists_mem_of_ne_nil _ hne
          have hrf := List.mem_filter.mp hrow0
          have hany : t.order_items.rows.any
              (fun r => valueBeq (getV r "order_id") (getV lr "order_id")) = true :=
            List.any_eq_true.mpr ⟨row0, hrf.1, hrf.2⟩
          rw [← groupKeys_any hz] at hany
          rcases List.any_eq_true.mp hany with ⟨kv, hkvmem, hkvbeq⟩
          have hkvmem2 : kv ∈ groupKeys (parse_dates t.order_items ["shipping_limit_date"]) "order_id" := by
            rw [parse_single_groupKeys (by decide)]
            exact hkvmem
          obtain ⟨a2, ha2, ha2k⟩ := order_agg_exists_key hkvmem2
          have hzkv := hall a2 ha2
          rw [ha2k] at hzkv
          rw [valueBeq_symm] at hkvbeq
          rw [hzkv] at hkvbeq
          cases hkvbeq
        · rfl
      have hx0v : ∀ c ∈ itemsAddCols, getV x0 c = .null := by
        intro c hcmem
        rw [he0]
        exact getV_append_nullRow_right (hlrnone c hcmem)
      rw [List.isEmpty_iff] at hempty
      refine ⟨?_, ?_, ?_, ?_, ?_⟩
      · rw [hvo, hx0v "order_value" (by simp [itemsAddCols]), hempty]
        rfl
      · rw [hvf, hx0v "freight_value" (by simp [itemsAddCols]), hempty]
        rfl
      · rw [hvn, hx0v "num_items" (by simp [itemsAddCols]), hempty]
        rfl
      · rw [hvp, hx0v "product_id" (by simp [itemsAddCols]), hempty]
        rfl
      · rw [hvs, hx0v "seller_id" (by simp [itemsAddCols]), hempty]
        rfl
    · -- matched: the aggregate row's values are the group aggregates
      obtain ⟨kv, hkv, haeq⟩ := order_agg_rows_mem haA
      have hakey : getV a "order_id" = kv := by
        rw [haeq]
        simp [getV, rlookup]
      rw [hakey] at hbeq
      have hgcongr : groupRows (parse_dates t.order_items ["shipping_limit_date"]) "order_id" kv =
          groupRows (parse_dates t.order_items ["shipping_limit_date"]) "order_id" (getV lr "order_id") :=
        groupRows_congr (valueBeq_symm (getV lr "order_id") kv ▸ hbeq)
      have hx0v : ∀ c, c ≠ "order_id" → c ∈ itemsAddCols → getV x0 c = getV a c := by
        intro c hcne hcmem
        rw [he0]
        exact getV_append_erase_right (hlrnone c hcmem) hcne
      have hnonempty : (groupRows t.order_items "order_id" (getV lr "order_id")).isEmpty = false := by
        obtain ⟨row2, hrow2, hrow2k⟩ := groupKeys_exists_row hkv
        have hrow2g : row2 ∈ groupRows (parse_dates t.order_items ["shipping_limit_date"]) "order_id" (getV lr "order_id") := by
          apply List.mem_filter.mpr
          refine ⟨hrow2, ?_⟩
          rw [hrow2k]
          exact valueBeq_symm (getV lr "order_id") kv ▸ hbeq
        rw [← parse_single_group_nonempty (by decide : ("order_id" : String) ≠ "shipping_limit_date")]
        cases hemp : (groupRows (parse_dates t.order_items ["shipping_limit_date"]) "order_id" (getV lr "order_id")).isEmpty
        · rfl
        · rw [List.isEmpty_iff] at hemp
          rw [hemp] at hrow2g
          cases hrow2g
      refine ⟨?_, ?_, ?_, ?_, ?_⟩
      · rw [hvo, hx0v "order_value" (by decide) (by simp [itemsAddCols]), haeq]
        have hgv : getV
            [("order_id", kv),
             ("order_value", Value.num (aggSum (groupRows (parse_dates t.order_items ["shipping_limit_date"]) "order_id" kv) "price")),
             ("freight_value", Value.num (aggSum (groupRows (parse_dates t.order_items ["shipping_limit_date"]) "order_id" kv) "freight_value")),
             ("num_items", Value.int (aggCount (groupRows (parse_dates t.order_items ["shipping_limit_date"]) "order_id" kv) "order_item_id")),
             ("product_id", aggFirst (groupRows (parse_dates t.order_items ["shipping_limit_date"]) "order_id" kv) "product_id"),
             ("seller_id", aggFirst (groupRows (parse_dates t.order_items ["shipping_limit_date"]) "order_id" kv) "seller_id")]
            "order_value" =
            Value.num (aggSum (groupRows (parse_dates t.order_items ["shipping_limit_date"]) "order_id" kv) "price") := by
          simp [getV, rlookup]
        rw [hgv, hgcongr, hnonempty]
        rw [parse_single_aggSum (by decide) (by decide)]
        rfl
      · rw [hvf, hx0v "freight_value" (by decide) (by simp [itemsAddCols]), haeq]
        have hgv : getV
            [("order_id", kv),
             ("order_value", Value.num (aggSum (groupRows (parse_dates t.order_items ["shipping_limit_date"]) "order_id" kv) "price")),
             ("freight_value", Value.num (aggSum (groupRows (parse_dates t.order_items ["shipping_limit_date"]) "order_id" kv) "freight_value")),
             ("num_items", Value.int (aggCount (groupRows (parse_dates t.order_items ["shipping_limit_date"]) "order_id" kv) "order_item_id")),
             ("product_id", aggFirst (groupRows (parse_dates t.order_items ["shipping_limit_date"]) "order_id" kv) "product_id"),
             ("seller_id", aggFirst (groupRows (parse_dates t.order_items ["shipping_limit_date"]) "order_id" kv) "seller_id")]
            "freight_value" =
            Value.num (aggSum (groupRows (parse_dates t.order_items ["shipping_limit_date"]) "order_id" kv) "freight_value") := by
          simp [getV, rlookup]
        rw [hgv, hgcongr, hnonempty]
        rw [parse_single_aggSum (by decide) (by decide)]
        rfl
      · rw [hvn, hx0v "num_items" (by decide) (by simp [itemsAddCols]), haeq]
        have hgv : getV
            [("order_id", kv),
             ("order_value", Value.num (aggSum (groupRows (parse_dates t.order_items ["shipping_limit_date"]) "order_id" kv) "price")),
             ("freight_value", Value.num (aggSum (groupRows (parse_dates t.order_items ["shipping_limit_date"]) "order_id" kv) "freight_value")),
             ("num_items", Value.int (aggCount (groupRows (parse_dates t.order_items ["shipping_limit_date"]) "order_id" kv) "order_item_id")),
             ("product_id", aggFirst (groupRows (parse_dates t.order_items ["shipping_limit_date"]) "order_id" kv) "product_id"),
             ("seller_id", aggFirst (groupRows (parse_dates t.order_items ["shipping_limit_date"]) "order_id" kv) "seller_id")]
            "num_items" =
            Value.int (aggCount (groupRows (parse_dates t.order_items ["shipping_limit_date"]) "order_id" kv) "order_item_id") := by
          simp [getV, rlookup]
        rw [hgv, hgcongr]
        rw [parse_single_aggCount (by decide) (by decide)]
        rfl
      · rw [hvp, hx0v "product_id" (by decide) (by simp [itemsAddCols]), haeq]
        have hgv : getV
            [("order_id", kv),
             ("order_value", Value.num (aggSum (groupRows (parse_dates t.order_items ["shipping_limit_date"]) "order_id" kv) "price")),
             ("freight_value", Value.num (aggSum (groupRows (parse_dates t.order_items ["shipping_limit_date"]) "order_id" kv) "freight_value")),
             ("num_items", Value.int (aggCount (groupRows (parse_dates t.order_items ["shipping_limit_date"]) "order_id" kv) "order_item_id")),
             ("product_id", aggFirst (groupRows (parse_dates t.order_items ["shipping_limit_date"]) "order_id" kv) "product_id"),
             ("seller_id", aggFirst (groupRows (parse_dates t.order_items ["shipping_limit_date"]) "order_id" kv) "seller_id")]
            "product_id" =
            aggFirst (groupRows (parse_dates t.order_items ["shipping_limit_date"]) "order_id" kv) "product_id" := by
          simp [getV, rlookup]
        rw [hgv, hgcongr, parse_single_aggFirst (by decide) (by decide)]
      · rw [hvs, hx0v "seller_id" (by decide) (by simp [itemsAddCols]), haeq]
        have hgv : getV
            [("order_id", kv),
             ("order_value", Value.num (aggSum (groupRows (parse_dates t.order_items ["shipping_limit_date"]) "order_id" kv) "price")),
             ("freight_value", Value.num (aggSum (groupRows (parse_dates t.order_items ["shipping_limit_date"]) "order_id" kv) "freight_value")),
             ("num_items", Value.int (aggCount (groupRows (parse_dates t.order_items ["shipping_limit_date"]) "order_id" kv) "order_item_id")),
             ("product_id", aggFirst (groupRows (parse_dates t.order_items ["shipping_limit_date"]) "order_id" kv) "product_id"),
             ("seller_id", aggFirst (groupRows (parse_dates t.order_items ["shipping_limit_date"]) "order_id" kv) "seller_id")]
            "seller_id" =
            aggFirst (groupRows (parse_dates t.order_items ["shipping_limit_date"]) "order_id" kv) "seller_id" := by
          simp [getV, rlookup]
        rw [hgv, hgcongr, parse_single_aggFirst (by decide) (by decide)]

/-! ### The payments stage -/

def payAddCols : List String := ["payment_type", "payment_installments", "payment_value"]

theorem stage_payments_spec (t : Tables) {df : DataFrame} {B : List String}
    (hB : KeysBound df B) (hno : ∀ c ∈ payAddCols, c ∉ B)
    (hinst : t.order_payments.cols.contains "payment_installments" = true) :
    ∀ x ∈ (stage_payments t df).rows, ∃ r ∈ df.rows,
      (∀ c, c ∉ payAddCols → getV x c = getV r c) ∧
      (getV x "payment_installments" = Value.int 0 ∨
       ∃ pr ∈ t.order_payments.rows,
         getV x "payment_installments" =
           astypeIntV (fillnaVal (getV pr "payment_installments") (.int 0))) := by
  intro x hx
  simp only [stage_payments, fillnaCol, astypeIntCol] at hx
  obtain ⟨x2, hx2, he⟩ := setCol_origin hx
  obtain ⟨x1, hx1, he2⟩ := setCol_origin hx2
  obtain ⟨x0, hx0, he1⟩ := setCol_origin hx1
  obtain ⟨lr, hlr, hcase⟩ := merge_left_cases hx0
  have hlrnone : ∀ c ∈ payAddCols, rlookup c lr = none := by
    intro c hcmem
    apply rlookup_none_of_keys
    intro p hp hh
    exact (hno c hcmem) (hh ▸ hB lr hlr p hp)
  refine ⟨lr, hlr, ?_, ?_⟩
  · intro c hc
    have hty : c ≠ "payment_type" := fun hh => hc (by simp [payAddCols, hh])
    have hin : c ≠ "payment_installments" := fun hh => hc (by simp [payAddCols, hh])
    rw [he, getV_setV_ne hin, he2, getV_setV_ne hin, he1, getV_setV_ne hty]
    have hcols : c = "order_id" ∨
        c ∉ (select (dedupFirstCol (sort_values t.order_payments "payment_sequential") "order_id")
          (pay_cols_all.filter (fun d =>
            (dedupFirstCol (sort_values t.order_payments "payment_sequential") "order_id").cols.contains d))).cols := by
      by_cases hcoid : c = "order_id"
      · exact Or.inl hcoid
      · right
        intro hmem
        have hsub : c ∈ pay_cols_all := (List.mem_filter.mp hmem).1
        simp [pay_cols_all] at hsub
        rcases hsub with h1 | h1 | h1 | h1
        · exact hcoid h1
        · exact hc (by simp [payAddCols, h1])
        · exact hc (by simp [payAddCols, h1])
        · exact hc (by simp [payAddCols, h1])
    rcases hcase with ⟨_, he0⟩ | ⟨rr, hrr, _, he0⟩
    · rw [he0, getV_append_nullRow hcols]
    · rw [he0, getV_append_erase
        (fun p hp => select_keysSub _ _ rr hrr p hp) hcols]
  · have hval : getV x "payment_installments" =
        astypeIntV (fillnaVal (getV x0 "payment_installments") (.int 0)) := by
      rw [he, getV_setV_self]
      congr 1
      rw [he2, getV_setV_self]
      congr 1
      rw [he1, getV_setV_ne (by decide)]
    rcases hcase with ⟨_, he0⟩ | ⟨rr, hrr, _, he0⟩
    · left
      rw [hval, he0,
        getV_append_nullRow_right (hlrnone "payment_installments" (by simp [payAddCols]))]
      rfl
    · right
      obtain ⟨prow, hprow, hre⟩ := select_origin hrr
      have hprow2 : prow ∈ t.order_payments.rows := by
        have h1 : prow ∈ (sort_values t.order_payments "payment_sequential").rows :=
          dedupFirstAux_subset hprow
        exact sort_values_mem.mp h1
      refine ⟨prow, hprow2, ?_⟩
      rw [hval, he0,
        getV_append_erase_right (hlrnone "payment_installments" (by simp [payAddCols])) (by decide),
        hre, getV_selectRow_mem]
      apply List.mem_filter.mpr
      refine ⟨by simp [pay_cols_all], ?_⟩
      exact hinst

/-! ### The category-translation stage -/

theorem trans_selectRow_eq (tr_row : Row) :
    selectRow ["product_category_name", "product_category_name_english"] tr_row =
      [("product_category_name", getV tr_row "product_category_name"),
       ("product_category_name_english", getV tr_row "product_category_name_english")] := rfl

theorem trans_renameRow_eq (v1 v2 : Value) :
    renameRow "product_category_name_english" "product_category_english"
      [("product_category_name", v1), ("product_category_name_english", v2)] =
      [("product_category_name", v1), ("product_category_english", v2)] := by
  simp [renameRow]

theorem stage_translation_spec_present (t : Tables) {tr : DataFrame} {df : DataFrame}
    {B : List String}
    (htr : t.category_translation = some tr)
    (hpcn : tr.cols.contains "product_category_name" = true)
    (hen : tr.cols.contains "product_category_name_english" = true)
    (hu : UniqKeys tr "product_category_name")
    (hB : KeysBound df B) (hnoe : "product_category_english" ∉ B) :
    ∀ x ∈ (stage_translation t df).rows, ∃ r ∈ df.rows,
      (∀ c, c ≠ "product_category_english" → getV x c = getV r c) ∧
      getV x "product_category_english" =
        fillnaVal (transLookup tr (getV x "product_category_name"))
          (astypeStrV (getV x "product_category_name")) := by
  intro x hx
  simp only [stage_translation, htr, hpcn, hen, if_true] at hx
  obtain ⟨m, hm, he⟩ := setCol_origin hx
  obtain ⟨lr, hlr, hcase⟩ := merge_left_cases hm
  have htselKS : KeysSub (rename (select tr ["product_category_name", "product_category_name_english"])
      "product_category_name_english" "product_category_english") :=
    rename_keysSub (select_keysSub tr _) _ _
  have htselcols : (rename (select tr ["product_category_name", "product_category_name_english"])
      "product_category_name_english" "product_category_english").cols =
      ["product_category_name", "product_category_english"] := rfl
  have hlrnone : rlookup "product_category_english" lr = none := by
    apply rlookup_none_of_keys
    intro p hp hh
    exact hnoe (hh ▸ hB lr hlr p hp)
  have hxpcn : getV x "product_category_name" = getV m "product_category_name" := by
    rw [he, getV_setV_ne (by decide)]
  have hmpcn : getV m "product_category_name" = getV lr "product_category_name" := by
    rcases hcase with ⟨_, he0⟩ | ⟨rr, hrr, _, he0⟩
    · rw [he0, getV_append_nullRow (Or.inl rfl)]
    · rw [he0, getV_append_erase (fun p hp => htselKS rr hrr p hp) (Or.inl rfl)]
  have hxen : getV x "product_category_english" =
      fillnaVal (getV m "product_category_english")
        (astypeStrV (getV m "product_category_name")) := by
    rw [he, getV_setV_self]
  refine ⟨lr, hlr, ?_, ?_⟩
  · intro c hc
    rw [he, getV_setV_ne hc]
    have hcols : c = "product_category_name" ∨
        c ∉ (rename (select tr ["product_category_name", "product_category_name_english"])
          "product_category_name_english" "product_category_english").cols := by
      by_cases hcp : c = "product_category_name"
      · exact Or.inl hcp
      · right
        rw [htselcols]
        intro hmem
        rcases List.mem_cons.mp hmem with h1 | h1
        · exact hcp h1
        · rcases List.mem_cons.mp h1 with h2 | h2
          · exact hc h2
          · cases h2
    rcases hcase with ⟨_, he0⟩ | ⟨rr, hrr, _, he0⟩
    · rw [he0, getV_append_nullRow hcols]
    · rw [he0, getV_append_erase (fun p hp => htselKS rr hrr p hp) hcols]
  · rw [hxen, hxpcn]
    rcases hcase with ⟨hall, he0⟩ | ⟨rr, hrr, hbeq, he0⟩
    · have hmen : getV m "product_category_english" = .null := by
        rw [he0, getV_append_nullRow_right hlrnone]
      have hlook : transLookup tr (getV m "product_category_name") = .null := by
        unfold transLookup
        have hnil : tr.rows.filter
            (fun rw => valueBeq (getV m "product_category_name") (getV rw "product_category_name")) = [] := by
          apply List.filter_eq_nil_iff.mpr
          intro rw hrw hcon
          have hrrmem : renameRow "product_category_name_english" "product_category_english"
              (selectRow ["product_category_name", "product_category_name_english"] rw) ∈
              (rename (select tr ["product_category_name", "product_category_name_english"])
                "product_category_name_english" "product_category_english").rows := by
            simp only [rename, select, List.map_map, List.mem_map]
            exact ⟨rw, hrw, rfl⟩
          have hfalse := hall _ hrrmem
          rw [trans_selectRow_eq, trans_renameRow_eq] at hfalse
          have hkey : getV [("product_category_name", getV rw "product_category_name"),
              ("product_category_english", getV rw "product_category_name_english")]
              "product_category_name" = getV rw "product_category_name" := by
            simp [getV, rlookup]
          rw [hkey] at hfalse
          rw [hmpcn] at hcon
          rw [hcon] at hfalse
          cases hfalse
        rw [hnil]
        rfl
      rw [hmen, hlook]
    · obtain ⟨rw0, hrw0, hre⟩ : ∃ rw0 ∈ tr.rows,
          rr = renameRow "product_category_name_english" "product_category_english"
            (selectRow ["product_category_name", "product_category_name_english"] rw0) := by
        simp only [rename, select, List.map_map, List.mem_map] at hrr
        obtain ⟨rw0, hrw0, he2⟩ := hrr
        exact ⟨rw0, hrw0, he2.symm⟩
      have hrrform : rr = [("product_category_name", getV rw0 "product_category_name"),
          ("product_category_english", getV rw0 "product_category_name_english")] := by
        rw [hre, trans_selectRow_eq, trans_renameRow_eq]
      have hrrpcn : getV rr "product_category_name" = getV rw0 "product_category_name" := by
        rw [hrrform]
        simp [getV, rlookup]
      have hrren : getV rr "product_category_english" = getV rw0 "product_category_name_english" := by
        rw [hrrform]
        simp [getV, rlookup]
      have hmen : getV m "product_category_english" = getV rw0 "product_category_name_english" := by
        rw [he0, getV_append_erase_right hlrnone (by decide), hrren]
      have hlook : transLookup tr (getV m "product_category_name") =
          getV rw0 "product_category_name_english" := by
        unfold transLookup
        have hbeq2 : valueBeq (getV m "product_category_name") (getV rw0 "product_category_name") = true := by
          rw [hmpcn, ← hrrpcn]
          exact hbeq
        rcases filter_beq_nil_or_singleton "product_category_name"
            (getV m "product_category_name") hu with hnil | ⟨rw1, hrw1, hfil⟩
        · exfalso
          have : rw0 ∈ tr.rows.filter
              (fun rw => valueBeq (getV m "product_category_name") (getV rw "product_category_name")) :=
            List.mem_filter.mpr ⟨hrw0, hbeq2⟩
          rw [hnil] at this
          cases this
        · have hrw0mem : rw0 ∈ tr.rows.filter
              (fun rw => valueBeq (getV m "product_category_name") (getV rw "product_category_name")) :=
            List.mem_filter.mpr ⟨hrw0, hbeq2⟩
          rw [hfil] at hrw0mem
          rcases List.mem_singleton.mp hrw0mem with h1
          rw [hfil, h1]
          rfl
      rw [hmen, hlook]

theorem stage_translation_spec_none (t : Tables) (htr : t.category_translation = none)
    {df : DataFrame} :
    ∀ x ∈ (stage_translation t df).rows, ∃ r ∈ df.rows,
      (∀ c, c ≠ "product_category_english" → getV x c = getV r c) ∧
      getV x "product_category_english" =
        astypeStrV (fillnaVal (getV x "product_category_name") (.str "")) := by
  intro x hx
  simp only [stage_translation, htr] at hx
  obtain ⟨r, hr, he⟩ := setCol_origin hx
  refine ⟨r, hr, ?_, ?_⟩
  · intro c hc
    rw [he, getV_setV_ne hc]
  · rw [he, getV_setV_self, getV_setV_ne (by decide)]

/-! ### The geolocation stage -/

def geoAddCols : List String :=
  ["customer_zip_code_prefix", "seller_zip_code_prefix",
   "customer_lat", "customer_lng", "seller_lat", "seller_lng"]

/-- The four columns the geolocation merges freshly add (the zip prefixes are
only modified in place, they already exist before this stage). -/
def geoLatLngCols : List String :=
  ["customer_lat", "customer_lng", "seller_lat", "seller_lng"]

theorem cust_geo_row_eq (kv a b : Value) :
    renameRow "lng" "customer_lng" (renameRow "lat" "customer_lat"
      (renameRow "zip_prefix" "customer_zip_code_prefix"
        (renameRow "geolocation_zip_code_prefix" "zip_prefix"
          [("geolocation_zip_code_prefix", kv), ("lat", a), ("lng", b)]))) =
      [("customer_zip_code_prefix", kv), ("customer_lat", a), ("customer_lng", b)] := by
  simp [renameRow]

theorem sell_geo_row_eq (kv a b : Value) :
    renameRow "lng" "seller_lng" (renameRow "lat" "seller_lat"
      (renameRow "zip_prefix" "seller_zip_code_prefix"
        (renameRow "geolocation_zip_code_prefix" "zip_prefix"
          [("geolocation_zip_code_prefix", kv), ("lat", a), ("lng", b)]))) =
      [("seller_zip_code_prefix", kv), ("seller_lat", a), ("seller_lng", b)] := by
  simp [renameRow]

theorem cust_geo_rows_mem {geo : DataFrame} {a : Row}
    (ha : a ∈ (rename (rename (rename (geo_agg_df geo) "zip_prefix" "customer_zip_code_prefix")
      "lat" "customer_lat") "lng" "customer_lng").rows) :
    ∃ kv ∈ groupKeys geo "geolocation_zip_code_prefix",
      a = [("customer_zip_code_prefix", kv),
           ("customer_lat", aggMean (groupRows geo "geolocation_zip_code_prefix" kv) "geolocation_lat"),
           ("customer_lng", aggMean (groupRows geo "geolocation_zip_code_prefix" kv) "geolocation_lng")] := by
  simp only [rename, geo_agg_df, List.map_map, List.mem_map] at ha
  obtain ⟨kv, hkv, he⟩ := ha
  refine ⟨kv, hkv, ?_⟩
  rw [← he]
  simp [Function.comp]
  rw [cust_geo_row_eq]

theorem cust_geo_rows_intro {geo : DataFrame} {kv : Value}
    (hkv : kv ∈ groupKeys geo "geolocation_zip_code_prefix") :
    [("customer_zip_code_prefix", kv),
     ("customer_lat", aggMean (groupRows geo "geolocation_zip_code_prefix" kv) "geolocation_lat"),
     ("customer_lng", aggMean (groupRows geo "geolocation_zip_code_prefix" kv) "geolocation_lng")] ∈
      (rename (rename (rename (geo_agg_df geo) "zip_prefix" "customer_zip_code_prefix")
        "lat" "customer_lat") "lng" "customer_lng").rows := by
  simp only [rename, geo_agg_df, List.map_map, List.mem_map]
  refine ⟨kv, hkv, ?_⟩
  simp [Function.comp]
  rw [cust_geo_row_eq]

theorem sell_geo_rows_mem {geo : DataFrame} {a : Row}
    (ha : a ∈ (rename (rename (rename (geo_agg_df geo) "zip_prefix" "seller_zip_code_prefix")
      "lat" "seller_lat") "lng" "seller_lng").rows) :
    ∃ kv ∈ groupKeys geo "geolocation_zip_code_prefix",
      a = [("seller_zip_code_prefix", kv),
           ("seller_lat", aggMean (groupRows geo "geolocation_zip_code_prefix" kv) "geolocation_lat"),
           ("seller_lng", aggMean (groupRows geo "geolocation_zip_code_prefix" kv) "geolocation_lng")] := by
  simp only [rename, geo_agg_df, List.map_map, List.mem_map] at ha
  obtain ⟨kv, hkv, he⟩ := ha
  refine ⟨kv, hkv, ?_⟩
  rw [← he]
  simp [Function.comp]
  rw [sell_geo_row_eq]

theorem cust_geo_cols (geo : DataFrame) :
    (rename (rename (rename (geo_agg_df geo) "zip_prefix" "customer_zip_code_prefix")
      "lat" "customer_lat") "lng" "customer_lng").cols =
      ["customer_zip_code_prefix", "customer_lat", "customer_lng"] := rfl

theorem sell_geo_cols (geo : DataFrame) :
    (rename (rename (rename (geo_agg_df geo) "zip_prefix" "seller_zip_code_prefix")
      "lat" "seller_lat") "lng" "seller_lng").cols =
      ["seller_zip_code_prefix", "seller_lat", "seller_lng"] := rfl

theorem cust_geo_keysSub (geo : DataFrame) :
    KeysSub (rename (rename (rename (geo_agg_df geo) "zip_prefix" "customer_zip_code_prefix")
      "lat" "customer_lat") "lng" "customer_lng") := by
  intro a ha p hp
  obtain ⟨kv, _, he⟩ := cust_geo_rows_mem ha
  rw [he] at hp
  rw [cust_geo_cols]
  rcases List.mem_cons.mp hp with h1 | h1
  · rw [h1]; simp
  · rcases List.mem_cons.mp h1 with h2 | h2
    · rw [h2]; simp
    · rcases List.mem_cons.mp h2 with h3 | h3
      · rw [h3]; simp
      · cases h3

theorem sell_geo_keysSub (geo : DataFrame) :
    KeysSub (rename (rename (rename (geo_agg_df geo) "zip_prefix" "seller_zip_code_prefix")
      "lat" "seller_lat") "lng" "seller_lng") := by
  intro a ha p hp
  obtain ⟨kv, _, he⟩ := sell_geo_rows_mem ha
  rw [he] at hp
  rw [sell_geo_cols]
  rcases List.mem_cons.mp hp with h1 | h1
  · rw [h1]; simp
  · rcases List.mem_cons.mp h1 with h2 | h2
    · rw [h2]; simp
    · rcases List.mem_cons.mp h2 with h3 | h3
      · rw [h3]; simp
      · cases h3

theorem coerceZip_int {v : Value} (h : numericOrNull v = true) :
    ∃ n : Int, astypeIntV (fillnaVal v (.int 0)) = .int n := by
  cases v <;> simp_all [numericOrNull, fillnaVal, astypeIntV]

theorem stage_geo_spec (t : Tables) {df : DataFrame} {B : List String}
    (hgeo : t.geolocation.cols.contains "geolocation_zip_code_prefix" = true)
    (hB : KeysBound df B) (hno : ∀ c ∈ geoLatLngCols, c ∉ B) :
    ∀ x ∈ (stage_geo t df).rows, ∃ r ∈ df.rows,
      (∀ c, c ∉ geoAddCols → getV x c = getV r c) ∧
      getV x "customer_zip_code_prefix" =
        astypeIntV (fillnaVal (getV r "customer_zip_code_prefix") (.int 0)) ∧
      getV x "seller_zip_code_prefix" =
        astypeIntV (fillnaVal (getV r "seller_zip_code_prefix") (.int 0)) ∧
      (numericOrNull (getV r "customer_zip_code_prefix") = true →
        getV x "customer_lat" =
          geoLookup t.geolocation "geolocation_lat" (getV x "customer_zip_code_prefix") ∧
        getV x "customer_lng" =
          geoLookup t.geolocation "geolocation_lng" (getV x "customer_zip_code_prefix")) := by
  intro x hx
  simp only [stage_geo, hgeo, if_true] at hx
  obtain ⟨m3, hm3, hcaseS⟩ := merge_left_cases hx
  obtain ⟨m2, hm2, hcaseC⟩ := merge_left_cases hm3
  obtain ⟨y3, hy3, heZ4⟩ := setCol_origin hm2
  obtain ⟨y2, hy2, heZ3⟩ := setCol_origin hy3
  obtain ⟨y1, hy1, heZ2⟩ := setCol_origin hy2
  obtain ⟨r, hr, heZ1⟩ := setCol_origin hy1
  have hm2keys : ∀ p ∈ m2, p.1 = "seller_zip_code_prefix" ∨ p.1 = "customer_zip_code_prefix" ∨ p.1 ∈ B := by
    intro p hp
    rw [heZ4] at hp
    rcases keys_setV hp with h1 | h1
    · exact Or.inl h1
    · rw [heZ3] at h1
      rcases keys_setV h1 with h2 | h2
      · exact Or.inl h2
      · rw [heZ2] at h2
        rcases keys_setV h2 with h3 | h3
        · exact Or.inr (Or.inl h3)
        · rw [heZ1] at h3
          rcases keys_setV h3 with h4 | h4
          · exact Or.inr (Or.inl h4)
          · exact Or.inr (Or.inr (hB r hr p h4))
  have hm2none : ∀ c, c ≠ "seller_zip_code_prefix" → c ≠ "customer_zip_code_prefix" → c ∈ geoAddCols →
      rlookup c m2 = none := by
    intro c hcs hcc hcg
    apply rlookup_none_of_keys
    intro p hp hh
    rcases hm2keys p hp with h1 | h1 | h1
    · exact hcs (hh ▸ h1 ▸ rfl)
    · exact hcc (hh ▸ h1 ▸ rfl)
    · have hcg2 : c ∈ geoLatLngCols := by
        simp only [geoAddCols, List.mem_cons, List.not_mem_nil, or_false] at hcg
        rcases hcg with h | h | h | h | h | h
        · exact absurd h hcc
        · exact absurd h hcs
        · simp [geoLatLngCols, h]
        · simp [geoLatLngCols, h]
        · simp [geoLatLngCols, h]
        · simp [geoLatLngCols, h]
      exact (hno c hcg2) (hh ▸ h1)
  -- the two coerced zip values on m2
  have hm2cz : getV m2 "customer_zip_code_prefix" =
      astypeIntV (fillnaVal (getV r "customer_zip_code_prefix") (.int 0)) := by
    rw [heZ4, getV_setV_ne (by decide), heZ3, getV_setV_ne (by decide), heZ2, getV_setV_self]
    congr 1
    rw [heZ1, getV_setV_self]
  have hm2sz : getV m2 "seller_zip_code_prefix" =
      astypeIntV (fillnaVal (getV r "seller_zip_code_prefix") (.int 0)) := by
    rw [heZ4, getV_setV_self]
    congr 1
    rw [heZ3, getV_setV_self]
    congr 1
    rw [heZ2, getV_setV_ne (by decide), heZ1, getV_setV_ne (by decide)]
  -- zip values survive both geo merges
  have hm3cz : getV m3 "customer_zip_code_prefix" = getV m2 "customer_zip_code_prefix" := by
    rcases hcaseC with ⟨_, he0⟩ | ⟨arow, harow, _, he0⟩
    · rw [he0, getV_append_nullRow (Or.inl rfl)]
    · rw [he0, getV_append_erase (fun p hp => cust_geo_keysSub t.geolocation arow harow p hp)
        (Or.inl rfl)]
  have hxcz : getV x "customer_zip_code_prefix" = getV m3 "customer_zip_code_prefix" := by
    have hcols : ("customer_zip_code_prefix" : String) = "seller_zip_code_prefix" ∨
        "customer_zip_code_prefix" ∉ (rename (rename (rename (geo_agg_df t.geolocation)
          "zip_prefix" "seller_zip_code_prefix") "lat" "seller_lat") "lng" "seller_lng").cols := by
      right
      rw [sell_geo_cols]
      decide
    rcases hcaseS with ⟨_, he0⟩ | ⟨arow, harow, _, he0⟩
    · rw [he0, getV_append_nullRow hcols]
    · rw [he0, getV_append_erase (fun p hp => sell_geo_keysSub t.geolocation arow harow p hp) hcols]
  have hm3sz : getV m3 "seller_zip_code_prefix" = getV m2 "seller_zip_code_prefix" := by
    have hcols : ("seller_zip_code_prefix" : String) = "customer_zip_code_prefix" ∨
        "seller_zip_code_prefix" ∉ (rename (rename (rename (geo_agg_df t.geolocation)
          "zip_prefix" "customer_zip_code_prefix") "lat" "customer_lat") "lng" "customer_lng").cols := by
      right
      rw [cust_geo_cols]
      decide
    rcases hcaseC with ⟨_, he0⟩ | ⟨arow, harow, _, he0⟩
    · rw [he0, getV_append_nullRow hcols]
    · rw [he0, getV_append_erase (fun p hp => cust_geo_keysSub t.geolocation arow harow p hp) hcols]
  have hxsz : getV x "seller_zip_code_prefix" = getV m3 "seller_zip_code_prefix" := by
    rcases hcaseS with ⟨_, he0⟩ | ⟨arow, harow, _, he0⟩
    · rw [he0, getV_append_nullRow (Or.inl rfl)]
    · rw [he0, getV_append_erase (fun p hp => sell_geo_keysSub t.geolocation arow harow p hp)
        (Or.inl rfl)]
  refine ⟨r, hr, ?_, ?_, ?_, ?_⟩
  · intro c hc
    have hccz : c ≠ "customer_zip_code_prefix" := fun hh => hc (by simp [geoAddCols, hh])
    have hcsz : c ≠ "seller_zip_code_prefix" := fun hh => hc (by simp [geoAddCols, hh])
    have hclat : c ≠ "customer_lat" := fun hh => hc (by simp [geoAddCols, hh])
    have hclng : c ≠ "customer_lng" := fun hh => hc (by simp [geoAddCols, hh])
    have hslat : c ≠ "seller_lat" := fun hh => hc (by simp [geoAddCols, hh])
    have hslng : c ≠ "seller_lng" := fun hh => hc (by simp [geoAddCols, hh])
    have hcolsS : c = "seller_zip_code_prefix" ∨
        c ∉ (rename (rename (rename (geo_agg_df t.geolocation)
          "zip_prefix" "seller_zip_code_prefix") "lat" "seller_lat") "lng" "seller_lng").cols := by
      right
      rw [sell_geo_cols]
      intro hmem
      rcases List.mem_cons.mp hmem with h1 | h1
      · exact hcsz h1
      · rcases List.mem_cons.mp h1 with h2 | h2
        · exact hslat h2
        · rcases List.mem_cons.mp h2 with h3 | h3
          · exact hslng h3
          · cases h3
    have hcolsC : c = "customer_zip_code_prefix" ∨
        c ∉ (rename (rename (rename (geo_agg_df t.geolocation)
          "zip_prefix" "customer_zip_code_prefix") "lat" "customer_lat") "lng" "customer_lng").cols := by
      right
      rw [cust_geo_cols]
      intro hmem
      rcases List.mem_cons.mp hmem with h1 | h1
      · exact hccz h1
      · rcases List.mem_cons.mp h1 with h2 | h2
        · exact hclat h2
        · rcases List.mem_cons.mp h2 with h3 | h3
          · exact hclng h3
          · cases h3
    have hxm3 : getV x c = getV m3 c := by
      rcases hcaseS with ⟨_, he0⟩ | ⟨arow, harow, _, he0⟩
      · rw [he0, getV_append_nullRow hcolsS]
      · rw [he0, getV_append_erase (fun p hp => sell_geo_keysSub t.geolocation arow harow p hp) hcolsS]
    have hm3m2 : getV m3 c = getV m2 c := by
      rcases hcaseC with ⟨_, he0⟩ | ⟨arow, harow, _, he0⟩
      · rw [he0, getV_append_nullRow hcolsC]
      · rw [he0, getV_append_erase (fun p hp => cust_geo_keysSub t.geolocation arow harow p hp) hcolsC]
    rw [hxm3, hm3m2, heZ4, getV_setV_ne hcsz, heZ3, getV_setV_ne hcsz,
      heZ2, getV_setV_ne hccz, heZ1, getV_setV_ne hccz]
  · rw [hxcz, hm3cz, hm2cz]
  · rw [hxsz, hm3sz, hm2sz]
  · intro hnum
    obtain ⟨n, hn⟩ := coerceZip_int hnum
    have hz : getV x "customer_zip_code_prefix" = Value.int n := by
      rw [hxcz, hm3cz, hm2cz, hn]
    have hznn : (getV x "customer_zip_code_prefix").isNull = false := by
      rw [hz]
      rfl
    have hmlat : ∀ c, c = "customer_lat" ∨ c = "customer_lng" →
        getV x c = getV m3 c := by
      intro c hcd
      have hcolsS : c = "seller_zip_code_prefix" ∨
          c ∉ (rename (rename (rename (geo_agg_df t.geolocation)
            "zip_prefix" "seller_zip_code_prefix") "lat" "seller_lat") "lng" "seller_lng").cols := by
        right
        rw [sell_geo_cols]
        rcases hcd with h | h <;> rw [h] <;> decide
      rcases hcaseS with ⟨_, he0⟩ | ⟨arow, harow, _, he0⟩
      · rw [he0, getV_append_nullRow hcolsS]
      · rw [he0, getV_append_erase (fun p hp => sell_geo_keysSub t.geolocation arow harow p hp) hcolsS]
    rcases hcaseC with ⟨hall, he0⟩ | ⟨arow, harow, hbeq, he0⟩
    · -- no geolocation aggregate row for this prefix: group is empty
      have hempty : (groupRows t.geolocation "geolocation_zip_code_prefix"
          (getV m2 "customer_zip_code_prefix")).isEmpty = true := by
        cases hemp : (groupRows t.geolocation "geolocation_zip_code_prefix"
            (getV m2 "customer_zip_code_prefix")).isEmpty
        · exfalso
          have hne : groupRows t.geolocation "geolocation_zip_code_prefix"
              (getV m2 "customer_zip_code_prefix") ≠ [] := by
            intro hnil
            rw [hnil] at hemp
            cases hemp
          obtain ⟨row0, hrow0⟩ := List.exists_mem_of_ne_nil _ hne
          have hrf := List.mem_filter.mp hrow0
          have hznn2 : (getV m2 "customer_zip_code_prefix").isNull = false := by
            rw [hm2cz, hn]
            rfl
          have hany : t.geolocation.rows.any
              (fun rr => valueBeq (getV rr "geolocation_zip_code_prefix")
                (getV m2 "customer_zip_code_prefix")) = true :=
            List.any_eq_true.mpr ⟨row0, hrf.1, hrf.2⟩
          rw [← groupKeys_any hznn2] at hany
          rcases List.any_eq_true.mp hany with ⟨kv, hkvmem, hkvbeq⟩
          have harow2 := cust_geo_rows_intro hkvmem
          have hf := hall _ harow2
          have hkey : getV [("customer_zip_code_prefix", kv),
              ("customer_lat", aggMean (groupRows t.geolocation "geolocation_zip_code_prefix" kv) "geolocation_lat"),
              ("customer_lng", aggMean (groupRows t.geolocation "geolocation_zip_code_prefix" kv) "geolocation_lng")]
              "customer_zip_code_prefix" = kv := by
            simp [getV, rlookup]
          rw [hkey] at hf
          rw [valueBeq_symm] at hkvbeq
          rw [hf] at hkvbeq
          cases hkvbeq
        · rfl
      have hmv : ∀ c, c = "customer_lat" ∨ c = "customer_lng" → getV m3 c = .null := by
        intro c hcd
        rw [he0]
        apply getV_append_nullRow_right
        rcases hcd with h | h <;> rw [h]
        · exact hm2none "customer_lat" (by decide) (by decide) (by simp [geoAddCols])
        · exact hm2none "customer_lng" (by decide) (by decide) (by simp [geoAddCols])
      have hlook : ∀ c2, geoLookup t.geolocation c2 (getV x "customer_zip_code_prefix") = .null := by
        intro c2
        unfold geoLookup
        rw [hxcz, hm3cz, hempty]
        rfl
      constructor
      · rw [hmlat "customer_lat" (Or.inl rfl), hmv "customer_lat" (Or.inl rfl), hlook]
      · rw [hmlat "customer_lng" (Or.inr rfl), hmv "customer_lng" (Or.inr rfl), hlook]
    · -- matched aggregate row
      obtain ⟨kv, hkv, haeq⟩ := cust_geo_rows_mem harow
      have hakey : getV arow "customer_zip_code_prefix" = kv := by
        rw [haeq]
        simp [getV, rlookup]
      rw [hakey] at hbeq
      have hgcongr : groupRows t.geolocation "geolocation_zip_code_prefix" kv =
          groupRows t.geolocation "geolocation_zip_code_prefix" (getV m2 "customer_zip_code_prefix") :=
        groupRows_congr (valueBeq_symm (getV m2 "customer_zip_code_prefix") kv ▸ hbeq)
      have hnonempty : (groupRows t.geolocation "geolocation_zip_code_prefix"
          (getV m2 "customer_zip_code_prefix")).isEmpty = false := by
        obtain ⟨row2, hrow2, hrow2k⟩ := groupKeys_exists_row hkv
        have hrow2g : row2 ∈ groupRows t.geolocation "geolocation_zip_code_prefix"
            (getV m2 "customer_zip_code_prefix") := by
          apply List.mem_filter.mpr
          refine ⟨hrow2, ?_⟩
          rw [hrow2k]
          exact valueBeq_symm (getV m2 "customer_zip_code_prefix") kv ▸ hbeq
        cases hemp : (groupRows t.geolocation "geolocation_zip_code_prefix"
            (getV m2 "customer_zip_code_prefix")).isEmpty
        · rfl
        · rw [List.isEmpty_iff] at hemp
          rw [hemp] at hrow2g
          cases hrow2g
      have hm3v : ∀ c2 g2, (c2 = "customer_lat" ∧ g2 = "geolocation_lat") ∨
          (c2 = "customer_lng" ∧ g2 = "geolocation_lng") →
          getV m3 c2 = aggMean (groupRows t.geolocation "geolocation_zip_code_prefix" kv) g2 := by
        intro c2 g2 hcd
        rw [he0]
        rcases hcd with ⟨h1, h2⟩ | ⟨h1, h2⟩
        · rw [h1, h2,
            getV_append_erase_right (hm2none "customer_lat" (by decide) (by decide) (by simp [geoAddCols])) (by decide),
            haeq]
          simp [getV, rlookup]
        · rw [h1, h2,
            getV_append_erase_right (hm2none "customer_lng" (by decide) (by decide) (by simp [geoAddCols])) (by decide),
            haeq]
          simp [getV, rlookup]
      have hlook : ∀ g2, geoLookup t.geolocation g2 (getV x "customer_zip_code_prefix") =
          aggMean (groupRows t.geolocation "geolocation_zip_code_prefix" kv) g2 := by
        intro g2
        unfold geoLookup
        rw [hxcz, hm3cz, hnonempty, hgcongr]
        rfl
      constructor
      · rw [hmlat "customer_lat" (Or.inl rfl), hm3v "customer_lat" "geolocation_lat" (Or.inl ⟨rfl, rfl⟩), hlook]
      · rw [hmlat "customer_lng" (Or.inr rfl), hm3v "customer_lng" "geolocation_lng" (Or.inr ⟨rfl, rfl⟩), hlook]

/-! ### Plain row-provenance lemmas per stage -/

/-- Every output row of a left merge agrees with its left row on the key and
on every column absent from the right frame. -/
theorem merge_left_origin {L R : DataFrame} {k : String} (hKS : KeysSub R) :
    ∀ x ∈ (merge_left L R k).rows, ∃ lr ∈ L.rows,
      ∀ c, (c = k ∨ c ∉ R.cols) → getV x c = getV lr c := by
  intro x hx
  obtain ⟨lr, hlr, hcase⟩ := merge_left_cases hx
  refine ⟨lr, hlr, ?_⟩
  intro c hc
  rcases hcase with ⟨_, he0⟩ | ⟨rr, hrr, _, he0⟩
  · rw [he0, getV_append_nullRow hc]
  · rw [he0, getV_append_erase (fun p hp => hKS rr hrr p hp) hc]

def custAddCols : List String :=
  ["customer_zip_code_prefix", "customer_city", "customer_state"]

def sellAddCols : List String :=
  ["seller_zip_code_prefix", "seller_city", "seller_state"]

def prodAddCols : List String :=
  ["product_category_name", "product_weight_g", "product_length_cm",
   "product_height_cm", "product_width_cm"]

theorem stage_customers_origin (t : Tables) {df : DataFrame} :
    ∀ x ∈ (stage_customers t df).rows, ∃ r ∈ df.rows,
      ∀ c, c ∉ custAddCols → getV x c = getV r c := by
  intro x hx
  obtain ⟨r, hr, hpres⟩ := merge_left_origin (select_keysSub _ _) x hx
  refine ⟨r, hr, ?_⟩
  intro c hc
  apply hpres
  by_cases hck : c = "customer_id"
  · exact Or.inl hck
  · right
    intro hmem
    have h1 : c ∈ cust_cols_all := (List.mem_filter.mp hmem).1
    simp [cust_cols_all] at h1
    rcases h1 with h1 | h1 | h1 | h1
    · exact hck h1
    · exact hc (by simp [custAddCols, h1])
    · exact hc (by simp [custAddCols, h1])
    · exact hc (by simp [custAddCols, h1])

theorem stage_sellers_origin (t : Tables) {df : DataFrame} :
    ∀ x ∈ (stage_sellers t df).rows, ∃ r ∈ df.rows,
      ∀ c, c ∉ sellAddCols → getV x c = getV r c := by
  intro x hx
  obtain ⟨r, hr, hpres⟩ := merge_left_origin (select_keysSub _ _) x hx
  refine ⟨r, hr, ?_⟩
  intro c hc
  apply hpres
  by_cases hck : c = "seller_id"
  · exact Or.inl hck
  · right
    intro hmem
    have h1 : c ∈ seller_cols_all := (List.mem_filter.mp hmem).1
    simp [seller_cols_all] at h1
    rcases h1 with h1 | h1 | h1 | h1
    · exact hck h1
    · exact hc (by simp [sellAddCols, h1])
    · exact hc (by simp [sellAddCols, h1])
    · exact hc (by simp [sellAddCols, h1])

theorem stage_products_origin (t : Tables) {df : DataFrame} :
    ∀ x ∈ (stage_products t df).rows, ∃ r ∈ df.rows,
      ∀ c, c ∉ prodAddCols → getV x c = getV r c := by
  intro x hx
  obtain ⟨r, hr, hpres⟩ := merge_left_origin (select_keysSub _ _) x hx
  refine ⟨r, hr, ?_⟩
  intro c hc
  apply hpres
  by_cases hck : c = "product_id"
  · exact Or.inl hck
  · right
    intro hmem
    have h1 : c ∈ prod_cols_all := (List.mem_filter.mp hmem).1
    simp [prod_cols_all] at h1
    rcases h1 with h1 | h1 | h1 | h1 | h1 | h1
    · exact hck h1
    · exact hc (by simp [prodAddCols, h1])
    · exact hc (by simp [prodAddCols, h1])
    · exact hc (by simp [prodAddCols, h1])
    · exact hc (by simp [prodAddCols, h1])
    · exact hc (by simp [prodAddCols, h1])

theorem stage_payments_origin (t : Tables) {df : DataFrame} :
    ∀ x ∈ (stage_payments t df).rows, ∃ r ∈ df.rows,
      ∀ c, c ∉ payAddCols → getV x c = getV r c := by
  intro x hx
  simp only [stage_payments, fillnaCol, astypeIntCol] at hx
  obtain ⟨x2, hx2, he⟩ := setCol_origin hx
  obtain ⟨x1, hx1, he2⟩ := setCol_origin hx2
  obtain ⟨x0, hx0, he1⟩ := setCol_origin hx1
  obtain ⟨r, hr, hpres⟩ := merge_left_origin (select_keysSub _ _) x0 hx0
  refine ⟨r, hr, ?_⟩
  intro c hc
  have hty : c ≠ "payment_type" := fun hh => hc (by simp [payAddCols, hh])
  have hin : c ≠ "payment_installments" := fun hh => hc (by simp [payAddCols, hh])
  rw [he, getV_setV_ne hin, he2, getV_setV_ne hin, he1, getV_setV_ne hty]
  apply hpres
  by_cases hck : c = "order_id"
  · exact Or.inl hck
  · right
    intro hmem
    have h1 : c ∈ pay_cols_all := (List.mem_filter.mp hmem).1
    simp [pay_cols_all] at h1
    rcases h1 with h1 | h1 | h1 | h1
    · exact hck h1
    · exact hc (by simp [payAddCols, h1])
    · exact hc (by simp [payAddCols, h1])
    · exact hc (by simp [payAddCols, h1])

theorem stage_items_origin (t : Tables) {df : DataFrame} :
    ∀ x ∈ (stage_items t df).rows, ∃ r ∈ df.rows,
      ∀ c, c ∉ itemsAddCols → getV x c = getV r c := by
  intro x hx
  simp only [stage_items, fillnaCol, astypeIntCol] at hx
  obtain ⟨x5, hx5, he⟩ := setCol_origin hx
  obtain ⟨x4, hx4, he5⟩ := setCol_origin hx5
  obtain ⟨x3, hx3, he4⟩ := setCol_origin hx4
  obtain ⟨x2, hx2, he3⟩ := setCol_origin hx3
  obtain ⟨x1, hx1, he2⟩ := setCol_origin hx2
  obtain ⟨x0, hx0, he1⟩ := setCol_origin hx1
  obtain ⟨r, hr, hpres⟩ := merge_left_origin (order_agg_keysSub _) x0 hx0
  refine ⟨r, hr, ?_⟩
  intro c hc
  have hov : c ≠ "order_value" := fun hh => hc (by simp [itemsAddCols, hh])
  have hfr : c ≠ "freight_value" := fun hh => hc (by simp [itemsAddCols, hh])
  have hni : c ≠ "num_items" := fun hh => hc (by simp [itemsAddCols, hh])
  have hpi : c ≠ "product_id" := fun hh => hc (by simp [itemsAddCols, hh])
  have hsi : c ≠ "seller_id" := fun hh => hc (by simp [itemsAddCols, hh])
  rw [he, getV_setV_ne hsi, he5, getV_setV_ne hpi, he4, getV_setV_ne hni,
    he3, getV_setV_ne hni, he2, getV_setV_ne hfr, he1, getV_setV_ne hov]
  apply hpres
  by_cases hck : c = "order_id"
  · exact Or.inl hck
  · right
    rw [order_agg_cols]
    intro hmem
    rcases List.mem_cons.mp hmem with h1 | h1
    · exact hck h1
    · exact hc h1

theorem tsel_cols_subset {tr : DataFrame} {en_col : String} {c : String}
    (hc : c ∈ (rename (select tr ["product_category_name", en_col]) en_col
      "product_category_english").cols) :
    c = "product_category_name" ∨ c = "product_category_english" := by
  simp only [rename, select] at hc
  simp only [List.mem_map] at hc
  obtain ⟨d, hd, he⟩ := hc
  rcases List.mem_cons.mp hd with h1 | h1
  · by_cases hq : d == en_col
    · rw [if_pos hq] at he
      exact Or.inr he.symm
    · rw [if_neg hq] at he
      exact Or.inl (he.symm.trans h1)
  · rcases List.mem_cons.mp h1 with h2 | h2
    · rw [h2] at he
      rw [if_pos (by simp)] at he
      exact Or.inr he.symm
    · cases h2

theorem stage_translation_origin (t : Tables) {df : DataFrame} :
    ∀ x ∈ (stage_translation t df).rows, ∃ r ∈ df.rows,
      ∀ c, c ≠ "product_category_english" → getV x c = getV r c := by
  intro x hx
  cases htr : t.category_translation with
  | none =>
      rw [stage_translation, htr] at hx
      obtain ⟨r, hr, he⟩ := setCol_origin hx
      exact ⟨r, hr, fun c hc => by rw [he, getV_setV_ne hc]⟩
  | some tr =>
      rw [stage_translation, htr] at hx
      by_cases hpcn : tr.cols.contains "product_category_name"
      · simp only [hpcn, if_true] at hx
        obtain ⟨m, hm, he⟩ := setCol_origin hx
        obtain ⟨r, hr, hpres⟩ := merge_left_origin
          (rename_keysSub (select_keysSub tr _) _ _) m hm
        refine ⟨r, hr, ?_⟩
        intro c hc
        rw [he, getV_setV_ne hc]
        apply hpres
        by_cases hck : c = "product_category_name"
        · exact Or.inl hck
        · right
          intro hmem
          rcases tsel_cols_subset hmem with h1 | h1
          · exact hck h1
          · exact hc h1
      · simp only [hpcn, Bool.false_eq_true, if_neg, not_false_eq_true] at hx
        obtain ⟨r, hr, he⟩ := setCol_origin hx
        exact ⟨r, hr, fun c hc => by rw [he, getV_setV_ne hc]⟩

theorem stage_geo_origin (t : Tables) {df : DataFrame} :
    ∀ x ∈ (stage_geo t df).rows, ∃ r ∈ df.rows,
      ∀ c, c ∉ geoAddCols → getV x c = getV r c := by
  intro x hx
  by_cases hgeo : t.geolocation.cols.contains "geolocation_zip_code_prefix"
  · simp only [stage_geo, hgeo, if_true] at hx
    obtain ⟨m3, hm3, hpresS⟩ := merge_left_origin (sell_geo_keysSub t.geolocation) x hx
    obtain ⟨m2, hm2, hpresC⟩ := merge_left_origin (cust_geo_keysSub t.geolocation) m3 hm3
    obtain ⟨y3, hy3, heZ4⟩ := setCol_origin hm2
    obtain ⟨y2, hy2, heZ3⟩ := setCol_origin hy3
    obtain ⟨y1, hy1, heZ2⟩ := setCol_origin hy2
    obtain ⟨r, hr, heZ1⟩ := setCol_origin hy1
    refine ⟨r, hr, ?_⟩
    intro c hc
    have hccz : c ≠ "customer_zip_code_prefix" := fun hh => hc (by simp [geoAddCols, hh])
    have hcsz : c ≠ "seller_zip_code_prefix" := fun hh => hc (by simp [geoAddCols, hh])
    have hclat : c ≠ "customer_lat" := fun hh => hc (by simp [geoAddCols, hh])
    have hclng : c ≠ "customer_lng" := fun hh => hc (by simp [geoAddCols, hh])
    have hslat : c ≠ "seller_lat" := fun hh => hc (by simp [geoAddCols, hh])
    have hslng : c ≠ "seller_lng" := fun hh => hc (by simp [geoAddCols, hh])
    rw [hpresS c (Or.inr (by
      rw [sell_geo_cols]
      intro hmem
      rcases List.mem_cons.mp hmem with h1 | h1
      · exact hcsz h1
      · rcases List.mem_cons.mp h1 with h2 | h2
        · exact hslat h2
        · rcases List.mem_cons.mp h2 with h3 | h3
          · exact hslng h3
          · cases h3))]
    rw [hpresC c (Or.inr (by
      rw [cust_geo_cols]
      intro hmem
      rcases List.mem_cons.mp hmem with h1 | h1
      · exact hccz h1
      · rcases List.mem_cons.mp h1 with h2 | h2
        · exact hclat h2
        · rcases List.mem_cons.mp h2 with h3 | h3
          · exact hclng h3
          · cases h3))]
    rw [heZ4, getV_setV_ne hcsz, heZ3, getV_setV_ne hcsz,
      heZ2, getV_setV_ne hccz, heZ1, getV_setV_ne hccz]
  · simp only [stage_geo, hgeo, Bool.false_eq_true, if_neg, not_false_eq_true] at hx
    exact ⟨x, hx, fun c _ => rfl⟩

theorem dropDupCols_rows (df : DataFrame) : (dropDupCols df).rows = df.rows := rfl

/-! ### build_orders_with_target lemmas -/

theorem merge_inner_origin {L R : DataFrame} {k : String} (hKS : KeysSub R) :
    ∀ x ∈ (merge_inner L R k).rows, ∃ lr ∈ L.rows,
      ∀ c, (c = k ∨ c ∉ R.cols) → getV x c = getV lr c := by
  intro x hx
  obtain ⟨lr, hlr, rr, hrr, _, he⟩ := merge_inner_cases hx
  refine ⟨lr, hlr, ?_⟩
  intro c hc
  rw [he, getV_append_erase (fun p hp => hKS rr hrr p hp) hc]

/-- Every output row of `build_orders_with_target` carries the derived target:
1 when its review score compares at most 2, else 0 (a null score compares
false, hence 0). -/
theorem bowt_target (orders reviews : DataFrame) :
    ∀ x ∈ (build_orders_with_target orders reviews).rows,
      getV x "target" =
        .int (if cmpLeB (getV x "review_score") (.int 2) then 1 else 0) := by
  intro x hx
  simp only [build_orders_with_target] at hx
  obtain ⟨m, hm, he⟩ := setCol_origin hx
  rw [he, getV_setV_self, getV_setV_ne (by decide)]

theorem bowt_origin (orders reviews : DataFrame) :
    ∀ x ∈ (build_orders_with_target orders reviews).rows, ∃ ro ∈ orders.rows,
      ∀ c, c ≠ "review_score" → c ≠ "target" → getV x c = getV ro c := by
  intro x hx
  simp only [build_orders_with_target] at hx
  obtain ⟨m, hm, he⟩ := setCol_origin hx
  obtain ⟨ro, hro, hpres⟩ := merge_inner_origin (select_keysSub _ _) m hm
  refine ⟨ro, hro, ?_⟩
  intro c hcr hct
  rw [he, getV_setV_ne hct]
  apply hpres
  by_cases hck : c = "order_id"
  · exact Or.inl hck
  · right
    intro hmem
    rcases List.mem_cons.mp hmem with h1 | h1
    · exact hck h1
    · rcases List.mem_cons.mp h1 with h2 | h2
      · exact hcr h2
      · cases h2

theorem bowt_keysBound {orders reviews : DataFrame} (h : KeysSub orders) :
    KeysBound (build_orders_with_target orders reviews)
      (orders.cols ++ ["order_id", "review_score", "target"]) := by
  have h1 : KeysBound (merge_inner orders
      (select (dedup_reviews reviews) ["order_id", "review_score"]) "order_id")
      (orders.cols ++ ["order_id", "review_score"]) :=
    merge_inner_keysBound h (select_keysSub _ _)
  have h2 := @setCol_keysBound _ _ "target"
    (fun r => Value.int (if cmpLeB (getV r "review_score") (.int 2) then 1 else 0)) h1
  exact keysBound_mono (fun c hc => by
    simp only [List.mem_append, List.mem_cons] at hc ⊢
    tauto) h2

/-! ### KeysBound through the pipeline stages -/

theorem setCol_keysBound_mem {df : DataFrame} {B : List String} {c : String} {f : Row → Value}
    (hc : c ∈ B) (h : KeysBound df B) : KeysBound (setCol df c f) B :=
  keysBound_mono (fun d hd => by
    rcases List.mem_cons.mp hd with h1 | h1
    · rw [h1]; exact hc
    · exact h1) (setCol_keysBound h)

theorem stage_items_keysBound {t : Tables} {df : DataFrame} {B : List String}
    (h : KeysBound df B) :
    KeysBound (stage_items t df) (B ++ ("order_id" :: itemsAddCols)) := by
  simp only [stage_items, fillnaCol, astypeIntCol]
  have h0 : KeysBound (merge_left df (order_agg (parse_dates t.order_items ["shipping_limit_date"])) "order_id")
      (B ++ ("order_id" :: itemsAddCols)) := by
    have hm : KeysBound (merge_left df (order_agg (parse_dates t.order_items ["shipping_limit_date"])) "order_id")
        (B ++ (order_agg (parse_dates t.order_items ["shipping_limit_date"])).cols) :=
      merge_left_keysBound h (order_agg_keysSub (parse_dates t.order_items ["shipping_limit_date"]))
    rw [order_agg_cols] at hm
    exact hm
  exact setCol_keysBound_mem (by simp [itemsAddCols])
    (setCol_keysBound_mem (by simp [itemsAddCols])
      (setCol_keysBound_mem (by simp [itemsAddCols])
        (setCol_keysBound_mem (by simp [itemsAddCols])
          (setCol_keysBound_mem (by simp [itemsAddCols])
            (setCol_keysBound_mem (by simp [itemsAddCols]) h0)))))

theorem stage_payments_keysBound {t : Tables} {df : DataFrame} {B : List String}
    (h : KeysBound df B) :
    KeysBound (stage_payments t df) (B ++ pay_cols_all) := by
  simp only [stage_payments, fillnaCol, astypeIntCol]
  have h0 : KeysBound (merge_left df
      (select (dedupFirstCol (sort_values t.order_payments "payment_sequential") "order_id")
        (pay_cols_all.filter (fun c =>
          (dedupFirstCol (sort_values t.order_payments "payment_sequential") "order_id").cols.contains c)))
      "order_id")
      (B ++ pay_cols_all) := by
    have hm : KeysBound (merge_left df
        (select (dedupFirstCol (sort_values t.order_payments "payment_sequential") "order_id")
          (pay_cols_all.filter (fun c =>
            (dedupFirstCol (sort_values t.order_payments "payment_sequential") "order_id").cols.contains c)))
        "order_id")
        (B ++ (select (dedupFirstCol (sort_values t.order_payments "payment_sequential") "order_id")
          (pay_cols_all.filter (fun c =>
            (dedupFirstCol (sort_values t.order_payments "payment_sequential") "order_id").cols.contains c))).cols) :=
      merge_left_keysBound h (select_keysSub _ _)
    exact keysBound_mono (fun c hc => by
      rcases List.mem_append.mp hc with h1 | h1
      · exact List.mem_append.mpr (Or.inl h1)
      · exact List.mem_append.mpr (Or.inr (List.mem_filter.mp h1).1)) hm
  exact setCol_keysBound_mem (by simp [pay_cols_all])
    (setCol_keysBound_mem (by simp [pay_cols_all])
      (setCol_keysBound_mem (by simp [pay_cols_all]) h0))

theorem stage_customers_keysBound {t : Tables} {df : DataFrame} {B : List String}
    (h : KeysBound df B) :
    KeysBound (stage_customers t df) (B ++ cust_cols_all) := by
  refine keysBound_mono ?_ (merge_left_keysBound h (select_keysSub t.customers
    (cust_cols_all.filter (fun c => t.customers.cols.contains c))))
  intro c hc
  rcases List.mem_append.mp hc with h1 | h1
  · exact List.mem_append.mpr (Or.inl h1)
  · exact List.mem_append.mpr (Or.inr (List.mem_filter.mp h1).1)

theorem stage_sellers_keysBound {t : Tables} {df : DataFrame} {B : List String}
    (h : KeysBound df B) :
    KeysBound (stage_sellers t df) (B ++ seller_cols_all) := by
  refine keysBound_mono ?_ (merge_left_keysBound h (select_keysSub t.sellers
    (seller_cols_all.filter (fun c => t.sellers.cols.contains c))))
  intro c hc
  rcases List.mem_append.mp hc with h1 | h1
  · exact List.mem_append.mpr (Or.inl h1)
  · exact List.mem_append.mpr (Or.inr (List.mem_filter.mp h1).1)

theorem stage_products_keysBound {t : Tables} {df : DataFrame} {B : List String}
    (h : KeysBound df B) :
    KeysBound (stage_products t df) (B ++ prod_cols_all) := by
  refine keysBound_mono ?_ (merge_left_keysBound h (select_keysSub t.products
    (prod_cols_all.filter (fun c => t.products.cols.contains c))))
  intro c hc
  rcases List.mem_append.mp hc with h1 | h1
  · exact List.mem_append.mpr (Or.inl h1)
  · exact List.mem_append.mpr (Or.inr (List.mem_filter.mp h1).1)

theorem stage_translation_keysBound {t : Tables} {df : DataFrame} {B : List String}
    (h : KeysBound df B) :
    KeysBound (stage_translation t df)
      (B ++ ["product_category_name", "product_category_english"]) := by
  have hweak : KeysBound df (B ++ ["product_category_name", "product_category_english"]) :=
    keysBound_mono (fun c hc => List.mem_append.mpr (Or.inl hc)) h
  cases htr : t.category_translation with
  | none =>
      rw [stage_translation, htr]
      exact setCol_keysBound_mem (by simp) hweak
  | some tr =>
      rw [stage_translation, htr]
      by_cases hpcn : tr.cols.contains "product_category_name"
      · simp only [hpcn, if_true]
        have hm2 : KeysBound (merge_left df
            (rename (select tr ["product_category_name",
              if tr.cols.contains "product_category_name_english" = true then
                "product_category_name_english" else tr.cols.getD 1 ""])
              (if tr.cols.contains "product_category_name_english" = true then
                "product_category_name_english" else tr.cols.getD 1 "")
              "product_category_english") "product_category_name")
            (B ++ ["product_category_name", "product_category_english"]) := by
          refine keysBound_mono ?_ (merge_left_keysBound h (rename_keysSub (select_keysSub tr _) _ _))
          intro c hc
          rcases List.mem_append.mp hc with h1 | h1
          · exact List.mem_append.mpr (Or.inl h1)
          · rcases tsel_cols_subset h1 with h2 | h2 <;>
              exact List.mem_append.mpr (Or.inr (by simp [h2]))
        exact setCol_keysBound_mem (by simp) hm2
      · simp only [hpcn, Bool.false_eq_true, if_neg, not_false_eq_true]
        exact setCol_keysBound_mem (by simp) hweak

/-! ### Pipeline-wide row provenance -/

def allTouched : List String :=
  order_date_cols ++ itemsAddCols ++ payAddCols ++ custAddCols ++ sellAddCols ++
    prodAddCols ++ ["product_category_english"] ++ geoAddCols

theorem pure_unfold (t : Tables) :
    build_modeling_dataframe_pure t =
      dropDupCols (stage_geo t (stage_translation t (stage_products t (stage_sellers t
        (stage_customers t (stage_payments t (stage_items t
          (parse_dates (build_orders_with_target t.orders t.reviews) order_date_cols)))))))) := rfl

/-- Every row of the final modeling dataframe comes from a row of
`build_orders_with_target`, agreeing on every column the later stages never
touch (in particular `order_id`, `review_score`, `target`). -/
theorem pipeline_origin (t : Tables) :
    ∀ x ∈ (build_modeling_dataframe_pure t).rows,
      ∃ r ∈ (build_orders_with_target t.orders t.reviews).rows,
        ∀ c, c ∉ allTouched → getV x c = getV r c := by
  intro x hx
  rw [pure_unfold, dropDupCols_rows] at hx
  obtain ⟨x7, hx7, h7⟩ := stage_geo_origin t x hx
  obtain ⟨x6, hx6, h6⟩ := stage_translation_origin t x7 hx7
  obtain ⟨x5, hx5, h5⟩ := stage_products_origin t x6 hx6
  obtain ⟨x4, hx4, h4⟩ := stage_sellers_origin t x5 hx5
  obtain ⟨x3, hx3, h3⟩ := stage_customers_origin t x4 hx4
  obtain ⟨x2, hx2, h2⟩ := stage_payments_origin t x3 hx3
  obtain ⟨x1, hx1, h1⟩ := stage_items_origin t x2 hx2
  obtain ⟨r, hr, h0⟩ := parse_dates_origin x1 hx1
  refine ⟨r, hr, ?_⟩
  intro c hc
  simp only [allTouched, List.mem_append, List.mem_cons, List.mem_singleton,
    not_or] at hc
  obtain ⟨⟨⟨⟨⟨⟨⟨hcd, hci⟩, hcp⟩, hcc⟩, hcs⟩, hcpr⟩, hce⟩, hcg⟩ := hc
  rw [h7 c hcg, h6 c (by simpa using hce), h5 c hcpr, h4 c hcs, h3 c hcc,
    h2 c hcp, h1 c hci, h0 c hcd]

/-! ### Schema side conditions -/

def ordersForbidden : List String :=
  ["review_score", "order_value", "freight_value", "num_items", "product_id", "seller_id",
   "payment_type", "payment_installments", "payment_value",
   "customer_zip_code_prefix", "customer_city", "customer_state",
   "seller_zip_code_prefix", "seller_city", "seller_state",
   "product_category_name", "product_weight_g", "product_length_cm",
   "product_height_cm", "product_width_cm",
   "product_category_english", "customer_lat", "customer_lng", "seller_lat", "seller_lng"]

def transOkB (o : Option DataFrame) : Bool :=
  match o with
  | none => true
  | some tr => !(tr.cols.contains "product_category_name") ||
      tr.cols.contains "product_category_name_english"

/-- The schema regime in which the shallow embedding agrees with pandas: the
standard key and value columns exist where the code reads them, the orders
table does not already carry a column that a later join or fill would bring
in (pandas would suffix-rename and then crash on the later column reads), and
rows are rectangular. -/
abbrev GoodSchema (t : Tables) : Prop :=
  "order_id" ∈ t.orders.cols ∧
  "customer_id" ∈ t.orders.cols ∧
  (∀ c ∈ ordersForbidden, c ∉ t.orders.cols) ∧
  (∀ r ∈ t.orders.rows, ∀ p ∈ r, p.1 ∈ t.orders.cols) ∧
  "order_id" ∈ t.reviews.cols ∧
  "review_score" ∈ t.reviews.cols ∧
  "order_id" ∈ t.order_payments.cols ∧
  "payment_sequential" ∈ t.order_payments.cols ∧
  "payment_type" ∈ t.order_payments.cols ∧
  "payment_installments" ∈ t.order_payments.cols ∧
  "customer_id" ∈ t.customers.cols ∧
  "customer_zip_code_prefix" ∈ t.customers.cols ∧
  "seller_id" ∈ t.sellers.cols ∧
  "seller_zip_code_prefix" ∈ t.sellers.cols ∧
  "product_id" ∈ t.products.cols ∧
  "product_category_name" ∈ t.products.cols ∧
  transOkB t.category_translation = true ∧
  ("geolocation_zip_code_prefix" ∈ t.geolocation.cols →
    "geolocation_lat" ∈ t.geolocation.cols ∧ "geolocation_lng" ∈ t.geolocation.cols)

/-! ### Concrete tables used by the witnesses and counterexamples -/

def wOrders : DataFrame :=
  ⟨["order_id", "customer_id"],
   [[("order_id", .str "A1"), ("customer_id", .str "C1")]]⟩

def wReviews : DataFrame :=
  ⟨["order_id", "review_score", "review_creation_date"],
   [[("order_id", .str "A1"), ("review_score", .int 5), ("review_creation_date", .str "2017-02-01")],
    [("order_id", .str "A1"), ("review_score", .int 1), ("review_creation_date", .str "2017-01-01")]]⟩

def wItems : DataFrame :=
  ⟨["order_id", "order_item_id", "product_id", "seller_id", "price", "freight_value", "shipping_limit_date"],
   [[("order_id", .str "A1"), ("order_item_id", .int 1), ("product_id", .str "P1"),
     ("seller_id", .str "S1"), ("price", .num 10), ("freight_value", .num 1),
     ("shipping_limit_date", .str "2017-01-05")],
    [("order_id", .str "A1"), ("order_item_id", .int 2), ("product_id", .str "P2"),
     ("seller_id", .str "S1"), ("price", .num 20), ("freight_value", .num 2),
     ("shipping_limit_date", .str "2017-01-06")]]⟩

def wPayments : DataFrame :=
  ⟨["order_id", "payment_sequential", "payment_type", "payment_installments", "payment_value"],
   [[("order_id", .str "A1"), ("payment_sequential", .int 1), ("payment_type", .str "credit_card"),
     ("payment_installments", .int 3), ("payment_value", .num 33)]]⟩

def wCustomers : DataFrame :=
  ⟨["customer_id", "customer_zip_code_prefix", "customer_city", "customer_state"],
   [[("customer_id", .str "C1"), ("customer_zip_code_prefix", .int 100),
     ("customer_city", .str "sp"), ("customer_state", .str "SP")]]⟩

def wSellers : DataFrame :=
  ⟨["seller_id", "seller_zip_code_prefix", "seller_city", "seller_state"],
   [[("seller_id", .str "S1"), ("seller_zip_code_prefix", .int 200),
     ("seller_city", .str "rj"), ("seller_state", .str "RJ")]]⟩

def wProducts : DataFrame :=
  ⟨["product_id", "product_category_name", "product_weight_g"],
   [[("product_id", .str "P1"), ("product_category_name", .str "moveis"),
     ("product_weight_g", .num 100)]]⟩

def wGeo : DataFrame :=
  ⟨["geolocation_zip_code_prefix", "geolocation_lat", "geolocation_lng"],
   [[("geolocation_zip_code_prefix", .int 100), ("geolocation_lat", .num 10), ("geolocation_lng", .num 20)],
    [("geolocation_zip_code_prefix", .int 100), ("geolocation_lat", .num 30), ("geolocation_lng", .num 40)]]⟩

def wTrans : DataFrame :=
  ⟨["product_category_name", "product_category_name_english"],
   [[("product_category_name", .str "moveis"), ("product_category_name_english", .str "furniture")]]⟩

def wTables : Tables :=
  ⟨wOrders, wCustomers, wItems, wPayments, wReviews, wProducts, wSellers, wGeo, some wTrans⟩

/-- The later-dated review of `wReviews` (score 5): the one "latest wins" keeps. -/
def wRev5 : Row :=
  [("order_id", .str "A1"), ("review_score", .int 5), ("review_creation_date", .str "2017-02-01")]

/-- A single review whose score is missing. -/
def wRevNullRow : Row :=
  [("order_id", .str "A1"), ("review_score", Value.null), ("review_creation_date", .str "2017-01-01")]

def wReviewsNull : DataFrame :=
  ⟨["order_id", "review_score", "review_creation_date"], [wRevNullRow]⟩

def wOrderRow : Row := [("order_id", .str "A1"), ("customer_id", .str "C1")]

/-- A file system holding all nine expected CSVs under "data". -/
def wFS : FileSystem :=
  ⟨["data"],
   [("data/olist_orders_dataset.csv", .csv wOrders),
    ("data/olist_customers_dataset.csv", .csv wCustomers),
    ("data/olist_order_items_dataset.csv", .csv wItems),
    ("data/olist_order_payments_dataset.csv", .csv wPayments),
    ("data/olist_order_reviews_dataset.csv", .csv wReviews),
    ("data/olist_products_dataset.csv", .csv wProducts),
    ("data/olist_sellers_dataset.csv", .csv wSellers),
    ("data/olist_geolocation_dataset.csv", .csv wGeo),
    ("data/product_category_name_translation.csv", .csv wTrans)]⟩

/-- A file system with the data directory but only one of the nine CSVs. -/
def wFSmissing : FileSystem :=
  ⟨["data"], [("data/olist_orders_dataset.csv", .csv wOrders)]⟩

/-- Order items whose first row has a null order_item_id and a null product_id
(pandas `count` skips the null; `first` skips to the next non-null value). -/
def c5Items : DataFrame :=
  ⟨["order_id", "order_item_id", "product_id", "seller_id", "price", "freight_value",
    "shipping_limit_date"],
   [[("order_id", .str "A1"), ("order_item_id", Value.null), ("product_id", Value.null),
     ("seller_id", .str "S1"), ("price", .num 10), ("freight_value", .num 1),
     ("shipping_limit_date", .str "2017-01-05")],
    [("order_id", .str "A1"), ("order_item_id", .int 2), ("product_id", .str "P2"),
     ("seller_id", .str "S1"), ("price", .num 20), ("freight_value", .num 2),
     ("shipping_limit_date", .str "2017-01-06")]]⟩

def c5Tables : Tables := { wTables with order_items := c5Items }

/-- A payment row with a negative installment count. -/
def c6Payments : DataFrame :=
  ⟨["order_id", "payment_sequential", "payment_type", "payment_installments", "payment_value"],
   [[("order_id", .str "A1"), ("payment_sequential", .int 1),
     ("payment_type", .str "credit_card"), ("payment_installments", .int (-3)),
     ("payment_value", .num 33)]]⟩

def c6Tables : Tables := { wTables with order_payments := c6Payments }

/-- A product whose category name is missing. -/
def c7Products : DataFrame :=
  ⟨["product_id", "product_category_name", "product_weight_g"],
   [[("product_id", .str "P1"), ("product_category_name", Value.null),
     ("product_weight_g", .num 100)]]⟩

def c7Tables : Tables := { wTables with products := c7Products }

/-- A customer whose zip-code prefix is missing. -/
def c8Customers : DataFrame :=
  ⟨["customer_id", "customer_zip_code_prefix", "customer_city", "customer_state"],
   [[("customer_id", .str "C1"), ("customer_zip_code_prefix", Value.null),
     ("customer_city", .str "sp"), ("customer_state", .str "SP")]]⟩

def c8Tables : Tables := { wTables with customers := c8Customers }

/-- Two reviews for one order with no review_creation_date column at all. -/
def c2Reviews : DataFrame :=
  ⟨["order_id", "review_score"],
   [[("order_id", .str "A1"), ("review_score", .int 5)],
    [("order_id", .str "A1"), ("review_score", .int 1)]]⟩

def c2Tables : Tables := { wTables with reviews := c2Reviews }

/-- C1: for every row of the dataframe returned by `build_modeling_dataframe`,
the `target` column is non-null and equals 1 exactly when that row's
review_score compares at most 2 (a null score compares false, giving 0).
Stated under the standard-schema hypotheses in which the embedding agrees
with pandas. -/
theorem C1_target_correct (t : Tables) (hG : GoodSchema t) :
    ∀ r ∈ (build_modeling_dataframe_pure t).rows,
      getV r "target" ≠ Value.null ∧
      getV r "target" =
        .int (if cmpLeB (getV r "review_score") (.int 2) then 1 else 0) := by
  intro r hr
  obtain ⟨r0, hr0, hpres⟩ := pipeline_origin t r hr
  have ht : getV r "target" = getV r0 "target" := hpres "target" (by decide)
  have hs : getV r "review_score" = getV r0 "review_score" := hpres "review_score" (by decide)
  have htv := bowt_target t.orders t.reviews r0 hr0
  refine ⟨?_, ?_⟩
  · rw [ht, htv]
    cases cmpLeB (getV r0 "review_score") (.int 2) <;> simp
  · rw [ht, htv, hs]

/-- Witness for C1: the schema hypotheses hold at a concrete run and the
theorem yields the target value of its single output row (review score 5,
hence target 0). -/
theorem C1_target_correct_witness :
    GoodSchema wTables ∧
      (getV ((build_modeling_dataframe_pure wTables).rows.headD []) "target" ≠ Value.null ∧
       getV ((build_modeling_dataframe_pure wTables).rows.headD []) "target" =
         .int (if cmpLeB (getV ((build_modeling_dataframe_pure wTables).rows.headD [])
           "review_score") (.int 2) then 1 else 0)) :=
  ⟨by decide, C1_target_correct wTables (by decide) _ (by
    have hne : (build_modeling_dataframe_pure wTables).rows ≠ [] := by decide
    cases h : (build_modeling_dataframe_pure wTables).rows with
    | nil => exact absurd h hne
    | cons a as => exact List.mem_cons_self a as)⟩

/-! ### Latest-review dedup (claim C4) -/

theorem mem_of_getLast {α : Type} : ∀ {l : List α} {y : α}, l.getLast? = some y → y ∈ l := by
  intro l
  induction l with
  | nil => intro y h; cases h
  | cons a rest ih =>
      intro y h
      cases rest with
      | nil =>
          have h2 : a = y := by simpa using h
          simp [h2]
      | cons b bs =>
          rw [List.getLast?_cons_cons] at h
          exact List.mem_cons_of_mem _ (ih h)

theorem pairwise_getLast {α : Type} {P : α → α → Prop} :
    ∀ {l : List α} {y : α}, l.Pairwise P → l.getLast? = some y →
      ∀ z ∈ l, z = y ∨ P z y := by
  intro l
  induction l with
  | nil => intro y _ h z hz; cases hz
  | cons a rest ih =>
      intro y hp hl z hz
      obtain ⟨ha, hrest⟩ := List.pairwise_cons.mp hp
      cases rest with
      | nil =>
          have h2 : a = y := by simpa using hl
          rcases List.mem_cons.mp hz with h1 | h1
          · exact Or.inl (h1.trans h2)
          · cases h1
      | cons b bs =>
          rw [List.getLast?_cons_cons] at hl
          have hym : y ∈ b :: bs := mem_of_getLast hl
          rcases List.mem_cons.mp hz with h1 | h1
          · exact Or.inr (h1 ▸ ha y hym)
          · exact ih hrest hl z h1

theorem getV_eraseKey_ne {d c : String} (h : d ≠ c) (r : Row) :
    getV (eraseKey r c) d = getV r d := by
  unfold getV
  rw [rlookup_eraseKey_ne h]

/-- When the creation-date column is present and `rv` is the strictly latest
review of its order, deduplication keeps exactly `rv` for that order. -/
theorem dedup_reviews_latest {reviews : DataFrame} {rv : Row}
    (hdate : reviews.cols.contains "review_creation_date" = true)
    (hrv : rv ∈ reviews.rows)
    (hmax : ∀ r2 ∈ reviews.rows,
      valueBeq (getV r2 "order_id") (getV rv "order_id") = true → r2 ≠ rv →
      sortLtB (getV r2 "review_creation_date") (getV rv "review_creation_date") = true) :
    ∀ y ∈ (dedup_reviews reviews).rows,
      valueBeq (getV y "order_id") (getV rv "order_id") = true → y = rv := by
  intro y hy hkey
  simp only [dedup_reviews, hdate, if_true] at hy
  have hy2 : y ∈ dedupLast "order_id" (sort_values reviews "review_creation_date").rows := hy
  have hlast := dedupLast_kept hy2 hkey
  have hpw := (sort_values_pairwise reviews "review_creation_date").filter
    (fun r => valueBeq (getV r "order_id") (getV rv "order_id"))
  have hrvf : rv ∈ (sort_values reviews "review_creation_date").rows.filter
      (fun r => valueBeq (getV r "order_id") (getV rv "order_id")) :=
    List.mem_filter.mpr ⟨sort_values_mem.mpr hrv, valueBeq_refl _⟩
  rcases pairwise_getLast hpw hlast rv hrvf with h1 | h1
  · exact h1.symm
  · by_cases hne : y = rv
    · exact hne
    · exfalso
      have hym : y ∈ reviews.rows := sort_values_mem.mp (dedupLast_subset hy2)
      have hlt := hmax y hym hkey hne
      simp only [sortLtB, Bool.and_eq_true] at hlt
      rw [h1] at hlt
      simpa using hlt.2

/-- C4: when the reviews table has a `review_creation_date` column and `rv` is
the strictly latest review row of its order, every output row of
`build_orders_with_target` for that order carries `rv`'s review_score, and its
target is derived from that score (so a later score-5 review gives target 0). -/
theorem C4_latest_review_wins (orders reviews : DataFrame) {rv : Row}
    (hdate : reviews.cols.contains "review_creation_date" = true)
    (hrv : rv ∈ reviews.rows)
    (hmax : ∀ r2 ∈ reviews.rows,
      valueBeq (getV r2 "order_id") (getV rv "order_id") = true → r2 ≠ rv →
      sortLtB (getV r2 "review_creation_date") (getV rv "review_creation_date") = true)
    (hsc : ∀ ro ∈ orders.rows, rlookup "review_score" ro = none) :
    ∀ x ∈ (build_orders_with_target orders reviews).rows,
      valueBeq (getV x "order_id") (getV rv "order_id") = true →
      getV x "review_score" = getV rv "review_score" ∧
      getV x "target" = .int (if cmpLeB (getV rv "review_score") (.int 2) then 1 else 0) := by
  intro x hx hkey
  have htv := bowt_target orders reviews x hx
  simp only [build_orders_with_target] at hx
  obtain ⟨m, hm, he⟩ := setCol_origin hx
  obtain ⟨lr, hlr, rr, hrr, hbeq, hme⟩ := merge_inner_cases hm
  obtain ⟨yrow, hyrow, hre⟩ := select_origin hrr
  have hxm : getV x "order_id" = getV m "order_id" := by
    rw [he, getV_setV_ne (by decide)]
  have hmo : getV m "order_id" = getV lr "order_id" := by
    rw [hme]
    exact getV_append_of_right_none (rlookup_eraseKey_self rr "order_id") lr
  have hrro : getV rr "order_id" = getV yrow "order_id" := by
    rw [hre]
    exact getV_selectRow_mem (by simp) yrow
  have hykey : valueBeq (getV yrow "order_id") (getV rv "order_id") = true := by
    have h1 : valueBeq (getV rr "order_id") (getV lr "order_id") = true := by
      rw [valueBeq_symm]
      exact hbeq
    have h2 : valueBeq (getV lr "order_id") (getV rv "order_id") = true := by
      rw [← hmo, ← hxm]
      exact hkey
    rw [← hrro]
    exact valueBeq_trans h1 h2
  have hyeq : yrow = rv := dedup_reviews_latest hdate hrv hmax yrow hyrow hykey
  have hxs : getV x "review_score" = getV rv "review_score" := by
    rw [he, getV_setV_ne (by decide), hme, getV_append_of_left_none (hsc lr hlr),
      getV_eraseKey_ne (by decide), hre, getV_selectRow_mem (by simp), hyeq]
  refine ⟨hxs, ?_⟩
  rw [htv, hxs]

/-- Witness for C4: in the two-review scenario (score 5 dated later, score 1
dated earlier) the output row keeps the score-5 review and target 0. -/
theorem C4_latest_review_wins_witness :
    getV ((build_orders_with_target wOrders wReviews).rows.headD []) "review_score" = .int 5 ∧
    getV ((build_orders_with_target wOrders wReviews).rows.headD []) "target" = .int 0 := by
  have hne : (build_orders_with_target wOrders wReviews).rows ≠ [] := by decide
  have hmem : (build_orders_with_target wOrders wReviews).rows.headD [] ∈
      (build_orders_with_target wOrders wReviews).rows := by
    cases h : (build_orders_with_target wOrders wReviews).rows with
    | nil => exact absurd h hne
    | cons a as => exact List.mem_cons_self a as
  have h := @C4_latest_review_wins wOrders wReviews wRev5 (by decide)
    (List.mem_cons_self _ _) (by decide) (by decide) _ hmem (by decide)
  exact ⟨h.1.trans (by decide), h.2.trans (by decide)⟩

/-! ### Null review scores survive the join (claim C10) -/

/-- C10: an order whose kept review row has a missing review_score still
produces an output row of `build_orders_with_target`, with a null score and
target 0 (no drop, no error). -/
theorem C10_null_score_kept (orders reviews : DataFrame) {rv ro : Row}
    (hsc : ∀ r ∈ orders.rows, rlookup "review_score" r = none)
    (hrv : rv ∈ (dedup_reviews reviews).rows)
    (hnull : getV rv "review_score" = Value.null)
    (hro : ro ∈ orders.rows)
    (hbeq : valueBeq (getV ro "order_id") (getV rv "order_id") = true) :
    ∃ x ∈ (build_orders_with_target orders reviews).rows,
      getV x "review_score" = Value.null ∧ getV x "target" = .int 0 ∧
      ∀ c, c ≠ "review_score" → c ≠ "target" → getV x c = getV ro c := by
  have hrr : selectRow ["order_id", "review_score"] rv ∈
      (select (dedup_reviews reviews) ["order_id", "review_score"]).rows := by
    simp only [select, List.mem_map]
    exact ⟨rv, hrv, rfl⟩
  have hbeq2 : valueBeq (getV ro "order_id")
      (getV (selectRow ["order_id", "review_score"] rv) "order_id") = true := by
    rw [getV_selectRow_mem (by simp)]
    exact hbeq
  have hm := merge_inner_intro hro hrr hbeq2
  have hscore : getV (ro ++ eraseKey (selectRow ["order_id", "review_score"] rv) "order_id")
      "review_score" = Value.null := by
    rw [getV_append_of_left_none (hsc ro hro), getV_eraseKey_ne (by decide),
      getV_selectRow_mem (by simp)]
    exact hnull
  refine ⟨setV (ro ++ eraseKey (selectRow ["order_id", "review_score"] rv) "order_id")
    "target" (.int (if cmpLeB (getV (ro ++ eraseKey (selectRow ["order_id", "review_score"] rv)
      "order_id") "review_score") (.int 2) then 1 else 0)), setCol_mem_intro hm, ?_, ?_, ?_⟩
  · rw [getV_setV_ne (by decide)]
    exact hscore
  · rw [getV_setV_self, hscore]
    rfl
  · intro c hcs hct
    rw [getV_setV_ne hct]
    by_cases hco : c = "order_id"
    · rw [hco]
      exact getV_append_of_right_none (rlookup_eraseKey_self _ "order_id") ro
    · have hnone : rlookup c (eraseKey (selectRow ["order_id", "review_score"] rv)
          "order_id") = none := by
        apply rlookup_none_of_keys
        intro p hp hh
        have h1 := keys_selectRow (keys_eraseKey hp)
        rcases List.mem_cons.mp h1 with h2 | h2
        · exact hco (hh ▸ h2 ▸ rfl)
        · rcases List.mem_cons.mp h2 with h3 | h3
          · exact hcs (hh ▸ h3 ▸ rfl)
          · cases h3
      exact getV_append_of_right_none hnone ro

/-- Witness for C10: a single review with a null score still yields the order's
output row, with target 0. -/
theorem C10_null_score_kept_witness :
    ∃ x ∈ (build_orders_with_target wOrders wReviewsNull).rows,
      getV x "review_score" = Value.null ∧ getV x "target" = .int 0 ∧
      ∀ c, c ≠ "review_score" → c ≠ "target" → getV x c = getV wOrderRow c := by
  have hrv : wRevNullRow ∈ (dedup_reviews wReviewsNull).rows := by
    have h : (dedup_reviews wReviewsNull).rows = [wRevNullRow] := by decide
    rw [h]
    exact List.mem_cons_self _ _
  exact @C10_null_score_kept wOrders wReviewsNull wRevNullRow wOrderRow
    (by decide) hrv (by decide) (List.mem_cons_self _ _) (by decide)

/-! ### The table loader (claim C3) -/

theorem load_files_error {fs : FileSystem} {dp : String} :
    ∀ {files : List (String × String)},
      (∃ pr ∈ files, flookup (pathJoin dp pr.2) fs.files = none) →
      ∃ pr ∈ files, flookup (pathJoin dp pr.2) fs.files = none ∧
        load_files fs dp files = .error ("Expected CSV not found: " ++ pathJoin dp pr.2) := by
  intro files
  induction files with
  | nil =>
      rintro ⟨pr, hpr, _⟩
      cases hpr
  | cons q rest ih =>
      rintro ⟨pr, hpr, hnone⟩
      cases hq : flookup (pathJoin dp q.2) fs.files with
      | none =>
          refine ⟨q, List.mem_cons_self _ _, hq, ?_⟩
          simp [load_files, hq]
      | some fd =>
          rcases List.mem_cons.mp hpr with h1 | h1
          · rw [h1, hq] at hnone
            cases hnone
          · obtain ⟨pr2, hpr2, hn2, herr⟩ := ih ⟨pr, h1, hnone⟩
            refine ⟨pr2, List.mem_cons_of_mem _ hpr2, hn2, ?_⟩
            simp only [load_files, hq]
            rw [herr]
            rfl

theorem load_files_ok {fs : FileSystem} {dp : String} :
    ∀ {files : List (String × String)},
      files.Pairwise (fun a b => a.1 ≠ b.1) →
      (∀ pr ∈ files, flookup (pathJoin dp pr.2) fs.files ≠ none) →
      ∃ tl, load_files fs dp files = .ok tl ∧
        ∀ pr ∈ files, ∃ fd, flookup (pathJoin dp pr.2) fs.files = some fd ∧
          tlookup pr.1 tl = some (read_csv_file fd) := by
  intro files
  induction files with
  | nil =>
      intro _ _
      exact ⟨[], rfl, fun pr hpr => absurd hpr (List.not_mem_nil pr)⟩
  | cons q rest ih =>
      intro hdist hall
      obtain ⟨hq1, hq2⟩ := List.pairwise_cons.mp hdist
      cases hq : flookup (pathJoin dp q.2) fs.files with
      | none => exact absurd hq (hall q (List.mem_cons_self _ _))
      | some fd =>
          obtain ⟨tl, htl, hprop⟩ := ih hq2 (fun pr h => hall pr (List.mem_cons_of_mem _ h))
          refine ⟨(q.1, read_csv_file fd) :: tl, ?_, ?_⟩
          · simp only [load_files, hq]
            rw [htl]
            rfl
          · intro pr hpr
            rcases List.mem_cons.mp hpr with h1 | h1
            · refine ⟨fd, ?_, ?_⟩
              · rw [h1]
                exact hq
              · rw [h1]
                simp [tlookup]
            · obtain ⟨fd2, hfd2, hti⟩ := hprop pr h1
              refine ⟨fd2, hfd2, ?_⟩
              have hne : q.1 ≠ pr.1 := hq1 pr h1
              simp [tlookup, hne, hti]

/-- C3: a missing data directory or a missing CSV aborts `load_raw_tables`
(and hence `build_modeling_dataframe`, before any join) with an error naming
the exact offending path; when the directory and all nine fixed-name files
exist, it returns every table verbatim as stored. -/
theorem C3_loader_contract (fs : FileSystem) (d : String) :
    (fs.dirs.contains d = false →
      load_raw_tables fs d = .error ("Data directory not found: " ++ d) ∧
      ∀ sp, build_modeling_dataframe fs d sp =
        .error ("Data directory not found: " ++ d)) ∧
    (fs.dirs.contains d = true →
      ((∃ pr ∈ DEFAULT_FILES, flookup (pathJoin d pr.2) fs.files = none) →
        ∃ pr ∈ DEFAULT_FILES, flookup (pathJoin d pr.2) fs.files = none ∧
          load_raw_tables fs d = .error ("Expected CSV not found: " ++ pathJoin d pr.2) ∧
          ∀ sp, build_modeling_dataframe fs d sp =
            .error ("Expected CSV not found: " ++ pathJoin d pr.2)) ∧
      ((∀ pr ∈ DEFAULT_FILES, flookup (pathJoin d pr.2) fs.files ≠ none) →
        ∃ tl, load_raw_tables fs d = .ok tl ∧
          ∀ pr ∈ DEFAULT_FILES, ∃ fd, flookup (pathJoin d pr.2) fs.files = some fd ∧
            tlookup pr.1 tl = some (read_csv_file fd))) := by
  constructor
  · intro hdir
    have hdm : d ∉ fs.dirs := by simpa using hdir
    have h1 : load_raw_tables fs d = .error ("Data directory not found: " ++ d) := by
      simp [load_raw_tables, hdm]
    refine ⟨h1, ?_⟩
    intro sp
    simp [build_modeling_dataframe, h1]
  · intro hdir
    have hdm : d ∈ fs.dirs := by simpa using hdir
    constructor
    · intro hmiss
      obtain ⟨pr, hpr, hnone, herr⟩ := load_files_error hmiss
      have h1 : load_raw_tables fs d =
          .error ("Expected CSV not found: " ++ pathJoin d pr.2) := by
        simp [load_raw_tables, hdm, herr]
      exact ⟨pr, hpr, hnone, h1, fun sp => by simp [build_modeling_dataframe, h1]⟩
    · intro hall
      obtain ⟨tl, htl, hprop⟩ := load_files_ok (by decide) hall
      refine ⟨tl, ?_, hprop⟩
      simp [load_raw_tables, hdm, htl]

/-- Witness for C3: the missing-directory error, a full successful load, and
the missing-file error at concrete file systems. -/
theorem C3_loader_contract_witness :
    load_raw_tables wFS "nope" = .error ("Data directory not found: " ++ "nope") ∧
    (∃ tl, load_raw_tables wFS "data" = .ok tl ∧
      ∀ pr ∈ DEFAULT_FILES, ∃ fd, flookup (pathJoin "data" pr.2) wFS.files = some fd ∧
        tlookup pr.1 tl = some (read_csv_file fd)) ∧
    (∃ pr ∈ DEFAULT_FILES, flookup (pathJoin "data" pr.2) wFSmissing.files = none ∧
      load_raw_tables wFSmissing "data" =
        .error ("Expected CSV not found: " ++ pathJoin "data" pr.2)) := by
  refine ⟨((C3_loader_contract wFS "nope").1 (by decide)).1,
    ((C3_loader_contract wFS "data").2 (by decide)).2 (by decide), ?_⟩
  obtain ⟨pr, hpr, hnone, herr, _⟩ :=
    ((C3_loader_contract wFSmissing "data").2 (by decide)).1 (by decide)
  exact ⟨pr, hpr, hnone, herr⟩

/-! ### Save/load round trip (claim C9) -/

/-- C9: a table saved by the pipeline's save step is read back verbatim by
`load_modeling_data` (same rows, columns and values); the writer and reader
dispatch parquet versus CSV by the same ".parquet"-suffix rule, and reading a
path that does not exist fails with an error naming the path. -/
theorem C9_roundtrip (fs : FileSystem) (p : String) (df : DataFrame) :
    load_modeling_data (save_dataframe fs p df) p = .ok df ∧
    (flookup p fs.files = none →
      load_modeling_data fs p = .error ("Modeling data not found: " ++ p)) ∧
    (pathSuffix p = ".parquet" →
      (save_dataframe fs p df).files = (p, FileData.parquet df) :: fs.files) ∧
    (pathSuffix p ≠ ".parquet" →
      (save_dataframe fs p df).files = (p, FileData.csv df) :: fs.files) ∧
    (∀ d df2 fs2, build_modeling_dataframe fs d (some p) = .ok (df2, fs2) →
      load_modeling_data fs2 p = .ok df2) := by
  have hround : ∀ df0 : DataFrame,
      load_modeling_data (save_dataframe fs p df0) p = .ok df0 := by
    intro df0
    by_cases hs : pathSuffix p = ".parquet"
    · simp [save_dataframe, load_modeling_data, flookup, hs]
    · simp [save_dataframe, load_modeling_data, flookup, hs]
  refine ⟨hround df, ?_, ?_, ?_, ?_⟩
  · intro hnone
    simp [load_modeling_data, hnone]
  · intro hs
    simp [save_dataframe, hs]
  · intro hs
    simp [save_dataframe, hs]
  · intro d df2 fs2 hok
    simp only [build_modeling_dataframe] at hok
    cases hload : load_raw_tables fs d with
    | error e =>
        rw [hload] at hok
        simp at hok
    | ok tl =>
        rw [hload] at hok
        simp at hok
        obtain ⟨ha, hb⟩ := hok
        rw [← hb, ← ha]
        exact hround _

/-- Witness for C9: the concrete parquet round trip of the pipeline's output,
and the missing-path error. -/
theorem C9_roundtrip_witness :
    load_modeling_data (save_dataframe wFS "data/modeling.parquet"
        (build_modeling_dataframe_pure wTables)) "data/modeling.parquet" =
      .ok (build_modeling_dataframe_pure wTables) ∧
    load_modeling_data wFS "data/nope.parquet" =
      .error ("Modeling data not found: " ++ "data/nope.parquet") :=
  ⟨(C9_roundtrip wFS "data/modeling.parquet" (build_modeling_dataframe_pure wTables)).1,
   (C9_roundtrip wFS "data/nope.parquet" emptyDF).2.1 (by decide)⟩

/-! ### Cumulative key bounds and origins along the pipeline -/

/-- Binding keys (beyond the orders columns) present when `stage_items` runs. -/
def preItemsTail : List String :=
  ["order_id", "review_score", "target"] ++ order_date_cols

def prePayTail : List String := preItemsTail ++ ("order_id" :: itemsAddCols)

def preCustTail : List String := prePayTail ++ pay_cols_all

def preSellTail : List String := preCustTail ++ cust_cols_all

def preProdTail : List String := preSellTail ++ seller_cols_all

def preTransTail : List String := preProdTail ++ prod_cols_all

def preGeoTail : List String :=
  preTransTail ++ ["product_category_name", "product_category_english"]

/-- The frame entering `stage_items`. -/
def pipe_items (t : Tables) : DataFrame :=
  parse_dates (build_orders_with_target t.orders t.reviews) order_date_cols

def pipe_payments (t : Tables) : DataFrame := stage_items t (pipe_items t)

def pipe_customers (t : Tables) : DataFrame := stage_payments t (pipe_payments t)

def pipe_sellers (t : Tables) : DataFrame := stage_customers t (pipe_customers t)

def pipe_products (t : Tables) : DataFrame := stage_sellers t (pipe_sellers t)

def pipe_translation (t : Tables) : DataFrame := stage_products t (pipe_products t)

def pipe_geo (t : Tables) : DataFrame := stage_translation t (pipe_translation t)

theorem pure_unfold_pipe (t : Tables) :
    build_modeling_dataframe_pure t = dropDupCols (stage_geo t (pipe_geo t)) := rfl

theorem preItems_keysBound {t : Tables} (hG : GoodSchema t) :
    KeysBound (pipe_items t) (t.orders.cols ++ preItemsTail) := by
  have h0 := @bowt_keysBound t.orders t.reviews hG.2.2.2.1
  have h1 := @parse_dates_keysBound order_date_cols _ _ h0
  rw [List.append_assoc] at h1
  exact h1

theorem prePay_keysBound {t : Tables} (hG : GoodSchema t) :
    KeysBound (pipe_payments t) (t.orders.cols ++ prePayTail) := by
  have h1 := @stage_items_keysBound t _ _ (preItems_keysBound hG)
  rw [List.append_assoc] at h1
  exact h1

theorem preCust_keysBound {t : Tables} (hG : GoodSchema t) :
    KeysBound (pipe_customers t) (t.orders.cols ++ preCustTail) := by
  have h1 := @stage_payments_keysBound t _ _ (prePay_keysBound hG)
  rw [List.append_assoc] at h1
  exact h1

theorem preSell_keysBound {t : Tables} (hG : GoodSchema t) :
    KeysBound (pipe_sellers t) (t.orders.cols ++ preSellTail) := by
  have h1 := @stage_customers_keysBound t _ _ (preCust_keysBound hG)
  rw [List.append_assoc] at h1
  exact h1

theorem preProd_keysBound {t : Tables} (hG : GoodSchema t) :
    KeysBound (pipe_products t) (t.orders.cols ++ preProdTail) := by
  have h1 := @stage_sellers_keysBound t _ _ (preSell_keysBound hG)
  rw [List.append_assoc] at h1
  exact h1

theorem preTrans_keysBound {t : Tables} (hG : GoodSchema t) :
    KeysBound (pipe_translation t) (t.orders.cols ++ preTransTail) := by
  have h1 := @stage_products_keysBound t _ _ (preProd_keysBound hG)
  rw [List.append_assoc] at h1
  exact h1

theorem preGeo_keysBound {t : Tables} (hG : GoodSchema t) :
    KeysBound (pipe_geo t) (t.orders.cols ++ preGeoTail) := by
  have h1 := @stage_translation_keysBound t _ _ (preTrans_keysBound hG)
  rw [List.append_assoc] at h1
  exact h1

/-- Columns the pipeline appends after `stage_items` has run. -/
def postItemsCols : List String :=
  payAddCols ++ custAddCols ++ sellAddCols ++ prodAddCols ++
    ["product_category_english"] ++ geoAddCols

/-- Columns the pipeline appends after `stage_payments` has run. -/
def postPayCols : List String :=
  custAddCols ++ sellAddCols ++ prodAddCols ++ ["product_category_english"] ++ geoAddCols

/-- Every final row originates in a `stage_items` output row, agreeing on every
column no later stage touches. -/
theorem after_items_origin (t : Tables) :
    ∀ x ∈ (build_modeling_dataframe_pure t).rows, ∃ y ∈ (pipe_payments t).rows,
      ∀ c, c ∉ postItemsCols → getV x c = getV y c := by
  intro x hx
  rw [pure_unfold_pipe, dropDupCols_rows] at hx
  obtain ⟨x7, hx7, h7⟩ := stage_geo_origin t x hx
  obtain ⟨x6, hx6, h6⟩ := stage_translation_origin t x7 hx7
  obtain ⟨x5, hx5, h5⟩ := stage_products_origin t x6 hx6
  obtain ⟨x4, hx4, h4⟩ := stage_sellers_origin t x5 hx5
  obtain ⟨x3, hx3, h3⟩ := stage_customers_origin t x4 hx4
  obtain ⟨x2, hx2, h2⟩ := stage_payments_origin t x3 hx3
  refine ⟨x2, hx2, ?_⟩
  intro c hc
  simp only [postItemsCols, List.mem_append, List.mem_cons, List.mem_singleton,
    not_or] at hc
  obtain ⟨⟨⟨⟨⟨hcp, hcc⟩, hcs⟩, hcpr⟩, hce⟩, hcg⟩ := hc
  rw [h7 c hcg, h6 c (by simpa using hce), h5 c hcpr, h4 c hcs, h3 c hcc, h2 c hcp]

/-- Every final row originates in a `stage_payments` output row, agreeing on
every column no later stage touches. -/
theorem after_payments_origin (t : Tables) :
    ∀ x ∈ (build_modeling_dataframe_pure t).rows, ∃ y ∈ (pipe_customers t).rows,
      ∀ c, c ∉ postPayCols → getV x c = getV y c := by
  intro x hx
  rw [pure_unfold_pipe, dropDupCols_rows] at hx
  obtain ⟨x7, hx7, h7⟩ := stage_geo_origin t x hx
  obtain ⟨x6, hx6, h6⟩ := stage_translation_origin t x7 hx7
  obtain ⟨x5, hx5, h5⟩ := stage_products_origin t x6 hx6
  obtain ⟨x4, hx4, h4⟩ := stage_sellers_origin t x5 hx5
  obtain ⟨x3, hx3, h3⟩ := stage_customers_origin t x4 hx4
  refine ⟨x3, hx3, ?_⟩
  intro c hc
  simp only [postPayCols, List.mem_append, List.mem_cons, List.mem_singleton,
    not_or] at hc
  obtain ⟨⟨⟨⟨hcc, hcs⟩, hcpr⟩, hce⟩, hcg⟩ := hc
  rw [h7 c hcg, h6 c (by simpa using hce), h5 c hcpr, h4 c hcs, h3 c hcc]

/-- Every final row originates in a pre-geolocation row, agreeing on every
column outside the geolocation stage's reach. -/
theorem after_translation_origin (t : Tables) :
    ∀ x ∈ (build_modeling_dataframe_pure t).rows, ∃ y ∈ (pipe_geo t).rows,
      ∀ c, c ∉ geoAddCols → getV x c = getV y c := by
  intro x hx
  rw [pure_unfold_pipe, dropDupCols_rows] at hx
  exact stage_geo_origin t x hx

theorem contains_of_mem {l : List String} {a : String} (h : a ∈ l) : l.contains a = true :=
  List.elem_eq_true_of_mem h

theorem itemsAdd_not_pre {t : Tables} (hG : GoodSchema t) :
    ∀ c ∈ itemsAddCols, c ∉ t.orders.cols ++ preItemsTail := by
  intro c hc hmem
  simp only [itemsAddCols, List.mem_cons, List.not_mem_nil, or_false] at hc
  have hcf : c ∈ ordersForbidden := by
    rcases hc with h | h | h | h | h <;> simp [ordersForbidden, h]
  rcases List.mem_append.mp hmem with h1 | h1
  · exact hG.2.2.1 c hcf h1
  · rcases hc with h | h | h | h | h <;> rw [h] at h1 <;> exact absurd h1 (by decide)

theorem payAdd_not_pre {t : Tables} (hG : GoodSchema t) :
    ∀ c ∈ payAddCols, c ∉ t.orders.cols ++ prePayTail := by
  intro c hc hmem
  simp only [payAddCols, List.mem_cons, List.not_mem_nil, or_false] at hc
  have hcf : c ∈ ordersForbidden := by
    rcases hc with h | h | h <;> simp [ordersForbidden, h]
  rcases List.mem_append.mp hmem with h1 | h1
  · exact hG.2.2.1 c hcf h1
  · rcases hc with h | h | h <;> rw [h] at h1 <;> exact absurd h1 (by decide)

theorem pce_not_preTrans {t : Tables} (hG : GoodSchema t) :
    "product_category_english" ∉ t.orders.cols ++ preTransTail := by
  intro hmem
  rcases List.mem_append.mp hmem with h1 | h1
  · exact hG.2.2.1 _ (by simp [ordersForbidden]) h1
  · exact absurd h1 (by decide)

theorem latlng_not_pre {t : Tables} (hG : GoodSchema t) :
    ∀ c ∈ geoLatLngCols, c ∉ t.orders.cols ++ preGeoTail := by
  intro c hc hmem
  simp only [geoLatLngCols, List.mem_cons, List.not_mem_nil, or_false] at hc
  have hcf : c ∈ ordersForbidden := by
    rcases hc with h | h | h | h <;> simp [ordersForbidden, h]
  rcases List.mem_append.mp hmem with h1 | h1
  · exact hG.2.2.1 c hcf h1
  · rcases hc with h | h | h | h <;> rw [h] at h1 <;> exact absurd h1 (by decide)

/-! ### Order-item aggregates on the final frame (claim C5) -/

/-- C5: on every final row with a non-null order_id, order_value and
freight_value are the sums of price and freight over that order's item rows
(0 when there are none), num_items is the count of item rows with a non-null
order_item_id, and product_id / seller_id are the first non-null values per
group, the empty string when the group is empty or all-null. -/
theorem C5_order_item_aggregates (t : Tables) (hG : GoodSchema t) :
    ∀ x ∈ (build_modeling_dataframe_pure t).rows,
      (getV x "order_id").isNull = false →
      getV x "order_value" =
        (if (groupRows t.order_items "order_id" (getV x "order_id")).isEmpty then Value.int 0
         else .num (aggSum (groupRows t.order_items "order_id" (getV x "order_id")) "price")) ∧
      getV x "freight_value" =
        (if (groupRows t.order_items "order_id" (getV x "order_id")).isEmpty then Value.int 0
         else .num (aggSum (groupRows t.order_items "order_id" (getV x "order_id")) "freight_value")) ∧
      getV x "num_items" =
        .int (aggCount (groupRows t.order_items "order_id" (getV x "order_id")) "order_item_id") ∧
      getV x "product_id" =
        fillnaVal (aggFirst (groupRows t.order_items "order_id" (getV x "order_id")) "product_id")
          (.str "") ∧
      getV x "seller_id" =
        fillnaVal (aggFirst (groupRows t.order_items "order_id" (getV x "order_id")) "seller_id")
          (.str "") := by
  intro x hx hnn
  obtain ⟨y, hy, hpres⟩ := after_items_origin t x hx
  have hitems : ∀ c ∈ itemsAddCols, getV x c = getV y c := by
    intro c hc
    apply hpres
    simp only [itemsAddCols, List.mem_cons, List.not_mem_nil, or_false] at hc
    rcases hc with h | h | h | h | h <;> rw [h] <;> decide
  have hoid : getV x "order_id" = getV y "order_id" := hpres "order_id" (by decide)
  obtain ⟨r, hr, hrpres, hform⟩ :=
    stage_items_spec t (preItems_keysBound hG) (itemsAdd_not_pre hG) y hy
  have hroid : getV y "order_id" = getV r "order_id" := hrpres "order_id" (by decide)
  have hkey : getV x "order_id" = getV r "order_id" := hoid.trans hroid
  have hrnn : (getV r "order_id").isNull = false := by
    rw [← hkey]
    exact hnn
  obtain ⟨hov, hfr, hni, hpi, hsi⟩ := hform hrnn
  refine ⟨?_, ?_, ?_, ?_, ?_⟩
  · rw [hitems "order_value" (by decide), hkey]
    exact hov
  · rw [hitems "freight_value" (by decide), hkey]
    exact hfr
  · rw [hitems "num_items" (by decide), hkey]
    exact hni
  · rw [hitems "product_id" (by decide), hkey]
    exact hpi
  · rw [hitems "seller_id" (by decide), hkey]
    exact hsi

unseal Rat.add in
/-- Witness for C5: the two-item order (prices 10 and 20, freights 1 and 2)
yields order_value 30, freight_value 3, num_items 2, and the first product and
seller. -/
theorem C5_order_item_aggregates_witness :
    getV ((build_modeling_dataframe_pure wTables).rows.headD []) "order_value" = .num 30 ∧
    getV ((build_modeling_dataframe_pure wTables).rows.headD []) "freight_value" = .num 3 ∧
    getV ((build_modeling_dataframe_pure wTables).rows.headD []) "num_items" = .int 2 ∧
    getV ((build_modeling_dataframe_pure wTables).rows.headD []) "product_id" = .str "P1" ∧
    getV ((build_modeling_dataframe_pure wTables).rows.headD []) "seller_id" = .str "S1" := by
  have hne : (build_modeling_dataframe_pure wTables).rows ≠ [] := by decide
  have hmem : (build_modeling_dataframe_pure wTables).rows.headD [] ∈
      (build_modeling_dataframe_pure wTables).rows := by
    cases h : (build_modeling_dataframe_pure wTables).rows with
    | nil => exact absurd h hne
    | cons a as => exact List.mem_cons_self a as
  have h := C5_order_item_aggregates wTables (by decide) _ hmem (by decide)
  exact ⟨h.1.trans (by decide), h.2.1.trans (by decide), h.2.2.1.trans (by decide),
    h.2.2.2.1.trans (by decide), h.2.2.2.2.trans (by decide)⟩

/-- Counterexample for C5 as claimed: an order with two item rows, the first
carrying a null order_item_id and a null product_id, gets num_items 1 (not the
row count 2) and product_id "P2" (not the first value in loaded row order). -/
theorem C5_counterexample :
    (c5Tables.order_items.rows.filter
      (fun r => valueBeq (getV r "order_id") (.str "A1"))).length = 2 ∧
    getV (c5Tables.order_items.rows.headD []) "product_id" = Value.null ∧
    getV ((build_modeling_dataframe_pure c5Tables).rows.headD []) "order_id" = .str "A1" ∧
    getV ((build_modeling_dataframe_pure c5Tables).rows.headD []) "num_items" = .int 1 ∧
    getV ((build_modeling_dataframe_pure c5Tables).rows.headD []) "product_id" = .str "P2" := by
  decide

/-! ### num_items and payment_installments (claim C6) -/

/-- Null-or-non-negative numeric: the input regime in which `fillna(0)` and
`astype(int)` produce a non-negative integer. -/
def nonNegOrNull : Value → Bool
  | .null => true
  | .int n => decide (0 ≤ n)
  | .num q => decide (0 ≤ q)
  | _ => false

theorem astypeInt_fillna_nonneg {v : Value} (h : nonNegOrNull v = true) :
    ∃ m : Int, astypeIntV (fillnaVal v (.int 0)) = .int m ∧ 0 ≤ m := by
  cases v with
  | null => exact ⟨0, rfl, le_refl 0⟩
  | int n =>
      refine ⟨n, by simp [fillnaVal, astypeIntV], ?_⟩
      simpa [nonNegOrNull] using h
  | num q =>
      have hq : (0 : ℚ) ≤ q := by simpa [nonNegOrNull] using h
      refine ⟨truncRat q, by simp [fillnaVal, astypeIntV], ?_⟩
      rw [truncRat, if_neg (not_lt.mpr hq)]
      exact Int.floor_nonneg.mpr hq
  | str s => simp [nonNegOrNull] at h
  | date s => simp [nonNegOrNull] at h

/-- Inside `stage_items`, num_items is always a non-negative integer: the
aggregate count when the order matched, else the filled 0. -/
theorem stage_items_num_items {t : Tables} {df : DataFrame} {B : List String}
    (hB : KeysBound df B) (hno : ∀ c ∈ itemsAddCols, c ∉ B) :
    ∀ x ∈ (stage_items t df).rows, ∃ n : Int, getV x "num_items" = .int n ∧ 0 ≤ n := by
  intro x hx
  simp only [stage_items, fillnaCol, astypeIntCol] at hx
  obtain ⟨x5, hx5, he⟩ := setCol_origin hx
  obtain ⟨x4, hx4, he5⟩ := setCol_origin hx5
  obtain ⟨x3, hx3, he4⟩ := setCol_origin hx4
  obtain ⟨x2, hx2, he3⟩ := setCol_origin hx3
  obtain ⟨x1, hx1, he2⟩ := setCol_origin hx2
  obtain ⟨x0, hx0, he1⟩ := setCol_origin hx1
  have hvn : getV x "num_items" = astypeIntV (fillnaVal (getV x0 "num_items") (.int 0)) := by
    rw [he, getV_setV_ne (by decide), he5, getV_setV_ne (by decide), he4, getV_setV_self]
    congr 1
    rw [he3, getV_setV_self]
    congr 1
    rw [he2, getV_setV_ne (by decide), he1, getV_setV_ne (by decide)]
  obtain ⟨lr, hlr, hcase⟩ := merge_left_cases hx0
  have hlrnone : rlookup "num_items" lr = none := by
    apply rlookup_none_of_keys
    intro p hp hh
    exact (hno "num_items" (by simp [itemsAddCols])) (hh ▸ hB lr hlr p hp)
  rcases hcase with ⟨_, he0⟩ | ⟨a, haA, _, he0⟩
  · have h0 : getV x0 "num_items" = Value.null := by
      rw [he0]
      exact getV_append_nullRow_right hlrnone
    exact ⟨0, by rw [hvn, h0]; rfl, le_refl 0⟩
  · obtain ⟨kv, hkv, haeq⟩ := order_agg_rows_mem haA
    have h0 : getV x0 "num_items" = getV a "num_items" := by
      rw [he0]
      exact getV_append_erase_right hlrnone (by decide)
    have hav : getV a "num_items" = .int (aggCount (groupRows
        (parse_dates t.order_items ["shipping_limit_date"]) "order_id" kv) "order_item_id") := by
      rw [haeq]
      simp [getV, rlookup]
    refine ⟨(aggCount (groupRows (parse_dates t.order_items ["shipping_limit_date"])
      "order_id" kv) "order_item_id" : Nat), ?_, Int.natCast_nonneg _⟩
    rw [hvn, h0, hav]
    rfl

/-- C6: num_items is always a non-null, non-negative integer on every final
row; payment_installments is a non-null integer, non-negative whenever every
input installment value is null or a non-negative number (the code passes a
negative input through unchanged). -/
theorem C6_nonneg_int_columns (t : Tables) (hG : GoodSchema t) :
    ∀ x ∈ (build_modeling_dataframe_pure t).rows,
      (∃ n : Int, getV x "num_items" = .int n ∧ 0 ≤ n) ∧
      ((∀ pr ∈ t.order_payments.rows,
          nonNegOrNull (getV pr "payment_installments") = true) →
        ∃ m : Int, getV x "payment_installments" = .int m ∧ 0 ≤ m) := by
  intro x hx
  constructor
  · obtain ⟨y, hy, hpres⟩ := after_items_origin t x hx
    obtain ⟨n, hn, hnn⟩ :=
      stage_items_num_items (preItems_keysBound hG) (itemsAdd_not_pre hG) y hy
    refine ⟨n, ?_, hnn⟩
    rw [hpres "num_items" (by decide)]
    exact hn
  · intro hin
    obtain ⟨y, hy, hpres⟩ := after_payments_origin t x hx
    have hinst : t.order_payments.cols.contains "payment_installments" = true :=
      contains_of_mem hG.2.2.2.2.2.2.2.2.2.1
    obtain ⟨r, hr, hrpres, hval⟩ :=
      stage_payments_spec t (prePay_keysBound hG) (payAdd_not_pre hG) hinst y hy
    have hxy : getV x "payment_installments" = getV y "payment_installments" :=
      hpres "payment_installments" (by decide)
    rcases hval with h0 | ⟨pr, hpr, hprv⟩
    · exact ⟨0, by rw [hxy, h0], le_refl 0⟩
    · obtain ⟨m, hm, hmn⟩ := astypeInt_fillna_nonneg (hin pr hpr)
      refine ⟨m, ?_, hmn⟩
      rw [hxy, hprv, hm]

/-- Witness for C6: on the concrete run the theorem yields the non-negative
integers, evaluating to num_items 2 and payment_installments 3. -/
theorem C6_nonneg_int_columns_witness :
    (∃ n : Int, getV ((build_modeling_dataframe_pure wTables).rows.headD [])
      "num_items" = .int n ∧ 0 ≤ n) ∧
    (∃ m : Int, getV ((build_modeling_dataframe_pure wTables).rows.headD [])
      "payment_installments" = .int m ∧ 0 ≤ m) ∧
    getV ((build_modeling_dataframe_pure wTables).rows.headD []) "num_items" = .int 2 ∧
    getV ((build_modeling_dataframe_pure wTables).rows.headD [])
      "payment_installments" = .int 3 := by
  have hne : (build_modeling_dataframe_pure wTables).rows ≠ [] := by decide
  have hmem : (build_modeling_dataframe_pure wTables).rows.headD [] ∈
      (build_modeling_dataframe_pure wTables).rows := by
    cases h : (build_modeling_dataframe_pure wTables).rows with
    | nil => exact absurd h hne
    | cons a as => exact List.mem_cons_self a as
  have h := C6_nonneg_int_columns wTables (by decide) _ hmem
  exact ⟨h.1, h.2 (by decide), by decide, by decide⟩

/-- Counterexample for C6 as claimed: a payment with installments -3 reaches
the output unchanged, so "non-negative" fails without an input-side bound. -/
theorem C6_counterexample :
    getV (c6Tables.order_payments.rows.headD []) "payment_installments" = .int (-3) ∧
    getV ((build_modeling_dataframe_pure c6Tables).rows.headD [])
      "payment_installments" = .int (-3) := by
  decide

/-! ### Category translation with fallback (claim C7) -/

/-- C7: with no translation table, product_category_english is the category
name with nulls first filled to "" and then rendered as a string; with a
well-keyed translation table it is the translated name when a translation row
matches, else the original value rendered by `astype(str)` — which turns a
null category into the string "nan", not back into null. -/
theorem C7_category_translation (t : Tables) (hG : GoodSchema t) :
    (t.category_translation = none →
      ∀ x ∈ (build_modeling_dataframe_pure t).rows,
        getV x "product_category_english" =
          astypeStrV (fillnaVal (getV x "product_category_name") (.str ""))) ∧
    (∀ tr, t.category_translation = some tr →
      tr.cols.contains "product_category_name" = true →
      tr.cols.contains "product_category_name_english" = true →
      UniqKeys tr "product_category_name" →
      ∀ x ∈ (build_modeling_dataframe_pure t).rows,
        getV x "product_category_english" =
          fillnaVal (transLookup tr (getV x "product_category_name"))
            (astypeStrV (getV x "product_category_name"))) := by
  constructor
  · intro htr x hx
    obtain ⟨y, hy, hpres⟩ := after_translation_origin t x hx
    obtain ⟨r, hr, hrpres, hval⟩ := stage_translation_spec_none t htr y hy
    rw [hpres "product_category_english" (by decide),
      hpres "product_category_name" (by decide)]
    exact hval
  · intro tr htr hpcn hen hu x hx
    obtain ⟨y, hy, hpres⟩ := after_translation_origin t x hx
    obtain ⟨r, hr, hrpres, hval⟩ := stage_translation_spec_present t htr hpcn hen hu
      (preTrans_keysBound hG) (pce_not_preTrans hG) y hy
    rw [hpres "product_category_english" (by decide),
      hpres "product_category_name" (by decide)]
    exact hval

/-- Witness for C7: the concrete run translates "moveis" to "furniture". -/
theorem C7_category_translation_witness :
    getV ((build_modeling_dataframe_pure wTables).rows.headD [])
      "product_category_english" = .str "furniture" := by
  have hne : (build_modeling_dataframe_pure wTables).rows ≠ [] := by decide
  have hmem : (build_modeling_dataframe_pure wTables).rows.headD [] ∈
      (build_modeling_dataframe_pure wTables).rows := by
    cases h : (build_modeling_dataframe_pure wTables).rows with
    | nil => exact absurd h hne
    | cons a as => exact List.mem_cons_self a as
  have h := (C7_category_translation wTables (by decide)).2 wTrans rfl
    (by decide) (by decide) (by unfold UniqKeys; decide) _ hmem
  exact h.trans (by decide)

/-- Counterexample for C7 as claimed: a null category with a translation table
present yields the literal string "nan", not the original (null) value. -/
theorem C7_counterexample :
    getV ((build_modeling_dataframe_pure c7Tables).rows.headD [])
      "product_category_name" = Value.null ∧
    getV ((build_modeling_dataframe_pure c7Tables).rows.headD [])
      "product_category_english" = .str "nan" := by
  decide

/-! ### Zip-prefix coercion before the geolocation joins (claim C8) -/

/-- C8: both zip-prefix columns are rewritten to `astype(int)` of their
null-to-0 fill before the geolocation merges, and a row whose prefix was null
joins as key 0: its customer_lat/lng are the zip-0 geolocation aggregate, null
when no zip-0 geolocation row exists. -/
theorem C8_zip_coercion (t : Tables) (hG : GoodSchema t)
    (hgeo : t.geolocation.cols.contains "geolocation_zip_code_prefix" = true) :
    ∀ x ∈ (build_modeling_dataframe_pure t).rows, ∃ r ∈ (pipe_geo t).rows,
      (∀ c, c ∉ geoAddCols → getV x c = getV r c) ∧
      getV x "customer_zip_code_prefix" =
        astypeIntV (fillnaVal (getV r "customer_zip_code_prefix") (.int 0)) ∧
      getV x "seller_zip_code_prefix" =
        astypeIntV (fillnaVal (getV r "seller_zip_code_prefix") (.int 0)) ∧
      (getV r "customer_zip_code_prefix" = Value.null →
        getV x "customer_zip_code_prefix" = .int 0 ∧
        getV x "customer_lat" = geoLookup t.geolocation "geolocation_lat" (.int 0) ∧
        getV x "customer_lng" = geoLookup t.geolocation "geolocation_lng" (.int 0)) := by
  intro x hx
  rw [pure_unfold_pipe, dropDupCols_rows] at hx
  obtain ⟨r, hr, hpres, hcz, hsz, hlat⟩ :=
    stage_geo_spec t hgeo (preGeo_keysBound hG) (latlng_not_pre hG) x hx
  refine ⟨r, hr, hpres, hcz, hsz, ?_⟩
  intro hnull
  have h0 : getV x "customer_zip_code_prefix" = .int 0 := by
    rw [hcz, hnull]
    rfl
  have hnum : numericOrNull (getV r "customer_zip_code_prefix") = true := by
    rw [hnull]
    rfl
  obtain ⟨hla, hln⟩ := hlat hnum
  rw [h0] at hla hln
  exact ⟨h0, hla, hln⟩

/-- Witness for C8: a customer with a missing zip prefix gets key 0, and with
no zip-0 geolocation row its customer_lat is null. -/
theorem C8_zip_coercion_witness :
    (∃ r ∈ (pipe_geo c8Tables).rows,
      (∀ c, c ∉ geoAddCols →
        getV ((build_modeling_dataframe_pure c8Tables).rows.headD []) c = getV r c) ∧
      getV ((build_modeling_dataframe_pure c8Tables).rows.headD [])
          "customer_zip_code_prefix" =
        astypeIntV (fillnaVal (getV r "customer_zip_code_prefix") (.int 0)) ∧
      getV ((build_modeling_dataframe_pure c8Tables).rows.headD [])
          "seller_zip_code_prefix" =
        astypeIntV (fillnaVal (getV r "seller_zip_code_prefix") (.int 0)) ∧
      (getV r "customer_zip_code_prefix" = Value.null →
        getV ((build_modeling_dataframe_pure c8Tables).rows.headD [])
          "customer_zip_code_prefix" = .int 0 ∧
        getV ((build_modeling_dataframe_pure c8Tables).rows.headD [])
          "customer_lat" = geoLookup c8Tables.geolocation "geolocation_lat" (.int 0) ∧
        getV ((build_modeling_dataframe_pure c8Tables).rows.headD [])
          "customer_lng" = geoLookup c8Tables.geolocation "geolocation_lng" (.int 0))) ∧
    getV ((build_modeling_dataframe_pure c8Tables).rows.headD [])
      "customer_zip_code_prefix" = .int 0 ∧
    getV ((build_modeling_dataframe_pure c8Tables).rows.headD [])
      "customer_lat" = Value.null := by
  have hne : (build_modeling_dataframe_pure c8Tables).rows ≠ [] := by decide
  have hmem : (build_modeling_dataframe_pure c8Tables).rows.headD [] ∈
      (build_modeling_dataframe_pure c8Tables).rows := by
    cases h : (build_modeling_dataframe_pure c8Tables).rows with
    | nil => exact absurd h hne
    | cons a as => exact List.mem_cons_self a as
  exact ⟨C8_zip_coercion c8Tables (by decide) (by decide) _ hmem, by decide, by decide⟩

/-! ### Row-count preservation along the pipeline (claim C2) -/

/-- The translation table, when present, is unique-keyed on the category name. -/
def transUniq : Option DataFrame → Prop
  | none => True
  | some tr => UniqKeys tr "product_category_name"

theorem reviews2_any (reviews : DataFrame)
    (hdate : reviews.cols.contains "review_creation_date" = true) (v : Value) :
    (select (dedup_reviews reviews) ["order_id", "review_score"]).rows.any
      (fun rr => valueBeq v (getV rr "order_id")) =
    reviews.rows.any (fun rr => valueBeq (getV rr "order_id") v) := by
  have h1 : (select (dedup_reviews reviews) ["order_id", "review_score"]).rows =
      (dedup_reviews reviews).rows.map (selectRow ["order_id", "review_score"]) := rfl
  rw [h1, any_map_eq]
  have h2 : ∀ rr ∈ (dedup_reviews reviews).rows,
      valueBeq v (getV (selectRow ["order_id", "review_score"] rr) "order_id") =
      valueBeq (getV rr "order_id") v := by
    intro rr _
    rw [getV_selectRow_mem (by simp), valueBeq_symm]
  rw [any_congr_fun h2]
  simp only [dedup_reviews, hdate, if_true]
  have h3 : (dedupLastCol (sort_values reviews "review_creation_date") "order_id").rows =
      dedupLast "order_id" (sort_values reviews "review_creation_date").rows := rfl
  rw [h3, dedupLast_any]
  exact perm_any (sort_values_perm reviews "review_creation_date") _

/-- With the creation-date column present, `build_orders_with_target` emits
one row per orders row with a review match, carrying that order's id. -/
theorem bowt_map_key {orders reviews : DataFrame}
    (hdate : reviews.cols.contains "review_creation_date" = true) :
    (build_orders_with_target orders reviews).rows.map (fun r => getV r "order_id") =
      (orders.rows.map (fun r => getV r "order_id")).filter
        (fun v => reviews.rows.any (fun rr => valueBeq (getV rr "order_id") v)) := by
  have hu : UniqKeys (select (dedup_reviews reviews) ["order_id", "review_score"])
      "order_id" := by
    unfold UniqKeys
    rw [select_map_mem (by simp)]
    simp only [dedup_reviews, hdate, if_true]
    exact dedupLast_pairwise "order_id" _
  have hset : (build_orders_with_target orders reviews).rows.map (fun r => getV r "order_id") =
      (merge_inner orders (select (dedup_reviews reviews) ["order_id", "review_score"])
        "order_id").rows.map (fun r => getV r "order_id") :=
    setCol_map_ne (by decide)
  rw [hset, merge_inner_map_key hu]
  apply List.filter_congr
  intro v _
  exact reviews2_any reviews hdate v

theorem stage_items_map (t : Tables) (df : DataFrame) :
    (stage_items t df).rows.map (fun r => getV r "order_id") =
      df.rows.map (fun r => getV r "order_id") := by
  simp only [stage_items, fillnaCol, astypeIntCol]
  rw [setCol_map_ne (by decide), setCol_map_ne (by decide), setCol_map_ne (by decide),
    setCol_map_ne (by decide), setCol_map_ne (by decide), setCol_map_ne (by decide)]
  exact merge_left_map (order_agg_keysSub _) (order_agg_uniq _) (Or.inl rfl)

theorem stage_payments_map (t : Tables) (df : DataFrame)
    (hoid : t.order_payments.cols.contains "order_id" = true) :
    (stage_payments t df).rows.map (fun r => getV r "order_id") =
      df.rows.map (fun r => getV r "order_id") := by
  simp only [stage_payments, fillnaCol, astypeIntCol]
  rw [setCol_map_ne (by decide), setCol_map_ne (by decide), setCol_map_ne (by decide)]
  have hmem : "order_id" ∈ pay_cols_all.filter (fun c =>
      (dedupFirstCol (sort_values t.order_payments "payment_sequential")
        "order_id").cols.contains c) :=
    List.mem_filter.mpr ⟨by simp [pay_cols_all], hoid⟩
  have hu : UniqKeys (select (dedupFirstCol (sort_values t.order_payments "payment_sequential")
      "order_id") (pay_cols_all.filter (fun c =>
        (dedupFirstCol (sort_values t.order_payments "payment_sequential")
          "order_id").cols.contains c))) "order_id" := by
    unfold UniqKeys
    rw [select_map_mem hmem]
    exact dedupFirstAux_pairwise "order_id" [] _
  exact merge_left_map (select_keysSub _ _) hu (Or.inl rfl)

theorem stage_customers_map (t : Tables) (df : DataFrame)
    (hcid : "customer_id" ∈ t.customers.cols)
    (hu : UniqKeys t.customers "customer_id") :
    (stage_customers t df).rows.map (fun r => getV r "order_id") =
      df.rows.map (fun r => getV r "order_id") := by
  have hmemc : "customer_id" ∈ cust_cols_all.filter (fun c => t.customers.cols.contains c) :=
    List.mem_filter.mpr ⟨by simp [cust_cols_all], contains_of_mem hcid⟩
  have hu2 : UniqKeys (select t.customers
      (cust_cols_all.filter (fun c => t.customers.cols.contains c))) "customer_id" := by
    unfold UniqKeys at hu ⊢
    rw [select_map_mem hmemc]
    exact hu
  apply merge_left_map (select_keysSub _ _) hu2
  right
  intro hmem
  have h1 := (List.mem_filter.mp hmem).1
  revert h1
  decide

theorem stage_sellers_map (t : Tables) (df : DataFrame)
    (hsid : "seller_id" ∈ t.sellers.cols)
    (hu : UniqKeys t.sellers "seller_id") :
    (stage_sellers t df).rows.map (fun r => getV r "order_id") =
      df.rows.map (fun r => getV r "order_id") := by
  have hmems : "seller_id" ∈ seller_cols_all.filter (fun c => t.sellers.cols.contains c) :=
    List.mem_filter.mpr ⟨by simp [seller_cols_all], contains_of_mem hsid⟩
  have hu2 : UniqKeys (select t.sellers
      (seller_cols_all.filter (fun c => t.sellers.cols.contains c))) "seller_id" := by
    unfold UniqKeys at hu ⊢
    rw [select_map_mem hmems]
    exact hu
  apply merge_left_map (select_keysSub _ _) hu2
  right
  intro hmem
  have h1 := (List.mem_filter.mp hmem).1
  revert h1
  decide

theorem stage_products_map (t : Tables) (df : DataFrame)
    (hpid : "product_id" ∈ t.products.cols)
    (hu : UniqKeys t.products "product_id") :
    (stage_products t df).rows.map (fun r => getV r "order_id") =
      df.rows.map (fun r => getV r "order_id") := by
  have hmemp : "product_id" ∈ prod_cols_all.filter (fun c => t.products.cols.contains c) :=
    List.mem_filter.mpr ⟨by simp [prod_cols_all], contains_of_mem hpid⟩
  have hu2 : UniqKeys (select t.products
      (prod_cols_all.filter (fun c => t.products.cols.contains c))) "product_id" := by
    unfold UniqKeys at hu ⊢
    rw [select_map_mem hmemp]
    exact hu
  apply merge_left_map (select_keysSub _ _) hu2
  right
  intro hmem
  have h1 := (List.mem_filter.mp hmem).1
  revert h1
  decide

theorem stage_translation_map (t : Tables) (df : DataFrame)
    (htrOk : transOkB t.category_translation = true)
    (hut : transUniq t.category_translation) :
    (stage_translation t df).rows.map (fun r => getV r "order_id") =
      df.rows.map (fun r => getV r "order_id") := by
  cases htr : t.category_translation with
  | none =>
      simp only [stage_translation, htr]
      exact setCol_map_ne (by decide)
  | some tr =>
      simp only [stage_translation, htr]
      by_cases hpcn : tr.cols.contains "product_category_name"
      · simp only [hpcn, if_true]
        have hen : tr.cols.contains "product_category_name_english" = true := by
          rw [htr] at htrOk
          simp only [transOkB, hpcn, Bool.not_true, Bool.false_or] at htrOk
          exact htrOk
        simp only [hen, if_true]
        have hutr : UniqKeys tr "product_category_name" := by
          rw [htr] at hut
          simpa [transUniq] using hut
        have hu2 : UniqKeys (rename (select tr
            ["product_category_name", "product_category_name_english"])
            "product_category_name_english" "product_category_english")
            "product_category_name" := by
          unfold UniqKeys at hutr ⊢
          rw [rename_map_other (by decide) (by decide), select_map_mem (by simp)]
          exact hutr
        rw [setCol_map_ne (by decide)]
        apply merge_left_map (rename_keysSub (select_keysSub _ _) _ _) hu2
        right
        show "order_id" ∉ (["product_category_name", "product_category_english"] : List String)
        decide
      · simp only [hpcn, Bool.false_eq_true, if_neg, not_false_eq_true]
        exact setCol_map_ne (by decide)

theorem cust_geo_keys_map (geo : DataFrame) :
    (rename (rename (rename (geo_agg_df geo) "zip_prefix" "customer_zip_code_prefix")
      "lat" "customer_lat") "lng" "customer_lng").rows.map
        (fun r => getV r "customer_zip_code_prefix") =
      groupKeys geo "geolocation_zip_code_prefix" := by
  simp only [rename, geo_agg_df, List.map_map]
  conv_rhs => rw [← List.map_id (groupKeys geo "geolocation_zip_code_prefix")]
  apply List.map_congr_left
  intro kv _
  simp only [Function.comp, id]
  rw [cust_geo_row_eq]
  simp [getV, rlookup]

theorem sell_geo_keys_map (geo : DataFrame) :
    (rename (rename (rename (geo_agg_df geo) "zip_prefix" "seller_zip_code_prefix")
      "lat" "seller_lat") "lng" "seller_lng").rows.map
        (fun r => getV r "seller_zip_code_prefix") =
      groupKeys geo "geolocation_zip_code_prefix" := by
  simp only [rename, geo_agg_df, List.map_map]
  conv_rhs => rw [← List.map_id (groupKeys geo "geolocation_zip_code_prefix")]
  apply List.map_congr_left
  intro kv _
  simp only [Function.comp, id]
  rw [sell_geo_row_eq]
  simp [getV, rlookup]

theorem stage_geo_map (t : Tables) (df : DataFrame) :
    (stage_geo t df).rows.map (fun r => getV r "order_id") =
      df.rows.map (fun r => getV r "order_id") := by
  by_cases hgeo : t.geolocation.cols.contains "geolocation_zip_code_prefix"
  · simp only [stage_geo, hgeo, if_true, fillnaCol, astypeIntCol]
    have huC : UniqKeys (rename (rename (rename (geo_agg_df t.geolocation)
        "zip_prefix" "customer_zip_code_prefix") "lat" "customer_lat") "lng" "customer_lng")
        "customer_zip_code_prefix" := by
      unfold UniqKeys
      rw [cust_geo_keys_map]
      exact groupKeys_pairwise _ _
    have huS : UniqKeys (rename (rename (rename (geo_agg_df t.geolocation)
        "zip_prefix" "seller_zip_code_prefix") "lat" "seller_lat") "lng" "seller_lng")
        "seller_zip_code_prefix" := by
      unfold UniqKeys
      rw [sell_geo_keys_map]
      exact groupKeys_pairwise _ _
    rw [merge_left_map (sell_geo_keysSub _) huS (Or.inr (by rw [sell_geo_cols]; decide)),
      merge_left_map (cust_geo_keysSub _) huC (Or.inr (by rw [cust_geo_cols]; decide)),
      setCol_map_ne (by decide), setCol_map_ne (by decide),
      setCol_map_ne (by decide), setCol_map_ne (by decide)]
  · simp only [stage_geo, hgeo, Bool.false_eq_true, if_neg, not_false_eq_true]

theorem sharedOrderIds_eq_filter {orders reviews : DataFrame}
    (hu : UniqKeys orders "order_id") :
    sharedOrderIds orders reviews =
      (orders.rows.map (fun r => getV r "order_id")).filter
        (fun v => reviews.rows.any (fun rr => valueBeq (getV rr "order_id") v)) := by
  unfold sharedOrderIds
  apply dedupValuesAux_eq_self
  · exact hu.filter _
  · exact fun w hw => absurd hw (List.not_mem_nil w)

/-- C2: with the creation-date column present and unique join keys on the
orders, customers, sellers, products and translation tables, the final frame
has exactly one row per order id shared by orders and reviews — its order_id
column lists exactly those ids, and the row count is their count (the
subsequent left joins neither add nor remove rows). -/
theorem C2_one_row_per_reviewed_order (t : Tables) (hG : GoodSchema t)
    (hdate : t.reviews.cols.contains "review_creation_date" = true)
    (huo : UniqKeys t.orders "order_id")
    (huc : UniqKeys t.customers "customer_id")
    (hus : UniqKeys t.sellers "seller_id")
    (hup : UniqKeys t.products "product_id")
    (hut : transUniq t.category_translation) :
    (build_modeling_dataframe_pure t).rows.map (fun r => getV r "order_id") =
      sharedOrderIds t.orders t.reviews ∧
    (build_modeling_dataframe_pure t).rows.length =
      (sharedOrderIds t.orders t.reviews).length := by
  obtain ⟨h1, h2, h3, h4, h5, h6, h7, h8, h9, h10, h11, h12, h13,
    h14, h15, h16, h17, h18⟩ := hG
  have hfinal : (build_modeling_dataframe_pure t).rows.map (fun r => getV r "order_id") =
      sharedOrderIds t.orders t.reviews := by
    rw [pure_unfold_pipe, dropDupCols_rows]
    simp only [pipe_geo, pipe_translation, pipe_products, pipe_sellers, pipe_customers,
      pipe_payments, pipe_items]
    rw [stage_geo_map, stage_translation_map t _ h17 hut,
      stage_products_map t _ h15 hup, stage_sellers_map t _ h13 hus,
      stage_customers_map t _ h11 huc, stage_payments_map t _ (contains_of_mem h7),
      stage_items_map, parse_dates_map_ne (by decide), bowt_map_key hdate,
      ← sharedOrderIds_eq_filter huo]
  refine ⟨hfinal, ?_⟩
  rw [← hfinal, List.length_map]

/-- Witness for C2: the concrete run yields exactly the one shared order id. -/
theorem C2_one_row_per_reviewed_order_witness :
    (build_modeling_dataframe_pure wTables).rows.map (fun r => getV r "order_id") =
      sharedOrderIds wTables.orders wTables.reviews ∧
    (build_modeling_dataframe_pure wTables).rows.length =
      (sharedOrderIds wTables.orders wTables.reviews).length :=
  C2_one_row_per_reviewed_order wTables (by decide) (by decide)
    (by unfold UniqKeys; decide) (by unfold UniqKeys; decide)
    (by unfold UniqKeys; decide) (by unfold UniqKeys; decide)
    (by show UniqKeys wTrans "product_category_name"; unfold UniqKeys; decide)

/-- Counterexample for C2 as claimed: without a review_creation_date column no
deduplication happens at all, so two reviews of one order produce two output
rows although only one order id is shared. -/
theorem C2_counterexample :
    (sharedOrderIds c2Tables.orders c2Tables.reviews).length = 1 ∧
    (build_modeling_dataframe_pure c2Tables).rows.length = 2 := by
  decide

end Olist
